import Mathlib

/-! Event publisher of the Consul state store

A shallow embedding of `agent/consul/state/event_publisher.go`,
`stream_topics.go` and `acl_events.go`.

* Go maps are association lists (`GoMap`); iteration order of a Go map is
  unspecified, the list order stands for one admissible order.
* Pointers are addresses (`Nat`) into an explicit `Heap`; allocation returns the
  next free address.
* The publisher lock, the publish channel, contexts and the TTL timer are not
  represented: every function below is what the code does while it holds the lock.
-/

namespace Consul

/-! ## Go maps -/

/-- A Go map as an association list; the first entry for a key is the binding. -/
abbrev GoMap (K V : Type) := List (K × V)

namespace GoMap

variable {K V : Type} [DecidableEq K]

/-- The Go expression `v, ok := m[k]`. -/
def get : GoMap K V → K → Option V
  | [], _ => none
  | (k1, v) :: rest, k => if k1 = k then some v else get rest k

/-- The Go statement `delete(m, k)`. -/
def del (m : GoMap K V) (k : K) : GoMap K V :=
  m.filter (fun p => !decide (p.1 = k))

/-- The Go statement `m[k] = v`. -/
def set (m : GoMap K V) (k : K) (v : V) : GoMap K V :=
  (k, v) :: del m k

/-- The values visited by `for _, v := range m`. -/
def values (m : GoMap K V) : List V := m.map Prod.snd

end GoMap

/-! ## Data model -/

/-- The enumeration `stream.Topic`; `Other` stands for any further value. -/
inductive Topic where
  | ServiceHealth
  | ACLTokens
  | ACLPolicies
  | ACLRoles
  | Other (n : Nat)
  deriving DecidableEq, Repr

/-- The fields of `structs.ACLToken` the publisher and its tests use; the policy
and role links are kept as the linked IDs. -/
structure ACLToken where
  AccessorID : String
  SecretID : String
  Policies : List String
  Roles : List String
  deriving DecidableEq, Repr

/-- The `ID` of `structs.ACLPolicy`. -/
structure ACLPolicy where
  ID : String
  deriving DecidableEq, Repr

/-- The fields `ID` and `Policies` (linked policy IDs) of `structs.ACLRole`. -/
structure ACLRole where
  ID : String
  Policies : List String
  deriving DecidableEq, Repr

/-- The dynamic type of an `interface{}` value that is not nil: an event payload or
a row of a table. `other` stands for any domain value. -/
inductive Payload where
  | token (t : ACLToken)
  | policy (p : ACLPolicy)
  | role (r : ACLRole)
  | ResumeStream
  | EndOfSnapshot
  | other (tag : Nat)
  deriving DecidableEq, Repr

/-- The record `stream.Event`. -/
structure Event where
  Topic : Topic
  Key : String
  Index : Nat
  Payload : Payload
  deriving DecidableEq, Repr

/-- Go `error` values that are not nil. -/
inductive Error where
  | unknownTopic (t : Topic)
  | other (msg : String)
  deriving DecidableEq, Repr

/-- What a Go call does: return a value, return an error, or panic (a failed
type assertion, a call of a nil function). -/
inductive Outcome (α : Type) where
  | ok (a : α)
  | error (err : Error)
  | panic
  deriving DecidableEq, Repr

/-- The object `*stream.SubscribeRequest`: `addr` is the pointer (the identity of
the object, which keys `subsByToken`), the other fields are its contents. -/
structure SubscribeRequest where
  addr : Nat
  Topic : Topic
  Key : String
  Token : String
  Index : Nat
  deriving DecidableEq, Repr

/-! ## The stream package: buffers, snapshots, subscriptions -/

/-- Modelled from the spec: the forward link of an event batch (`stream` package,
not in the sources at hand): initially empty, set once by an append, or cut
when the chain has been truncated. -/
inductive Link where
  | unset
  | next (item : Nat)
  | truncated
  deriving DecidableEq, Repr

/-- Modelled from the spec: `stream.BufferItem`, an event batch with its forward
link. `link` is the address of the link cell, which a handle made by
`FollowAfter` shares with the item it follows. -/
structure BufferItem where
  Events : List Event
  link : Nat
  deriving DecidableEq, Repr

/-- Modelled from the spec: the state of a subscription, `open`, `reloading` or
`closed`. -/
inductive SubscriptionState where
  | opened
  | reloading
  | closed
  deriving DecidableEq, Repr

/-- Modelled from the spec: `stream.Subscription`, a cursor with its request, its
current batch and its state (the cancellation context is left out). -/
structure Subscription where
  req : SubscribeRequest
  currentItem : Nat
  state : SubscriptionState
  deriving DecidableEq, Repr

/-- Modelled from the spec: `stream.EventSnapshot`: the head `Snap` of its private
buffer, that buffer, and the error slot. -/
structure EventSnapshot where
  Snap : Nat
  snapBuffer : Nat
  err : Option Error
  deriving DecidableEq, Repr

/-- The objects of the `stream` package that live on the Go heap; an address is an
index into the list of its kind. `buffers` holds the head item of each
`EventBuffer`. `reloadCalls` records, in order, the subscriptions `CloseReload`
was called on. -/
structure Heap where
  items : List BufferItem
  links : List Link
  buffers : List Nat
  snaps : List EventSnapshot
  subs : List Subscription
  reloadCalls : List Nat
  deriving DecidableEq, Repr

/-- The heap with no object. -/
def Heap.empty : Heap := ⟨[], [], [], [], [], []⟩

/-- The batch at an address. -/
def Heap.item (h : Heap) (a : Nat) : BufferItem := h.items.getD a ⟨[], 0⟩

/-- The contents of a link cell. -/
def Heap.linkAt (h : Heap) (l : Nat) : Link := h.links.getD l Link.unset

/-- Modelled from the spec: a new batch with the given events and an empty forward
link. -/
def NewBufferItem (h : Heap) (events : List Event) : Nat × Heap :=
  (h.items.length,
    { h with items := h.items ++ [⟨events, h.links.length⟩],
             links := h.links ++ [Link.unset] })

/-- Modelled from the spec: `stream.NewEventBuffer`; the head of a new buffer is a
sentinel empty batch. -/
def NewEventBuffer (h : Heap) : Nat × Heap :=
  let r := NewBufferItem h []
  (r.2.buffers.length, { r.2 with buffers := r.2.buffers ++ [r.1] })

/-- Modelled from the spec: `EventBuffer.Head`, the current head batch. -/
def Head (h : Heap) (buf : Nat) : Nat := h.buffers.getD buf 0

/-- Modelled from the spec: `EventBuffer.AppendBuffer`: set the forward link of the
current head to the given batch, which becomes the head. -/
def AppendBuffer (h : Heap) (buf item : Nat) : Heap :=
  { h with links := h.links.set (h.item (Head h buf)).link (Link.next item),
           buffers := h.buffers.set buf item }

/-- Modelled from the spec: `EventBuffer.Append`: publish one batch holding the
given events after the current head. -/
def Append (h : Heap) (buf : Nat) (events : List Event) : Heap :=
  let r := NewBufferItem h events
  AppendBuffer r.2 buf r.1

/-- Modelled from the spec: `BufferItem.FollowAfter`: a handle (a batch without
events sharing the forward link of `item`) that a new buffer attaches to in
order to continue with whatever is linked after `item`; fails when the chain has
been truncated. -/
def FollowAfter (h : Heap) (item : Nat) : Except Error (Nat × Heap) :=
  match h.linkAt (h.item item).link with
  | Link.truncated => Except.error (Error.other "buffer truncated")
  | _ => Except.ok (h.items.length, { h with items := h.items ++ [⟨[], (h.item item).link⟩] })

/-- Modelled from the spec: `stream.NewSubscription`, a cursor in state `open`
positioned at `item`. -/
def NewSubscription (h : Heap) (req : SubscribeRequest) (item : Nat) : Nat × Heap :=
  (h.subs.length, { h with subs := h.subs ++ [⟨req, item, SubscriptionState.opened⟩] })

/-- Modelled from the spec: `Subscription.CloseReload`: `open` becomes `reloading`,
any other state stays (idempotent). The call is recorded in `reloadCalls`. -/
def CloseReload (h : Heap) (sub : Nat) : Heap :=
  { h with
    subs := match h.subs[sub]? with
      | some s =>
        if s.state = SubscriptionState.opened then
          h.subs.set sub { s with state := SubscriptionState.reloading }
        else h.subs
      | none => h.subs
    reloadCalls := h.reloadCalls ++ [sub] }

/-- The batch linked after `item`, if the forward link is set. -/
def nextItem (h : Heap) (item : Nat) : Option Nat :=
  match h.linkAt (h.item item).link with
  | Link.next n => some n
  | _ => none

/-- Modelled from the spec: whether a payload is a control marker. -/
def Payload.isControl : Payload → Bool
  | Payload.ResumeStream => true
  | Payload.EndOfSnapshot => true
  | _ => false

/-- Modelled from the spec: the events of a batch a subscription delivers: those of
the topic of the request whose key matches (if the request has a key); control
markers are delivered whatever their key. -/
def deliverable (req : SubscribeRequest) (events : List Event) : List Event :=
  events.filter (fun ev =>
    decide (ev.Topic = req.Topic) &&
      (decide (req.Key = "") || decide (ev.Key = req.Key) || ev.Payload.isControl))

/-- Modelled from the spec: the batches successive calls of `Subscription.Next`
return to a cursor at `item` (at most `fuel` batches of the chain are walked;
a batch with nothing to deliver is skipped; the walk ends where the next call
would block). -/
def delivered (h : Heap) (req : SubscribeRequest) : Nat → Nat → List (List Event)
  | 0, _ => []
  | fuel + 1, item =>
    match nextItem h item with
    | none => []
    | some n =>
      if (deliverable req (h.item n).Events).isEmpty then delivered h req fuel n
      else deliverable req (h.item n).Events :: delivered h req fuel n

/-- A later heap: the batches allocated so far are still there unchanged and a
forward link that was set is still set to the same batch (batches are
immutable and the chain is append-only). -/
def Heap.later (h g : Heap) : Prop :=
  (∀ a, a < h.items.length → g.items[a]? = h.items[a]?) ∧
  (∀ l n : Nat, h.links[l]? = some (Link.next n) → g.links[l]? = some (Link.next n))

/-! ## The state store as the publisher sees it -/

/-- Modelled from the spec: the state store is a black box; of its contents only the
ACL token and role tables are represented. -/
structure Store where
  tokens : List ACLToken
  roles : List ACLRole
  deriving DecidableEq, Repr

/-- The three index queries `handleACLUpdate` makes on the read transaction. -/
inductive Query where
  | tokensByPolicy (id : String)
  | rolesByPolicy (id : String)
  | tokensByRole (id : String)
  deriving DecidableEq, Repr

/-- Modelled from the spec: the read-only transaction handle `*txn`: the commit
index, the ACL token and role tables as of the commit, and for each query
whether it fails (and with which error). -/
structure txn where
  Index : Nat
  tokens : List ACLToken
  roles : List ACLRole
  fail : Query → Option Error

/-- Modelled from the spec: `aclTokenListByPolicy` (not in the sources at hand):
all tokens directly linking the policy, or the error of a failing query. -/
def aclTokenListByPolicy (tx : txn) (policy : String) : Except Error (List ACLToken) :=
  match tx.fail (Query.tokensByPolicy policy) with
  | some err => Except.error err
  | none => Except.ok (tx.tokens.filter (fun t => decide (policy ∈ t.Policies)))

/-- Modelled from the spec: `aclRoleListByPolicy` (not in the sources at hand): all
roles linking the policy, or the error of a failing query. -/
def aclRoleListByPolicy (tx : txn) (policy : String) : Except Error (List ACLRole) :=
  match tx.fail (Query.rolesByPolicy policy) with
  | some err => Except.error err
  | none => Except.ok (tx.roles.filter (fun r => decide (policy ∈ r.Policies)))

/-- Modelled from the spec: `aclTokenListByRole` (not in the sources at hand): all
tokens linking the role, or the error of a failing query. -/
def aclTokenListByRole (tx : txn) (role : String) : Except Error (List ACLToken) :=
  match tx.fail (Query.tokensByRole role) with
  | some err => Except.error err
  | none => Except.ok (tx.tokens.filter (fun t => decide (role ∈ t.Roles)))

/-- The record `memdb.Change`: the table and the row before and after the change
(`none` is the nil interface). -/
structure Change where
  Table : String
  Before : Option Payload
  After : Option Payload
  deriving DecidableEq, Repr

/-- The method `memdb.Change.Deleted`: there was a row and there is none now. -/
def Change.Deleted (c : Change) : Bool := c.Before.isSome && c.After.isNone

/-! ## `acl_events.go` -/

/-- The closure `getObj` of `aclEventsFromChanges`. -/
def getObj (change : Change) : Option Payload :=
  if change.Deleted then change.Before else change.After

/-- The function `aclEventsFromChanges`: one event per change to an ACL table. A type
assertion on a row of another type (or on nil) panics. -/
def aclEventsFromChanges (tx : txn) : List Change → List Event → Outcome (List Event)
  | [], events => Outcome.ok events
  | change :: rest, events =>
    if change.Table = "acl-tokens" then
      match getObj change with
      | some (Payload.token token) =>
        aclEventsFromChanges tx rest
          (events ++ [⟨Topic.ACLTokens, "", tx.Index, Payload.token token⟩])
      | _ => Outcome.panic
    else if change.Table = "acl-policies" then
      match getObj change with
      | some (Payload.policy policy) =>
        aclEventsFromChanges tx rest
          (events ++ [⟨Topic.ACLPolicies, "", tx.Index, Payload.policy policy⟩])
      | _ => Outcome.panic
    else if change.Table = "acl-roles" then
      match getObj change with
      | some (Payload.role role) =>
        aclEventsFromChanges tx rest
          (events ++ [⟨Topic.ACLRoles, "", tx.Index, Payload.role role⟩])
      | _ => Outcome.panic
    else aclEventsFromChanges tx rest events

/-! ## `stream_topics.go` -/

/-- What a snapshot function does with the buffer it is given: it appends the given
batches and returns the index of the snapshot, or it returns an error; `panic`
is the call of a nil function. -/
inductive SnapResult where
  | ok (batches : List (List Event)) (idx : Nat)
  | error (err : Error)
  | panic
  deriving DecidableEq, Repr

/-- The type `stream.SnapFn`, a snapshot function bound to the store. -/
abbrev SnapFn := SubscribeRequest → SnapResult

/-- The record `topicHandlers`; `none` is a nil function. `Snapshot` takes the store
as `NewEventPublisher` passes it. -/
structure topicHandlers where
  Snapshot : Option (Store → SubscribeRequest → SnapResult)
  ProcessChanges : Option (txn → List Change → Outcome (List Event))

/-- The value `init` gives `topicRegistry`: the only entry is `Topic_ACLTokens`, with
no `Snapshot`. -/
def topicRegistry : GoMap Topic topicHandlers :=
  [(Topic.ACLTokens, ⟨none, some (fun tx changes => aclEventsFromChanges tx changes [])⟩)]

/-! ## `event_publisher.go` -/

/-- The record `EventPublisher` (without its lock and channel). `topicBuffers` holds
buffer addresses, `snapCache` snapshot addresses, `subsByToken` maps a token to
the map from request address to subscription address. -/
structure EventPublisher where
  store : Store
  topicBufferSize : Int
  snapCacheTTL : Int
  topicBuffers : GoMap Topic Nat
  snapCache : GoMap Topic (GoMap String Nat)
  snapFns : GoMap Topic SnapFn
  subsByToken : GoMap String (GoMap Nat Nat)

/-- The closure `NewEventPublisher` stores in `snapFns`: it calls the registered
snapshot function, which may be nil. -/
def snapFnOf (store : Store) (fnCopy : Option (Store → SubscribeRequest → SnapResult)) : SnapFn :=
  fun req =>
    match fnCopy with
    | some f => f store req
    | none => SnapResult.panic

/-- The function `NewEventPublisher` for the registry `reg` (the source reads the global
`topicRegistry`); the worker goroutine it starts is not represented. -/
def NewEventPublisher (reg : GoMap Topic topicHandlers) (store : Store)
    (topicBufferSize snapCacheTTL : Int) : EventPublisher :=
  { store := store
    topicBufferSize := topicBufferSize
    snapCacheTTL := snapCacheTTL
    topicBuffers := []
    snapCache := []
    snapFns := reg.foldl (fun m p => GoMap.set m p.1 (snapFnOf store p.2.Snapshot)) []
    subsByToken := [] }

/-- The method `getTopicBuffer`: the buffer of the topic, created if there is none. -/
def getTopicBuffer (e : EventPublisher) (h : Heap) (topic : Topic) :
    Nat × EventPublisher × Heap :=
  match GoMap.get e.topicBuffers topic with
  | some buf => (buf, e, h)
  | none =>
    let r := NewEventBuffer h
    (r.1, { e with topicBuffers := GoMap.set e.topicBuffers topic r.1 }, r.2)

/-- The loop `for _, sub := range subs { sub.CloseReload() }`. -/
def closeAll (h : Heap) (subs : GoMap Nat Nat) : Heap :=
  (GoMap.values subs).foldl CloseReload h

/-- The method `closeSubscriptionsForTokens`. -/
def closeSubscriptionsForTokens (e : EventPublisher) (h : Heap) (tokens : List ACLToken) : Heap :=
  tokens.foldl
    (fun h1 token =>
      match GoMap.get e.subsByToken token.SecretID with
      | some subs => closeAll h1 subs
      | none => h1)
    h

/-- The loop over the roles in the policy case of `handleACLUpdate`. -/
def closeSubscriptionsForRoles (e : EventPublisher) (tx : txn) :
    Heap → List ACLRole → Outcome Unit × Heap
  | h, [] => (Outcome.ok (), h)
  | h, role :: rest =>
    match aclTokenListByRole tx role.ID with
    | Except.error err => (Outcome.error err, h)
    | Except.ok tokens =>
      closeSubscriptionsForRoles e tx (closeSubscriptionsForTokens e h tokens) rest

/-- The method `handleACLUpdate`; the result is the returned error (`ok` for nil) and
the heap after the `CloseReload` calls made. A payload that is not of the type
of its topic makes the type assertion panic. -/
def handleACLUpdate (e : EventPublisher) (h : Heap) (tx : txn) (event : Event) :
    Outcome Unit × Heap :=
  match event.Topic with
  | Topic.ACLTokens =>
    match event.Payload with
    | Payload.token token =>
      (Outcome.ok (), closeAll h ((GoMap.get e.subsByToken token.SecretID).getD []))
    | _ => (Outcome.panic, h)
  | Topic.ACLPolicies =>
    match event.Payload with
    | Payload.policy policy =>
      match aclTokenListByPolicy tx policy.ID with
      | Except.error err => (Outcome.error err, h)
      | Except.ok tokens =>
        match aclRoleListByPolicy tx policy.ID with
        | Except.error err => (Outcome.error err, closeSubscriptionsForTokens e h tokens)
        | Except.ok roles =>
          closeSubscriptionsForRoles e tx (closeSubscriptionsForTokens e h tokens) roles
    | _ => (Outcome.panic, h)
  | Topic.ACLRoles =>
    match event.Payload with
    | Payload.role role =>
      match aclTokenListByRole tx role.ID with
      | Except.error err => (Outcome.error err, h)
      | Except.ok tokens => (Outcome.ok (), closeSubscriptionsForTokens e h tokens)
    | _ => (Outcome.panic, h)
  | _ => (Outcome.ok (), h)

/-- Modelled from the spec: `stream.NewEventSnapshot`: a private buffer with head
`Snap`; the snapshot function appends its batches to it; then the end-of-snapshot
marker is appended and the buffer is spliced to what follows `topicBufferHead`.
An error of the snapshot function or of `FollowAfter` goes to the error slot.
A snapshot function that is nil panics when it is called. -/
def NewEventSnapshot (h : Heap) (req : SubscribeRequest) (topicBufferHead : Nat)
    (fn : SnapFn) : Outcome Nat × Heap :=
  let b := NewEventBuffer h
  let snapHead := Head b.2 b.1
  match fn req with
  | SnapResult.panic => (Outcome.panic, b.2)
  | SnapResult.error err =>
    (Outcome.ok b.2.snaps.length, { b.2 with snaps := b.2.snaps ++ [⟨snapHead, b.1, some err⟩] })
  | SnapResult.ok batches idx =>
    let h1 := batches.foldl (fun g events => Append g b.1 events) b.2
    let h2 := Append h1 b.1 [⟨req.Topic, req.Key, idx, Payload.EndOfSnapshot⟩]
    match FollowAfter h2 topicBufferHead with
    | Except.error err =>
      (Outcome.ok h2.snaps.length, { h2 with snaps := h2.snaps ++ [⟨snapHead, b.1, some err⟩] })
    | Except.ok f =>
      let h3 := AppendBuffer f.2 b.1 f.1
      (Outcome.ok h3.snaps.length, { h3 with snaps := h3.snaps ++ [⟨snapHead, b.1, none⟩] })

/-- The snapshot object at an address. -/
def Heap.snap (h : Heap) (a : Nat) : EventSnapshot := h.snaps.getD a ⟨0, 0, none⟩

/-- The method `getSnapshotLocked`. The timer that deletes the cache entry after
`snapCacheTTL` is not represented. -/
def getSnapshotLocked (e : EventPublisher) (h : Heap) (req : SubscribeRequest)
    (topicHead : Nat) : Outcome Nat × EventPublisher × Heap :=
  -- See if there is a cached snapshot
  let topicSnaps := (GoMap.get e.snapCache req.Topic).getD []
  let e1 : EventPublisher :=
    match GoMap.get e.snapCache req.Topic with
    | some _ => e
    | none => { e with snapCache := GoMap.set e.snapCache req.Topic [] }
  let cached : Option Nat :=
    match GoMap.get topicSnaps req.Key with
    | some snap => if (h.snap snap).err = none then some snap else none
    | none => none
  match cached with
  | some snap => (Outcome.ok snap, e1, h)
  | none =>
    -- No snap or errored snap in cache, create a new one
    match GoMap.get e1.snapFns req.Topic with
    | none => (Outcome.error (Error.unknownTopic req.Topic), e1, h)
    | some snapFn =>
      match NewEventSnapshot h req topicHead snapFn with
      | (Outcome.ok snap, h1) =>
        if e1.snapCacheTTL > 0 then
          (Outcome.ok snap,
            { e1 with snapCache :=
                GoMap.set e1.snapCache req.Topic (GoMap.set topicSnaps req.Key snap) },
            h1)
        else (Outcome.ok snap, e1, h1)
      | (Outcome.error err, h1) => (Outcome.error err, e1, h1)
      | (Outcome.panic, h1) => (Outcome.panic, e1, h1)

/-- The test `req.Index > 0 && len(topicHead.Events) > 0 &&
topicHead.Events[0].Index == req.Index` of `Subscribe`. -/
def canResume (req : SubscribeRequest) (topicHeadEvents : List Event) : Bool :=
  decide (req.Index > 0) && decide (topicHeadEvents.length > 0) &&
    (match topicHeadEvents.head? with
     | some ev => decide (ev.Index = req.Index)
     | none => false)

/-- The last statements of `Subscribe`: store the subscription under the token of the
request, keyed by the request object. -/
def registerSub (e : EventPublisher) (req : SubscribeRequest) (sub : Nat) : EventPublisher :=
  let subsByToken := (GoMap.get e.subsByToken req.Token).getD []
  { e with subsByToken := GoMap.set e.subsByToken req.Token (GoMap.set subsByToken req.addr sub) }

/-- The first branch of the `if` of `Subscribe` (the resume of a stream), followed by
the registration of the subscription: a private buffer holding the one
`ResumeStream` event, spliced to what follows `topicHead`. -/
def subscribeResume (e : EventPublisher) (h : Heap) (req : SubscribeRequest)
    (topicHead : Nat) : Outcome Nat × EventPublisher × Heap :=
  let ev : Event := ⟨req.Topic, req.Key, req.Index, Payload.ResumeStream⟩
  -- Make a new buffer to send to the client containing the resume.
  let nb := NewEventBuffer h
  -- Store the head of that buffer before we append to it
  let subHead := Head nb.2 nb.1
  let h2 := Append nb.2 nb.1 [ev]
  -- Now splice the rest of the topic buffer on
  match FollowAfter h2 topicHead with
  | Except.error err => (Outcome.error err, e, h2)
  | Except.ok f =>
    let h3 := AppendBuffer f.2 nb.1 f.1
    let s := NewSubscription h3 req subHead
    (Outcome.ok s.1, registerSub e req s.1, s.2)

/-- The `else` branch of `Subscribe` (the snapshot), followed by the registration of the
subscription. -/
def subscribeSnapshot (e : EventPublisher) (h : Heap) (req : SubscribeRequest)
    (topicHead : Nat) : Outcome Nat × EventPublisher × Heap :=
  match getSnapshotLocked e h req topicHead with
  | (Outcome.ok snap, e2, h2) =>
    let s := NewSubscription h2 req (h2.snap snap).Snap
    (Outcome.ok s.1, registerSub e2 req s.1, s.2)
  | (Outcome.error err, e2, h2) => (Outcome.error err, e2, h2)
  | (Outcome.panic, e2, h2) => (Outcome.panic, e2, h2)

/-- The method `Subscribe` for the registry `reg` (the source reads the global
`topicRegistry`): the returned subscription or error, the publisher and the heap
after the call. -/
def Subscribe (reg : GoMap Topic topicHandlers) (e : EventPublisher) (h : Heap)
    (req : SubscribeRequest) : Outcome Nat × EventPublisher × Heap :=
  -- Ensure we know how to make a snapshot for this topic
  match GoMap.get reg req.Topic with
  | none => (Outcome.error (Error.unknownTopic req.Topic), e, h)
  | some _ =>
    -- Ensure there is a topic buffer for that topic
    let b := getTopicBuffer e h req.Topic
    -- See if we need a snapshot
    let topicHead := Head b.2.2 b.1
    if canResume req (b.2.2.item topicHead).Events then
      subscribeResume b.2.1 b.2.2 req topicHead
    else
      subscribeSnapshot b.2.1 b.2.2 req topicHead

/-- The method `Unsubscribe`. -/
def Unsubscribe (e : EventPublisher) (req : SubscribeRequest) : EventPublisher :=
  match GoMap.get e.subsByToken req.Token with
  | none => e
  | some subsByToken =>
    let subsByToken1 := GoMap.del subsByToken req.addr
    if subsByToken1.length = 0 then
      { e with subsByToken := GoMap.del e.subsByToken req.Token }
    else
      { e with subsByToken := GoMap.set e.subsByToken req.Token subsByToken1 }

/-- The record `commitUpdate`. -/
structure commitUpdate where
  tx : txn
  events : List Event

/-- Whether `sendEvents` treats the topic as an ACL update. -/
def isACLTopic (t : Topic) : Bool :=
  decide (t = Topic.ACLTokens) || decide (t = Topic.ACLPolicies) || decide (t = Topic.ACLRoles)

/-- The first loop of `sendEvents`: ACL events go to `handleACLUpdate` (an error
there panics), the others are collected by topic. -/
def splitEvents (e : EventPublisher) (tx : txn) :
    List Event → Heap → GoMap Topic (List Event) → Outcome (GoMap Topic (List Event)) × Heap
  | [], h, eventsByTopic => (Outcome.ok eventsByTopic, h)
  | event :: rest, h, eventsByTopic =>
    if isACLTopic event.Topic then
      match handleACLUpdate e h tx event with
      | (Outcome.ok _, h1) => splitEvents e tx rest h1 eventsByTopic
      | (_, h1) => (Outcome.panic, h1)
    else
      splitEvents e tx rest h
        (GoMap.set eventsByTopic event.Topic
          ((GoMap.get eventsByTopic event.Topic).getD [] ++ [event]))

/-- The second loop of `sendEvents`: one `Append` per topic collected. -/
def appendByTopic : List (Topic × List Event) → EventPublisher → Heap → EventPublisher × Heap
  | [], e, h => (e, h)
  | (topic, events) :: rest, e, h =>
    let b := getTopicBuffer e h topic
    appendByTopic rest b.2.1 (Append b.2.2 b.1 events)

/-- The method `sendEvents`. -/
def sendEvents (e : EventPublisher) (h : Heap) (update : commitUpdate) :
    Outcome Unit × EventPublisher × Heap :=
  match splitEvents e update.tx update.events h [] with
  | (Outcome.ok eventsByTopic, h1) =>
    let r := appendByTopic eventsByTopic e h1
    (Outcome.ok (), r.1, r.2)
  | (_, h1) => (Outcome.panic, e, h1)

/-! ## Runs of `Subscribe` and `Unsubscribe` -/

/-- A call a client makes on the publisher. -/
inductive Call where
  | subscribe (req : SubscribeRequest)
  | unsubscribe (req : SubscribeRequest)
  deriving DecidableEq, Repr

/-- The state of a run: the publisher, the heap, and `live`, the subscriptions
returned by a successful `Subscribe` whose request object has not since been
passed to `Unsubscribe`, oldest first. -/
structure RunState where
  pub : EventPublisher
  heap : Heap
  live : List (SubscribeRequest × Nat)

/-- One call of a run. -/
def step (reg : GoMap Topic topicHandlers) (s : RunState) : Call → RunState
  | Call.subscribe req =>
    match Subscribe reg s.pub s.heap req with
    | (Outcome.ok sub, e, h) => ⟨e, h, s.live ++ [(req, sub)]⟩
    | (_, e, h) => ⟨e, h, s.live⟩
  | Call.unsubscribe req =>
    ⟨Unsubscribe s.pub req, s.heap, s.live.filter (fun p => !decide (p.1.addr = req.addr))⟩

/-- The state after a sequence of calls on a new publisher. -/
def run (reg : GoMap Topic topicHandlers) (store : Store) (topicBufferSize snapCacheTTL : Int)
    (calls : List Call) : RunState :=
  calls.foldl (step reg) ⟨NewEventPublisher reg store topicBufferSize snapCacheTTL, Heap.empty, []⟩

/-- The subscription stored in `subsByToken` under a token for a request object. -/
def storedSub (e : EventPublisher) (token : String) (addr : Nat) : Option Nat :=
  match GoMap.get e.subsByToken token with
  | some subs => GoMap.get subs addr
  | none => none

/-- The subscriptions stored in `subsByToken[token]` (none when the key is absent). -/
def subsOf (e : EventPublisher) (token : String) : List Nat :=
  GoMap.values ((GoMap.get e.subsByToken token).getD [])

/-- What a call of `Subscribe` does to `subsByToken` and to the subscriptions of the
heap: on success the new subscription is the next free address and it is
registered; otherwise both are as before. -/
def SubscribeEffect (e : EventPublisher) (h : Heap) (req : SubscribeRequest)
    (r : Outcome Nat × EventPublisher × Heap) : Prop :=
  (r.1 = Outcome.ok h.subs.length ∧
      r.2.1.subsByToken = (registerSub e req h.subs.length).subsByToken ∧
      r.2.2.subs.length = h.subs.length + 1) ∨
    ((∀ sub, r.1 ≠ Outcome.ok sub) ∧ r.2.1.subsByToken = e.subsByToken ∧ r.2.2.subs = h.subs)

/-- The value `topicHead` of `Subscribe`: the head of the buffer `getTopicBuffer` returns. -/
def subscribeTopicHead (e : EventPublisher) (h : Heap) (req : SubscribeRequest) : Nat :=
  Head (getTopicBuffer e h req.Topic).2.2 (getTopicBuffer e h req.Topic).1

/-- The events of the batch `topicHead` of `Subscribe`. -/
def subscribeTopicHeadEvents (e : EventPublisher) (h : Heap) (req : SubscribeRequest) :
    List Event :=
  ((getTopicBuffer e h req.Topic).2.2.item (subscribeTopicHead e h req)).Events

/-- Of the live subscriptions, for each request object the one returned last: an entry
is dropped when a later entry has the same request object. -/
def latestLive : List (SubscribeRequest × Nat) → List (SubscribeRequest × Nat)
  | [] => []
  | p :: rest =>
    if rest.any (fun q => decide (q.1.addr = p.1.addr)) then latestLive rest
    else p :: latestLive rest

/-- Every listed subscription is stored in `subsByToken` under the token of its request,
keyed by the request object, and is stored under no other token. -/
def liveStored (e : EventPublisher) (live : List (SubscribeRequest × Nat)) : Prop :=
  ∀ p ∈ live, storedSub e p.1.Token p.1.addr = some p.2 ∧
    ∀ t, t ≠ p.1.Token → p.2 ∉ subsOf e t

/-- The invariant of a run: the latest live subscription of every request object is
stored under its token only, and every stored subscription is allocated. -/
def RunInv (s : RunState) : Prop :=
  liveStored s.pub (latestLive s.live) ∧
    ∀ t, ∀ sub ∈ subsOf s.pub t, sub < s.heap.subs.length

/-- The request objects passed to `Subscribe` in a sequence of calls. -/
def subscribedAddrs : List Call → List Nat
  | [] => []
  | Call.subscribe req :: rest => req.addr :: subscribedAddrs rest
  | Call.unsubscribe _ :: rest => subscribedAddrs rest

/-- An invariant of `subsByToken` in a run: no token is mapped to an empty set, and every
request object stored has been passed to `Subscribe` (`addrs` lists those). -/
def StoredInv (e : EventPublisher) (addrs : List Nat) : Prop :=
  (∀ t subs, GoMap.get e.subsByToken t = some subs → subs ≠ []) ∧
    ∀ t a sub, storedSub e t a = some sub → a ∈ addrs

/-- The snapshot stored in `snapCache` under a topic and a key. -/
def cachedSnap (e : EventPublisher) (topic : Topic) (key : String) : Option Nat :=
  match GoMap.get e.snapCache topic with
  | some topicSnaps => GoMap.get topicSnaps key
  | none => none

/-- The publisher `getSnapshotLocked` leaves when it has built the snapshot `snap`: with a
positive `snapCacheTTL` the snapshot is stored under the topic and key of the
request; otherwise only the map of the topic is created if there was none. -/
def afterSnapshotBuilt (e : EventPublisher) (req : SubscribeRequest) (snap : Nat) :
    EventPublisher :=
  let topicSnaps := (GoMap.get e.snapCache req.Topic).getD []
  if e.snapCacheTTL > 0 then
    { e with snapCache := GoMap.set e.snapCache req.Topic (GoMap.set topicSnaps req.Key snap) }
  else
    match GoMap.get e.snapCache req.Topic with
    | some _ => e
    | none => { e with snapCache := GoMap.set e.snapCache req.Topic [] }

/-- The topic of the events of an ACL table; `none` for any other table. -/
def aclTopicOfTable (table : String) : Option Topic :=
  if table = "acl-tokens" then some Topic.ACLTokens
  else if table = "acl-policies" then some Topic.ACLPolicies
  else if table = "acl-roles" then some Topic.ACLRoles
  else none

/-- Written from the claim, not from the code: the event a change is to yield: for a change to
an ACL table an event with the topic of the table, the index of the transaction
and as payload the row after the change, or the row before it for a deletion;
no event for a change to another table. -/
def expectedACLEvent (tx : txn) (change : Change) : Option Event :=
  match aclTopicOfTable change.Table, (if change.Deleted then change.Before else change.After) with
  | some topic, some row => some ⟨topic, "", tx.Index, row⟩
  | _, _ => none

/-- The rows of a change to an ACL table have the type of the table (as the schema of the
store has it): a token in `acl-tokens`, a policy in `acl-policies`, a role in
`acl-roles`. Changes to other tables are not constrained. -/
def Change.rowTyped (change : Change) : Bool :=
  match aclTopicOfTable change.Table, getObj change with
  | some Topic.ACLTokens, some (Payload.token _) => true
  | some Topic.ACLPolicies, some (Payload.policy _) => true
  | some Topic.ACLRoles, some (Payload.role _) => true
  | some _, _ => false
  | none, _ => true

/-- The changes of the scenario: a token is created, a node is changed, a role is deleted. -/
def testChanges : List Change :=
  [⟨"acl-tokens", none, some (Payload.token ⟨"a", "s", [], []⟩)⟩,
   ⟨"nodes", some (Payload.other 1), some (Payload.other 2)⟩,
   ⟨"acl-roles", some (Payload.role ⟨"r", []⟩), none⟩]

/-- The events of an update that `sendEvents` appends to the buffer of a topic: those of the
topic that are not ACL updates, in their order. -/
def batchOf (events : List Event) (topic : Topic) : List Event :=
  events.filter (fun ev => !isACLTopic ev.Topic && decide (ev.Topic = topic))

/-- The map the first loop of `sendEvents` collects when no ACL update fails. -/
def groupEvents : List Event → GoMap Topic (List Event) → GoMap Topic (List Event)
  | [], eventsByTopic => eventsByTopic
  | event :: rest, eventsByTopic =>
    if isACLTopic event.Topic then groupEvents rest eventsByTopic
    else
      groupEvents rest
        (GoMap.set eventsByTopic event.Topic
          ((GoMap.get eventsByTopic event.Topic).getD [] ++ [event]))

/-- The parts of the heap `CloseReload` does not touch are equal: batches, links, buffers
and snapshots; and the subscriptions are the same objects with the same request
and position (only their state may differ). -/
def Heap.sameBuffers (h g : Heap) : Prop :=
  g.items = h.items ∧ g.links = h.links ∧ g.buffers = h.buffers ∧ g.snaps = h.snaps ∧
    g.subs.map (fun s => (s.req, s.currentItem)) = h.subs.map (fun s => (s.req, s.currentItem))

/-- The topic buffers are well formed: every buffer in `topicBuffers` is allocated, its head is
an allocated batch whose forward link is an allocated cell that is still empty
(the head is the last batch of the chain), and different topics have different
buffers whose heads have different link cells. -/
def TopicBuffersWF (e : EventPublisher) (h : Heap) : Prop :=
  (∀ topic buf, GoMap.get e.topicBuffers topic = some buf →
    buf < h.buffers.length ∧ Head h buf < h.items.length ∧
      (h.item (Head h buf)).link < h.links.length ∧
      h.linkAt (h.item (Head h buf)).link = Link.unset) ∧
  ∀ t1 t2 b1 b2, t1 ≠ t2 → GoMap.get e.topicBuffers t1 = some b1 →
    GoMap.get e.topicBuffers t2 = some b2 →
    b1 ≠ b2 ∧ (h.item (Head h b1)).link ≠ (h.item (Head h b2)).link

/-- Every topic buffer is allocated and its head is an allocated batch without events. -/
def HeadsEmpty (e : EventPublisher) (h : Heap) : Prop :=
  ∀ topic buf, GoMap.get e.topicBuffers topic = some buf →
    buf < h.buffers.length ∧ Head h buf < h.items.length ∧ (h.item (Head h buf)).Events = []

/-- What holds of a publisher made by `NewEventPublisher` with the registry `topicRegistry`
of the program, whatever `Subscribe` and `Unsubscribe` calls follow: the only
snapshot function is the wrapper of the nil `Snapshot` of `Topic_ACLTokens`, the
snapshot cache holds no snapshot, and the head of every topic buffer is empty. -/
def ProgramInv (store : Store) (e : EventPublisher) (h : Heap) : Prop :=
  e.snapFns = [(Topic.ACLTokens, snapFnOf store none)] ∧
    (∀ t k, cachedSnap e t k = none) ∧ HeadsEmpty e h

/-! ## The scenario of the tests -/

/-- A registry as the tests assume it: `Topic_ServiceHealth` with a snapshot function
(here one that finds no service), next to the entry of `topicRegistry`. -/
def testRegistry : GoMap Topic topicHandlers :=
  (Topic.ServiceHealth, ⟨some (fun _ _ => SnapResult.ok [] 1), none⟩) :: topicRegistry

/-- The token of `createTokenAndWaitForACLEventPublish`. -/
def testToken : ACLToken :=
  ⟨"3af117a9-2233-4cf4-8ff8-3c749c9906b4", "4268ce0d-d7ae-4718-8613-42eba9036020",
    ["testPolicyID_A"], ["testRoleID_B"]⟩

/-- The unrelated token of `TestPublisher_ACLTokenUpdate`. -/
def testToken2 : ACLToken :=
  ⟨"a7bbf480-8440-4f55-acfc-6fdca25cb13e", "72e81982-7a0f-491f-a60e-c9c802ac1402", [], []⟩

/-- The store of the tests: the two tokens and a role B that links policy B. -/
def testStore : Store := ⟨[testToken, testToken2], [⟨"testRoleID_B", ["testPolicyID_B"]⟩]⟩

/-- A read transaction on `testStore` whose queries succeed. -/
def testTx : txn := ⟨4, testStore.tokens, testStore.roles, fun _ => none⟩

/-- The request of the tests: service health of "nope" with the token of the tests;
`addr` tells the request objects apart. -/
def testRequest (addr : Nat) : SubscribeRequest :=
  ⟨addr, Topic.ServiceHealth, "nope", testToken.SecretID, 0⟩

/-- The publisher of the tests after one `Subscribe`, under `testRegistry`. -/
def testRun : RunState := run testRegistry testStore 0 0 [Call.subscribe (testRequest 1)]

/-- A heap in which the topic buffer of `testRun` has received one batch at index 5. -/
def resumeHeap : Heap := Append testRun.heap 0 [⟨Topic.ServiceHealth, "nope", 5, Payload.other 1⟩]

/-- A request of a client that has seen index 5. -/
def resumeRequest : SubscribeRequest :=
  ⟨2, Topic.ServiceHealth, "nope", testToken.SecretID, 5⟩

/-- An update of the scenario: two service health events around an ACL token event. -/
def testUpdate : commitUpdate :=
  ⟨testTx,
    [⟨Topic.ServiceHealth, "web", 4, Payload.other 1⟩,
     ⟨Topic.ACLTokens, "", 4, Payload.token testToken⟩,
     ⟨Topic.ServiceHealth, "db", 4, Payload.other 2⟩]⟩

/-! ## Lemmas on Go maps -/

namespace GoMap

variable {K V : Type} [DecidableEq K]

theorem get_del_self (m : GoMap K V) (k : K) : get (del m k) k = none := by
  induction m with
  | nil => rfl
  | cons p rest ih =>
    obtain ⟨k1, v⟩ := p
    by_cases hk : k1 = k
    · simpa [del, List.filter_cons, hk] using ih
    · simpa [del, List.filter_cons, hk, get] using ih

theorem get_del_ne (m : GoMap K V) {k k2 : K} (hne : k2 ≠ k) :
    get (del m k) k2 = get m k2 := by
  induction m with
  | nil => rfl
  | cons p rest ih =>
    obtain ⟨k1, v⟩ := p
    by_cases hk : k1 = k
    · subst hk
      have h2 : ¬ k1 = k2 := fun h => hne h.symm
      simpa [del, List.filter_cons, get, h2] using ih
    · by_cases h2 : k1 = k2
      · subst h2
        simp [del, List.filter_cons, hk, get]
      · simpa [del, List.filter_cons, hk, get, h2] using ih

theorem get_set_self (m : GoMap K V) (k : K) (v : V) : get (set m k v) k = some v := by
  simp [set, get]

theorem get_set_ne (m : GoMap K V) {k k2 : K} (v : V) (hne : k2 ≠ k) :
    get (set m k v) k2 = get m k2 := by
  have h2 : ¬ k = k2 := fun h => hne h.symm
  simp [set, get, h2, get_del_ne m hne]

theorem mem_values_of_get {m : GoMap K V} {k : K} {v : V} (hg : get m k = some v) :
    v ∈ values m := by
  induction m with
  | nil => simp [get] at hg
  | cons p rest ih =>
    obtain ⟨k1, v1⟩ := p
    by_cases hk : k1 = k
    · simp [get, hk] at hg
      simp [values, hg]
    · simp [get, hk] at hg
      have := ih hg
      simp [values] at this ⊢
      exact Or.inr this

theorem mem_values_del {m : GoMap K V} {k : K} {v : V} (hv : v ∈ values (del m k)) :
    v ∈ values m := by
  simp only [values, del, List.mem_map, List.mem_filter] at hv ⊢
  obtain ⟨p, ⟨hp, _⟩, rfl⟩ := hv
  exact ⟨p, hp, rfl⟩

theorem mem_values_set {m : GoMap K V} {k : K} {v w : V} (hv : w ∈ values (set m k v)) :
    w = v ∨ w ∈ values m := by
  simp only [set, values, List.map_cons, List.mem_cons] at hv
  rcases hv with hv | hv
  · exact Or.inl hv
  · exact Or.inr (mem_values_del hv)

end GoMap

/-! ## Lemmas on `CloseReload` and the ACL update -/

theorem CloseReload_reloadCalls (h : Heap) (sub : Nat) :
    (CloseReload h sub).reloadCalls = h.reloadCalls ++ [sub] := rfl

theorem foldl_CloseReload_reloadCalls (subs : List Nat) (h : Heap) :
    (subs.foldl CloseReload h).reloadCalls = h.reloadCalls ++ subs := by
  induction subs generalizing h with
  | nil => simp
  | cons s rest ih => simp [List.foldl_cons, ih, CloseReload_reloadCalls]

theorem closeAll_reloadCalls (h : Heap) (subs : GoMap Nat Nat) :
    (closeAll h subs).reloadCalls = h.reloadCalls ++ GoMap.values subs :=
  foldl_CloseReload_reloadCalls _ h

theorem closeSubscriptionsForTokens_calls (e : EventPublisher) (tokens : List ACLToken)
    (h : Heap) :
    ∃ calls, (closeSubscriptionsForTokens e h tokens).reloadCalls = h.reloadCalls ++ calls ∧
      ∀ sub, sub ∈ calls ↔ ∃ t ∈ tokens, sub ∈ subsOf e t.SecretID := by
  induction tokens generalizing h with
  | nil => exact ⟨[], by simp [closeSubscriptionsForTokens], by simp⟩
  | cons t rest ih =>
    have hstep : ∃ g : Heap, closeSubscriptionsForTokens e h (t :: rest) =
        closeSubscriptionsForTokens e g rest ∧
        g.reloadCalls = h.reloadCalls ++ subsOf e t.SecretID := by
      cases hg : GoMap.get e.subsByToken t.SecretID with
      | none =>
        exact ⟨h, by simp [closeSubscriptionsForTokens, List.foldl_cons, hg],
          by simp [subsOf, hg, GoMap.values]⟩
      | some subs =>
        exact ⟨closeAll h subs, by simp [closeSubscriptionsForTokens, List.foldl_cons, hg],
          by simp [subsOf, hg, closeAll_reloadCalls]⟩
    obtain ⟨g, hg1, hg2⟩ := hstep
    obtain ⟨calls, hc1, hc2⟩ := ih g
    refine ⟨subsOf e t.SecretID ++ calls, ?_, ?_⟩
    · rw [hg1, hc1, hg2, List.append_assoc]
    · intro sub
      simp only [List.mem_append, hc2, List.mem_cons, exists_eq_or_imp]

theorem closeSubscriptionsForRoles_calls (e : EventPublisher) (tx : txn) (roles : List ACLRole)
    (h : Heap) (hq : ∀ r ∈ roles, tx.fail (Query.tokensByRole r.ID) = none) :
    ∃ calls, closeSubscriptionsForRoles e tx h roles =
        (Outcome.ok (), (closeSubscriptionsForRoles e tx h roles).2) ∧
      (closeSubscriptionsForRoles e tx h roles).2.reloadCalls = h.reloadCalls ++ calls ∧
      ∀ sub, sub ∈ calls ↔
        ∃ r ∈ roles, ∃ t ∈ tx.tokens, r.ID ∈ t.Roles ∧ sub ∈ subsOf e t.SecretID := by
  induction roles generalizing h with
  | nil => exact ⟨[], by simp [closeSubscriptionsForRoles], by simp [closeSubscriptionsForRoles],
      by simp⟩
  | cons r rest ih =>
    have hr : tx.fail (Query.tokensByRole r.ID) = none := hq r (List.mem_cons_self _ _)
    have hstep : closeSubscriptionsForRoles e tx h (r :: rest) =
        closeSubscriptionsForRoles e tx
          (closeSubscriptionsForTokens e h (tx.tokens.filter (fun t => decide (r.ID ∈ t.Roles))))
          rest := by
      simp [closeSubscriptionsForRoles, aclTokenListByRole, hr]
    obtain ⟨c1, hc1, hc1m⟩ := closeSubscriptionsForTokens_calls e
      (tx.tokens.filter (fun t => decide (r.ID ∈ t.Roles))) h
    obtain ⟨c2, hok, hc2, hc2m⟩ := ih
      (closeSubscriptionsForTokens e h (tx.tokens.filter (fun t => decide (r.ID ∈ t.Roles))))
      (fun r2 hr2 => hq r2 (List.mem_cons_of_mem _ hr2))
    refine ⟨c1 ++ c2, ?_, ?_, ?_⟩
    · rw [hstep]; exact hok
    · rw [hstep, hc2, hc1, List.append_assoc]
    · intro sub
      simp only [List.mem_append, hc1m, hc2m, List.mem_cons, exists_eq_or_imp, List.mem_filter,
        decide_eq_true_eq]
      constructor
      · rintro (⟨t, ⟨ht, hrt⟩, hs⟩ | hrest)
        · exact Or.inl ⟨t, ht, hrt, hs⟩
        · exact Or.inr hrest
      · rintro (⟨t, ht, hrt, hs⟩ | hrest)
        · exact Or.inl ⟨t, ⟨ht, hrt⟩, hs⟩
        · exact Or.inr hrest

/-! ## Claims on `handleACLUpdate` -/

/-- C1: for every publisher state and every ACL token event whose payload has SecretID
`s`, `handleACLUpdate` returns no error and calls `CloseReload` on exactly the
subscriptions stored in `subsByToken[s]`; a subscription stored under another
token (and not also under `s`) gets no call. -/
theorem C1_token_update_closes_own_subscriptions (e : EventPublisher) (h : Heap) (tx : txn)
    (key : String) (index : Nat) (token : ACLToken) :
    (handleACLUpdate e h tx ⟨Topic.ACLTokens, key, index, Payload.token token⟩).1 = Outcome.ok () ∧
    ∃ calls,
      (handleACLUpdate e h tx ⟨Topic.ACLTokens, key, index, Payload.token token⟩).2.reloadCalls
        = h.reloadCalls ++ calls ∧
      (∀ sub, sub ∈ calls ↔ sub ∈ subsOf e token.SecretID) ∧
      (∀ t sub, t ≠ token.SecretID → sub ∈ subsOf e t → sub ∉ subsOf e token.SecretID →
        sub ∉ calls) := by
  refine ⟨rfl, subsOf e token.SecretID, ?_, fun _ => Iff.rfl, fun _ _ _ _ hn => hn⟩
  simp [handleACLUpdate, closeAll_reloadCalls, subsOf]

/-- C2: for every publisher state and every ACL policy event with policy ID `p`, when
the state queries succeed, `handleACLUpdate` returns no error and calls
`CloseReload` on exactly the subscriptions registered under (the SecretID of) a
token of the store that links `p` directly or links a role that links `p`. -/
theorem C2_policy_update_closes_linked_tokens (e : EventPublisher) (h : Heap) (tx : txn)
    (key : String) (index : Nat) (policy : ACLPolicy)
    (hq1 : tx.fail (Query.tokensByPolicy policy.ID) = none)
    (hq2 : tx.fail (Query.rolesByPolicy policy.ID) = none)
    (hq3 : ∀ r ∈ tx.roles, policy.ID ∈ r.Policies → tx.fail (Query.tokensByRole r.ID) = none) :
    (handleACLUpdate e h tx ⟨Topic.ACLPolicies, key, index, Payload.policy policy⟩).1
      = Outcome.ok () ∧
    ∃ calls,
      (handleACLUpdate e h tx ⟨Topic.ACLPolicies, key, index, Payload.policy policy⟩).2.reloadCalls
        = h.reloadCalls ++ calls ∧
      ∀ sub, sub ∈ calls ↔
        ∃ t ∈ tx.tokens,
          (policy.ID ∈ t.Policies ∨ ∃ r ∈ tx.roles, policy.ID ∈ r.Policies ∧ r.ID ∈ t.Roles) ∧
          sub ∈ subsOf e t.SecretID := by
  obtain ⟨c1, hc1, hc1m⟩ := closeSubscriptionsForTokens_calls e
    (tx.tokens.filter (fun t => decide (policy.ID ∈ t.Policies))) h
  obtain ⟨c2, hok, hc2, hc2m⟩ := closeSubscriptionsForRoles_calls e tx
    (tx.roles.filter (fun r => decide (policy.ID ∈ r.Policies)))
    (closeSubscriptionsForTokens e h (tx.tokens.filter (fun t => decide (policy.ID ∈ t.Policies))))
    (by
      intro r hr
      simp only [List.mem_filter, decide_eq_true_eq] at hr
      exact hq3 r hr.1 hr.2)
  have hrun : handleACLUpdate e h tx ⟨Topic.ACLPolicies, key, index, Payload.policy policy⟩ =
      closeSubscriptionsForRoles e tx
        (closeSubscriptionsForTokens e h
          (tx.tokens.filter (fun t => decide (policy.ID ∈ t.Policies))))
        (tx.roles.filter (fun r => decide (policy.ID ∈ r.Policies))) := by
    simp [handleACLUpdate, aclTokenListByPolicy, aclRoleListByPolicy, hq1, hq2]
  refine ⟨?_, c1 ++ c2, ?_, ?_⟩
  · rw [hrun, hok]
  · rw [hrun, hc2, hc1, List.append_assoc]
  · intro sub
    simp only [List.mem_append, hc1m, hc2m, List.mem_filter, decide_eq_true_eq]
    constructor
    · rintro (⟨t, ⟨ht, hp⟩, hs⟩ | ⟨r, ⟨hr, hrp⟩, t, ht, hrt, hs⟩)
      · exact ⟨t, ht, Or.inl hp, hs⟩
      · exact ⟨t, ht, Or.inr ⟨r, hr, hrp, hrt⟩, hs⟩
    · rintro ⟨t, ht, hp | ⟨r, hr, hrp, hrt⟩, hs⟩
      · exact Or.inl ⟨t, ⟨ht, hp⟩, hs⟩
      · exact Or.inr ⟨r, ⟨hr, hrp⟩, t, ht, hrt, hs⟩

/-- C3: for every publisher state and every ACL role event with role ID `r`, when the
state query succeeds, `handleACLUpdate` returns no error and calls `CloseReload`
on exactly the subscriptions registered under (the SecretID of) a token of the
store that links `r`. -/
theorem C3_role_update_closes_linked_tokens (e : EventPublisher) (h : Heap) (tx : txn)
    (key : String) (index : Nat) (role : ACLRole)
    (hq : tx.fail (Query.tokensByRole role.ID) = none) :
    (handleACLUpdate e h tx ⟨Topic.ACLRoles, key, index, Payload.role role⟩).1 = Outcome.ok () ∧
    ∃ calls,
      (handleACLUpdate e h tx ⟨Topic.ACLRoles, key, index, Payload.role role⟩).2.reloadCalls
        = h.reloadCalls ++ calls ∧
      ∀ sub, sub ∈ calls ↔
        ∃ t ∈ tx.tokens, role.ID ∈ t.Roles ∧ sub ∈ subsOf e t.SecretID := by
  obtain ⟨c1, hc1, hc1m⟩ := closeSubscriptionsForTokens_calls e
    (tx.tokens.filter (fun t => decide (role.ID ∈ t.Roles))) h
  have hrun : handleACLUpdate e h tx ⟨Topic.ACLRoles, key, index, Payload.role role⟩ =
      (Outcome.ok (), closeSubscriptionsForTokens e h
        (tx.tokens.filter (fun t => decide (role.ID ∈ t.Roles)))) := by
    simp [handleACLUpdate, aclTokenListByRole, hq]
  refine ⟨by rw [hrun], c1, by rw [hrun, hc1], ?_⟩
  intro sub
  simp only [hc1m, List.mem_filter, decide_eq_true_eq]
  constructor
  · rintro ⟨t, ⟨ht, hrt⟩, hs⟩
    exact ⟨t, ht, hrt, hs⟩
  · rintro ⟨t, ht, hrt, hs⟩
    exact ⟨t, ⟨ht, hrt⟩, hs⟩

/-- Witness of C2: policy B is linked by role B, which the token of the tests links; the
queries succeed. -/
theorem C2_policy_update_witness :
    testTx.fail (Query.tokensByPolicy "testPolicyID_B") = none ∧
    testTx.fail (Query.rolesByPolicy "testPolicyID_B") = none ∧
    (∀ r ∈ testTx.roles, "testPolicyID_B" ∈ r.Policies →
      testTx.fail (Query.tokensByRole r.ID) = none) ∧
    ((handleACLUpdate testRun.pub testRun.heap testTx
        ⟨Topic.ACLPolicies, "", 4, Payload.policy ⟨"testPolicyID_B"⟩⟩).1 = Outcome.ok () ∧
      ∃ calls,
        (handleACLUpdate testRun.pub testRun.heap testTx
          ⟨Topic.ACLPolicies, "", 4, Payload.policy ⟨"testPolicyID_B"⟩⟩).2.reloadCalls
          = testRun.heap.reloadCalls ++ calls ∧
        ∀ sub, sub ∈ calls ↔
          ∃ t ∈ testTx.tokens,
            ("testPolicyID_B" ∈ t.Policies ∨
              ∃ r ∈ testTx.roles, "testPolicyID_B" ∈ r.Policies ∧ r.ID ∈ t.Roles) ∧
            sub ∈ subsOf testRun.pub t.SecretID) :=
  ⟨rfl, rfl, fun _ _ _ => rfl,
    C2_policy_update_closes_linked_tokens testRun.pub testRun.heap testTx "" 4
      ⟨"testPolicyID_B"⟩ rfl rfl (fun _ _ _ => rfl)⟩

/-- Witness of C3: role B is linked by the token of the tests; the query succeeds. -/
theorem C3_role_update_witness :
    testTx.fail (Query.tokensByRole "testRoleID_B") = none ∧
    ((handleACLUpdate testRun.pub testRun.heap testTx
        ⟨Topic.ACLRoles, "", 4, Payload.role ⟨"testRoleID_B", []⟩⟩).1 = Outcome.ok () ∧
      ∃ calls,
        (handleACLUpdate testRun.pub testRun.heap testTx
          ⟨Topic.ACLRoles, "", 4, Payload.role ⟨"testRoleID_B", []⟩⟩).2.reloadCalls
          = testRun.heap.reloadCalls ++ calls ∧
        ∀ sub, sub ∈ calls ↔
          ∃ t ∈ testTx.tokens, "testRoleID_B" ∈ t.Roles ∧ sub ∈ subsOf testRun.pub t.SecretID) :=
  ⟨rfl, C3_role_update_closes_linked_tokens testRun.pub testRun.heap testTx "" 4
    ⟨"testRoleID_B", []⟩ rfl⟩

/-! ## Claims on the topic check of `Subscribe` -/

/-- C4: for every request whose Topic has no entry in the topic registry, `Subscribe`
returns the unknown-topic error and no subscription, and leaves the publisher
(`topicBuffers`, `snapCache`, `subsByToken`) and the heap exactly as they were. -/
theorem C4_unknown_topic_error (reg : GoMap Topic topicHandlers) (e : EventPublisher)
    (h : Heap) (req : SubscribeRequest) (hreg : GoMap.get reg req.Topic = none) :
    Subscribe reg e h req = (Outcome.error (Error.unknownTopic req.Topic), e, h) := by
  simp [Subscribe, hreg]

/-- Witness of C4: `Topic_ACLRoles` has no entry in `topicRegistry`. -/
theorem C4_unknown_topic_witness :
    GoMap.get topicRegistry Topic.ACLRoles = none ∧
    Subscribe topicRegistry testRun.pub testRun.heap ⟨7, Topic.ACLRoles, "", "t", 0⟩ =
      (Outcome.error (Error.unknownTopic Topic.ACLRoles), testRun.pub, testRun.heap) :=
  ⟨rfl, C4_unknown_topic_error topicRegistry testRun.pub testRun.heap
    ⟨7, Topic.ACLRoles, "", "t", 0⟩ rfl⟩

/-- C5, the code at the failing input: on a new publisher a request for
`Topic_ACLTokens`, which is registered without a snapshot function, passes the
topic check; `Subscribe` creates the topic buffer and calls the nil snapshot
function instead of returning the unknown-topic error. -/
theorem C5_subscribe_without_snapshot_fn (store : Store) (addr : Nat) (key token : String) :
    (GoMap.get topicRegistry Topic.ACLTokens).map (fun hs => hs.Snapshot.isSome) = some false ∧
    (Subscribe topicRegistry (NewEventPublisher topicRegistry store 0 0) Heap.empty
        ⟨addr, Topic.ACLTokens, key, token, 0⟩).1 = Outcome.panic ∧
    (Subscribe topicRegistry (NewEventPublisher topicRegistry store 0 0) Heap.empty
        ⟨addr, Topic.ACLTokens, key, token, 0⟩).1
      ≠ Outcome.error (Error.unknownTopic Topic.ACLTokens) ∧
    (Subscribe topicRegistry (NewEventPublisher topicRegistry store 0 0) Heap.empty
        ⟨addr, Topic.ACLTokens, key, token, 0⟩).2.1.topicBuffers = [(Topic.ACLTokens, 0)] := by
  refine ⟨rfl, ?_, ?_, ?_⟩ <;>
    simp [Subscribe, topicRegistry, GoMap.get, getTopicBuffer, NewEventPublisher, canResume,
      NewEventBuffer, NewBufferItem, Head, Heap.item, Heap.empty, subscribeSnapshot,
      getSnapshotLocked, GoMap.set, GoMap.del, NewEventSnapshot, snapFnOf, Heap.snap]

/-- C6, the code at the failing input: on a new publisher a request for
`Topic_ServiceHealth` with Index 0 (any key, any token) gets the unknown-topic
error and no subscription, because `topicRegistry` has no entry for the topic;
the publisher and the heap stay as they were. -/
theorem C6_service_health_not_registered (store : Store) (addr : Nat) (key token : String) :
    Subscribe topicRegistry (NewEventPublisher topicRegistry store 0 0) Heap.empty
        ⟨addr, Topic.ServiceHealth, key, token, 0⟩ =
      (Outcome.error (Error.unknownTopic Topic.ServiceHealth),
        NewEventPublisher topicRegistry store 0 0, Heap.empty) := by
  simp [Subscribe, topicRegistry, GoMap.get]

/-! ## The resume of a stream -/

theorem getElem?_append_at_length {α : Type} (l : List α) (a : α) (r : List α) :
    (l ++ a :: r)[l.length]? = some a := by
  rw [List.getElem?_append_right (le_refl _)]
  simp

theorem getElem?_append_at_length_succ {α : Type} (l : List α) (a b : α) (r : List α) :
    (l ++ a :: b :: r)[l.length + 1]? = some b := by
  rw [List.getElem?_append_right (by omega)]
  simp

theorem getD_append_at_length {α : Type} (l : List α) (a : α) (r : List α) (d : α) :
    (l ++ a :: r).getD l.length d = a := by
  rw [List.getD_eq_getElem?_getD, List.getElem?_append_right (le_refl _)]
  simp

theorem getD_append_at_length_succ {α : Type} (l : List α) (a b : α) (r : List α) (d : α) :
    (l ++ a :: b :: r).getD (l.length + 1) d = b := by
  rw [List.getD_eq_getElem?_getD, List.getElem?_append_right (by omega)]
  simp

theorem getD_append_of_lt {α : Type} (l r : List α) (i : Nat) (d : α) (hi : i < l.length) :
    (l ++ r).getD i d = l.getD i d := by
  rw [List.getD_eq_getElem?_getD, List.getD_eq_getElem?_getD, List.getElem?_append_left hi]

theorem set_append_at_length {α : Type} (l : List α) (a v : α) (r : List α) :
    (l ++ a :: r).set l.length v = l ++ v :: r := by
  induction l with
  | nil => rfl
  | cons x xs ih => simp [ih]

theorem set_append_at_length_succ {α : Type} (l : List α) (a b v : α) (r : List α) :
    (l ++ a :: b :: r).set (l.length + 1) v = l ++ a :: v :: r := by
  induction l with
  | nil => rfl
  | cons x xs ih => simp [ih]

theorem FollowAfter_ok (h : Heap) (item : Nat)
    (hne : h.linkAt (h.item item).link ≠ Link.truncated) :
    FollowAfter h item =
      Except.ok (h.items.length, { h with items := h.items ++ [⟨[], (h.item item).link⟩] }) := by
  unfold FollowAfter
  split
  · contradiction
  · rfl

theorem getD_resume_links_ne_truncated (links : List Link) (l n : Nat)
    (hne : links.getD l Link.unset ≠ Link.truncated) :
    (links ++ [Link.next n, Link.unset]).getD l Link.unset ≠ Link.truncated := by
  rcases Nat.lt_trichotomy l links.length with hl | hl | hl
  · rw [getD_append_of_lt _ _ _ _ hl]
    exact hne
  · subst hl
    rw [getD_append_at_length]
    exact fun hc => Link.noConfusion hc
  · rw [List.getD_eq_getElem?_getD, List.getElem?_append_right (by omega)]
    obtain ⟨k, hk⟩ : ∃ k, l - links.length = k + 1 := ⟨l - links.length - 1, by omega⟩
    rw [hk]
    cases k with
    | zero => simp
    | succ k => simp

theorem subscribeResume_eq (e : EventPublisher) (h : Heap) (req : SubscribeRequest)
    (topicHead : Nat) (hth : topicHead < h.items.length)
    (hfollow : h.linkAt (h.item topicHead).link ≠ Link.truncated) :
    subscribeResume e h req topicHead =
      (Outcome.ok h.subs.length, registerSub e req h.subs.length,
        { items := h.items ++ [⟨[], h.links.length⟩,
            ⟨[⟨req.Topic, req.Key, req.Index, Payload.ResumeStream⟩], h.links.length + 1⟩,
            ⟨[], (h.item topicHead).link⟩]
          links := h.links ++ [Link.next (h.items.length + 1), Link.next (h.items.length + 2)]
          buffers := h.buffers ++ [h.items.length + 2]
          snaps := h.snaps
          subs := h.subs ++ [⟨req, h.items.length, SubscriptionState.opened⟩]
          reloadCalls := h.reloadCalls }) := by
  have happ : Append (NewEventBuffer h).2 (NewEventBuffer h).1
        [⟨req.Topic, req.Key, req.Index, Payload.ResumeStream⟩] =
      { items := h.items ++ [⟨[], h.links.length⟩,
          ⟨[⟨req.Topic, req.Key, req.Index, Payload.ResumeStream⟩], h.links.length + 1⟩]
        links := h.links ++ [Link.next (h.items.length + 1), Link.unset]
        buffers := h.buffers ++ [h.items.length + 1]
        snaps := h.snaps
        subs := h.subs
        reloadCalls := h.reloadCalls } := by
    simp only [NewEventBuffer, NewBufferItem, Head, Append, AppendBuffer, Heap.item,
      List.append_assoc, List.singleton_append, List.length_append, List.length_singleton,
      getD_append_at_length, set_append_at_length]
  have hne : (Append (NewEventBuffer h).2 (NewEventBuffer h).1
        [⟨req.Topic, req.Key, req.Index, Payload.ResumeStream⟩]).linkAt
      ((Append (NewEventBuffer h).2 (NewEventBuffer h).1
        [⟨req.Topic, req.Key, req.Index, Payload.ResumeStream⟩]).item topicHead).link
      ≠ Link.truncated := by
    rw [happ]
    simp only [Heap.item, Heap.linkAt, getD_append_of_lt _ _ _ _ hth]
    exact getD_resume_links_ne_truncated _ _ _ hfollow
  unfold subscribeResume
  simp only [FollowAfter_ok _ _ hne]
  rw [happ]
  simp only [NewEventBuffer, NewBufferItem, Head, AppendBuffer, NewSubscription, Heap.item,
    List.append_assoc, List.singleton_append, List.cons_append, List.nil_append,
    List.length_append, List.length_singleton, List.length_cons, List.length_nil,
    getD_append_at_length, getD_append_at_length_succ, set_append_at_length,
    set_append_at_length_succ, getD_append_of_lt _ _ _ _ hth]

theorem item_of_later {h g : Heap} (hl : Heap.later h g) {a : Nat} (ha : a < h.items.length) :
    g.item a = h.item a := by
  simp only [Heap.item, List.getD_eq_getElem?_getD, hl.1 a ha]

theorem linkAt_of_later {h g : Heap} (hl : Heap.later h g) {l n : Nat}
    (hn : h.links[l]? = some (Link.next n)) : g.linkAt l = Link.next n := by
  simp only [Heap.linkAt, List.getD_eq_getElem?_getD, hl.2 l n hn, Option.getD_some]

theorem later_refl (h : Heap) : Heap.later h h :=
  ⟨fun _ _ => rfl, fun _ _ hn => hn⟩

theorem getD_append_singleton_of_ne {α : Type} (l : List α) (a d : α) (i : Nat)
    (hi : i ≠ l.length) : (l ++ [a]).getD i d = l.getD i d := by
  rcases Nat.lt_or_gt_of_ne hi with hlt | hgt
  · exact getD_append_of_lt _ _ _ _ hlt
  · rw [List.getD_eq_getElem?_getD, List.getD_eq_getElem?_getD,
      List.getElem?_eq_none (by simp; omega), List.getElem?_eq_none (by omega)]

/-- An `Append` on a buffer whose head has no successor yet gives a later heap. -/
theorem later_Append (h : Heap) (buf : Nat) (events : List Event)
    (hend : h.linkAt (h.item (Head h buf)).link = Link.unset) :
    Heap.later h (Append h buf events) := by
  refine ⟨?_, ?_⟩
  · intro a ha
    show (h.items ++ [_])[a]? = h.items[a]?
    exact List.getElem?_append_left ha
  · intro l n hn
    have hl : l < h.links.length := by
      by_contra hge
      rw [List.getElem?_eq_none (by omega)] at hn
      cases hn
    have hne : (h.item (Head h buf)).link ≠ l := by
      intro hc
      rw [hc, Heap.linkAt, List.getD_eq_getElem?_getD, hn] at hend
      cases hend
    have hidx : ((h.items ++ [(⟨events, h.links.length⟩ : BufferItem)]).getD
        (h.buffers.getD buf 0) ⟨[], 0⟩).link ≠ l := by
      by_cases hb : h.buffers.getD buf 0 = h.items.length
      · rw [hb, getD_append_at_length]
        show h.links.length ≠ l
        omega
      · rw [getD_append_singleton_of_ne _ _ _ _ hb]
        exact hne
    show ((h.links ++ [Link.unset]).set ((h.items ++ [(⟨events, h.links.length⟩ : BufferItem)]).getD
        (h.buffers.getD buf 0) ⟨[], 0⟩).link (Link.next h.items.length))[l]? = some (Link.next n)
    rw [List.getElem?_set_ne hidx, List.getElem?_append_left hl]
    exact hn

theorem delivered_congr (g : Heap) (req : SubscribeRequest) (fuel a b : Nat)
    (hab : (g.item a).link = (g.item b).link) :
    delivered g req fuel a = delivered g req fuel b := by
  cases fuel with
  | zero => rfl
  | succ k => simp only [delivered, nextItem, hab]

/-- C7: for a request on a registered topic with Index > 0 whose topic buffer head holds
events the first of which has the Index of the request, and whose chain is not
truncated (`FollowAfter` succeeds), `Subscribe` returns a new subscription
without building a snapshot or touching the snapshot cache; the cursor starts
at a new batch, the first batch it delivers is exactly the one `ResumeStream`
event with the Index, Topic and Key of the request, and in every later heap the
batches delivered after it are those delivered after the captured topic head. -/
theorem C7_resume_stream_first (reg : GoMap Topic topicHandlers) (e : EventPublisher)
    (h : Heap) (req : SubscribeRequest) (hs : topicHandlers) (buf : Nat) (ev0 : Event)
    (rest : List Event)
    (hreg : GoMap.get reg req.Topic = some hs)
    (hbuf : GoMap.get e.topicBuffers req.Topic = some buf)
    (hidx : 0 < req.Index)
    (hev : (h.item (Head h buf)).Events = ev0 :: rest)
    (hev0 : ev0.Index = req.Index)
    (hfollow : ∃ f, FollowAfter h (Head h buf) = Except.ok f) :
    ∃ h1 : Heap,
      Subscribe reg e h req = (Outcome.ok h.subs.length, registerSub e req h.subs.length, h1) ∧
      (registerSub e req h.subs.length).snapCache = e.snapCache ∧
      (registerSub e req h.subs.length).topicBuffers = e.topicBuffers ∧
      h1.snaps = h.snaps ∧
      h1.subs = h.subs ++ [⟨req, h.items.length, SubscriptionState.opened⟩] ∧
      ∀ g, Heap.later h1 g → ∀ fuel,
        delivered g req (fuel + 2) h.items.length =
          [⟨req.Topic, req.Key, req.Index, Payload.ResumeStream⟩] ::
            delivered g req fuel (Head h buf) := by
  have hth : Head h buf < h.items.length := by
    by_contra hge
    rw [Heap.item, List.getD_eq_getElem?_getD, List.getElem?_eq_none (by omega)] at hev
    simp at hev
  have hnt : h.linkAt (h.item (Head h buf)).link ≠ Link.truncated := by
    intro hc
    obtain ⟨f, hf⟩ := hfollow
    simp [FollowAfter, hc] at hf
  have hcan : canResume req (h.item (Head h buf)).Events = true := by
    simp [canResume, hev, hidx, hev0]
  have hres := subscribeResume_eq e h req (Head h buf) hth hnt
  refine ⟨(subscribeResume e h req (Head h buf)).2.2, ?_, rfl, rfl, ?_, ?_, ?_⟩
  · simp only [Subscribe, hreg, getTopicBuffer, hbuf, hcan, if_true]
    rw [hres]
  · rw [hres]
  · rw [hres]
  · intro g hl fuel
    rw [hres] at hl
    have hi0 : g.item h.items.length = ⟨[], h.links.length⟩ := by
      rw [item_of_later hl (by simp)]
      simp only [Heap.item, getD_append_at_length]
    have hi1 : g.item (h.items.length + 1) =
        ⟨[⟨req.Topic, req.Key, req.Index, Payload.ResumeStream⟩], h.links.length + 1⟩ := by
      rw [item_of_later hl (by simp)]
      simp only [Heap.item, getD_append_at_length_succ]
    have hi2 : g.item (h.items.length + 2) = ⟨[], (h.item (Head h buf)).link⟩ := by
      rw [item_of_later hl (by simp)]
      simp only [Heap.item, List.getD_eq_getElem?_getD]
      rw [List.getElem?_append_right (by omega)]
      simp
    have hi3 : g.item (Head h buf) = h.item (Head h buf) := by
      rw [item_of_later hl (by simp; omega)]
      simp only [Heap.item, getD_append_of_lt _ _ _ _ hth]
    have hl0 : g.linkAt h.links.length = Link.next (h.items.length + 1) :=
      linkAt_of_later hl (getElem?_append_at_length _ _ _)
    have hl1 : g.linkAt (h.links.length + 1) = Link.next (h.items.length + 2) :=
      linkAt_of_later hl (getElem?_append_at_length_succ _ _ _ _)
    have hd : deliverable req [⟨req.Topic, req.Key, req.Index, Payload.ResumeStream⟩] =
        [⟨req.Topic, req.Key, req.Index, Payload.ResumeStream⟩] := by
      simp [deliverable, Payload.isControl]
    have h2 : delivered g req fuel (h.items.length + 2) = delivered g req fuel (Head h buf) :=
      delivered_congr g req fuel _ _ (by rw [hi2, hi3])
    have h1 : delivered g req (fuel + 1) (h.items.length + 1) =
        delivered g req fuel (h.items.length + 2) := by
      simp [delivered, nextItem, hi1, hl1, hi2, deliverable]
    rw [← h2, ← h1]
    simp [delivered, nextItem, hi0, hl0, hi1, hd]

/-- Witness of C7: the topic buffer holds a batch at index 5 and the request has Index 5;
after the call a batch at index 6 appended to the topic buffer is delivered
right after the `ResumeStream` event. -/
theorem C7_resume_stream_witness :
    GoMap.get testRegistry resumeRequest.Topic =
      some ⟨some (fun _ _ => SnapResult.ok [] 1), none⟩ ∧
    GoMap.get testRun.pub.topicBuffers resumeRequest.Topic = some 0 ∧
    0 < resumeRequest.Index ∧
    (resumeHeap.item (Head resumeHeap 0)).Events =
      [⟨Topic.ServiceHealth, "nope", 5, Payload.other 1⟩] ∧
    (∃ f, FollowAfter resumeHeap (Head resumeHeap 0) = Except.ok f) ∧
    (Subscribe testRegistry testRun.pub resumeHeap resumeRequest).1 = Outcome.ok 1 ∧
    delivered
        (Append (Subscribe testRegistry testRun.pub resumeHeap resumeRequest).2.2 0
          [⟨Topic.ServiceHealth, "nope", 6, Payload.other 2⟩])
        resumeRequest 5 resumeHeap.items.length =
      [[⟨Topic.ServiceHealth, "nope", 5, Payload.ResumeStream⟩],
        [⟨Topic.ServiceHealth, "nope", 6, Payload.other 2⟩]] := by
  refine ⟨rfl, rfl, by decide, rfl, ⟨_, rfl⟩, ?_, by decide⟩
  obtain ⟨h1, heq, _⟩ := C7_resume_stream_first testRegistry testRun.pub resumeHeap resumeRequest
    ⟨some (fun _ _ => SnapResult.ok [] 1), none⟩ 0 ⟨Topic.ServiceHealth, "nope", 5, Payload.other 1⟩ []
    rfl rfl (by decide) rfl rfl ⟨_, rfl⟩
  rw [heq]
  rfl

/-! ## Frame lemmas for the heap operations -/

theorem FollowAfter_frame {h : Heap} {item : Nat} {f : Nat × Heap}
    (hf : FollowAfter h item = Except.ok f) :
    f.2.snaps = h.snaps ∧ f.2.subs = h.subs ∧ f.2.buffers = h.buffers ∧
      f.2.reloadCalls = h.reloadCalls := by
  unfold FollowAfter at hf
  split at hf
  · cases hf
  · cases hf
    exact ⟨rfl, rfl, rfl, rfl⟩

theorem Append_snaps (h : Heap) (buf : Nat) (events : List Event) :
    (Append h buf events).snaps = h.snaps := rfl

theorem Append_subs (h : Heap) (buf : Nat) (events : List Event) :
    (Append h buf events).subs = h.subs := rfl

theorem Append_reloadCalls (h : Heap) (buf : Nat) (events : List Event) :
    (Append h buf events).reloadCalls = h.reloadCalls := rfl

theorem Append_buffers_length (h : Heap) (buf : Nat) (events : List Event) :
    (Append h buf events).buffers.length = h.buffers.length := by
  simp [Append, AppendBuffer, NewBufferItem]

theorem foldl_Append_frame (buf : Nat) (batches : List (List Event)) (h : Heap) :
    (batches.foldl (fun g events => Append g buf events) h).snaps = h.snaps ∧
    (batches.foldl (fun g events => Append g buf events) h).subs = h.subs ∧
    (batches.foldl (fun g events => Append g buf events) h).buffers.length = h.buffers.length ∧
    (batches.foldl (fun g events => Append g buf events) h).reloadCalls = h.reloadCalls := by
  induction batches generalizing h with
  | nil => exact ⟨rfl, rfl, rfl, rfl⟩
  | cons b rest ih =>
    obtain ⟨h1, h2, h3, h4⟩ := ih (Append h buf b)
    simp only [List.foldl_cons]
    exact ⟨h1, h2, by rw [h3, Append_buffers_length], h4⟩

theorem NewEventSnapshot_frame (h : Heap) (req : SubscribeRequest) (topicHead : Nat)
    (fn : SnapFn) :
    (NewEventSnapshot h req topicHead fn).2.subs = h.subs ∧
    (NewEventSnapshot h req topicHead fn).2.reloadCalls = h.reloadCalls ∧
    ((NewEventSnapshot h req topicHead fn).1 = Outcome.panic ∨
      ((NewEventSnapshot h req topicHead fn).1 = Outcome.ok h.snaps.length ∧
        (NewEventSnapshot h req topicHead fn).2.snaps.length = h.snaps.length + 1)) := by
  unfold NewEventSnapshot
  cases hfn : fn req with
  | panic => exact ⟨rfl, rfl, Or.inl rfl⟩
  | error err =>
    refine ⟨rfl, rfl, Or.inr ⟨rfl, ?_⟩⟩
    simp [NewEventBuffer, NewBufferItem]
  | ok batches idx =>
    obtain ⟨f1, f2, _, f4⟩ := foldl_Append_frame (NewEventBuffer h).1 batches (NewEventBuffer h).2
    have e1 : (NewEventBuffer h).2.snaps = h.snaps := rfl
    have e2 : (NewEventBuffer h).2.subs = h.subs := rfl
    have e4 : (NewEventBuffer h).2.reloadCalls = h.reloadCalls := rfl
    simp only
    cases hfa : FollowAfter (Append (batches.foldl (fun g events => Append g (NewEventBuffer h).1 events)
        (NewEventBuffer h).2) (NewEventBuffer h).1
        [⟨req.Topic, req.Key, idx, Payload.EndOfSnapshot⟩]) topicHead with
    | error err =>
      simp only [Append_snaps, Append_subs, Append_reloadCalls, f1, f2, f4, e1, e2, e4,
        List.length_append, List.length_singleton]
      exact ⟨trivial, trivial, Or.inr ⟨trivial, trivial⟩⟩
    | ok f =>
      obtain ⟨g1, g2, _, g4⟩ := FollowAfter_frame hfa
      simp only [AppendBuffer, g1, g2, g4, Append_snaps, Append_subs, Append_reloadCalls, f1, f2,
        f4, e1, e2, e4, List.length_append, List.length_singleton]
      exact ⟨trivial, trivial, Or.inr ⟨trivial, trivial⟩⟩

theorem getSnapshotLocked_frame (e : EventPublisher) (h : Heap) (req : SubscribeRequest)
    (topicHead : Nat) :
    (getSnapshotLocked e h req topicHead).2.1.subsByToken = e.subsByToken ∧
    (getSnapshotLocked e h req topicHead).2.1.topicBuffers = e.topicBuffers ∧
    (getSnapshotLocked e h req topicHead).2.2.subs = h.subs ∧
    (getSnapshotLocked e h req topicHead).2.2.reloadCalls = h.reloadCalls ∧
    ((getSnapshotLocked e h req topicHead).1 = Outcome.panic ∨
      (getSnapshotLocked e h req topicHead).2.2 = h ∨
      (getSnapshotLocked e h req topicHead).2.2.snaps.length = h.snaps.length + 1) := by
  have hcache : ∀ e1 : EventPublisher,
      (match GoMap.get e.snapCache req.Topic with
        | some _ => e
        | none => { e with snapCache := GoMap.set e.snapCache req.Topic [] }) = e1 →
      e1.subsByToken = e.subsByToken ∧ e1.topicBuffers = e.topicBuffers := by
    intro e1 he1
    subst he1
    split <;> exact ⟨rfl, rfl⟩
  unfold getSnapshotLocked
  simp only
  generalize hgen : (match GoMap.get e.snapCache req.Topic with
        | some _ => e
        | none => { e with snapCache := GoMap.set e.snapCache req.Topic [] }) = e1
  obtain ⟨hs1, hs2⟩ := hcache e1 hgen
  split
  · exact ⟨hs1, hs2, rfl, rfl, Or.inr (Or.inl rfl)⟩
  · split
    · exact ⟨hs1, hs2, rfl, rfl, Or.inr (Or.inl rfl)⟩
    · rename_i snapFn _
      obtain ⟨f1, f2, f3⟩ := NewEventSnapshot_frame h req topicHead snapFn
      split
      · rename_i snap h1 hres
        rw [hres] at f1 f2 f3
        have f3b : h1.snaps.length = h.snaps.length + 1 := by
          rcases f3 with f3 | f3
          · cases f3
          · exact f3.2
        split
        · exact ⟨hs1, hs2, f1, f2, Or.inr (Or.inr f3b)⟩
        · exact ⟨hs1, hs2, f1, f2, Or.inr (Or.inr f3b)⟩
      · rename_i err h1 hres
        rw [hres] at f1 f2 f3
        rcases f3 with f3 | f3
        · cases f3
        · cases f3.1
      · rename_i h1 hres
        rw [hres] at f1 f2
        exact ⟨hs1, hs2, f1, f2, Or.inl rfl⟩

theorem subscribeSnapshot_cases (e : EventPublisher) (h : Heap) (req : SubscribeRequest)
    (topicHead : Nat) :
    ((subscribeSnapshot e h req topicHead).1 = Outcome.panic ∨
      (subscribeSnapshot e h req topicHead).2.2.buffers.length = h.buffers.length ∨
      (subscribeSnapshot e h req topicHead).2.2.snaps.length = h.snaps.length + 1) ∧
    (subscribeSnapshot e h req topicHead).2.1.topicBuffers = e.topicBuffers ∧
    SubscribeEffect e h req (subscribeSnapshot e h req topicHead) := by
  obtain ⟨f1, f2, f3, _, f5⟩ := getSnapshotLocked_frame e h req topicHead
  unfold subscribeSnapshot
  split
  · rename_i snap e2 h2 hres
    rw [hres] at f1 f2 f3 f5
    simp only at f1 f2 f3 f5
    refine ⟨?_, f2, Or.inl ⟨?_, ?_, ?_⟩⟩
    · rcases f5 with f5 | f5 | f5
      · cases f5
      · exact Or.inr (Or.inl (by rw [f5]; rfl))
      · exact Or.inr (Or.inr f5)
    · simp [NewSubscription, f3]
    · simp [NewSubscription, registerSub, f1, f3]
    · simp [NewSubscription, f3]
  · rename_i err e2 h2 hres
    rw [hres] at f1 f2 f3 f5
    simp only at f1 f2 f3 f5
    refine ⟨?_, f2, Or.inr ⟨(fun sub hc => by cases hc), f1, f3⟩⟩
    rcases f5 with f5 | f5 | f5
    · cases f5
    · exact Or.inr (Or.inl (by rw [f5]))
    · exact Or.inr (Or.inr f5)
  · rename_i e2 h2 hres
    rw [hres] at f1 f2 f3
    exact ⟨Or.inl rfl, f2, Or.inr ⟨(fun sub hc => by cases hc), f1, f3⟩⟩

theorem subscribeResume_cases (e : EventPublisher) (h : Heap) (req : SubscribeRequest)
    (topicHead : Nat) :
    (subscribeResume e h req topicHead).1 ≠ Outcome.panic ∧
    (subscribeResume e h req topicHead).2.2.snaps = h.snaps ∧
    (subscribeResume e h req topicHead).2.2.buffers.length = h.buffers.length + 1 ∧
    (subscribeResume e h req topicHead).2.1.topicBuffers = e.topicBuffers ∧
    (subscribeResume e h req topicHead).2.1.snapCache = e.snapCache ∧
    SubscribeEffect e h req (subscribeResume e h req topicHead) := by
  have hb : (Append (NewEventBuffer h).2 (NewEventBuffer h).1
      [⟨req.Topic, req.Key, req.Index, Payload.ResumeStream⟩]).buffers.length
      = h.buffers.length + 1 := by
    rw [Append_buffers_length]
    simp [NewEventBuffer, NewBufferItem]
  unfold subscribeResume
  simp only
  split
  · rename_i err hfa
    exact ⟨(fun hc => by cases hc), rfl, hb, rfl, rfl,
      Or.inr ⟨(fun sub hc => by cases hc), rfl, rfl⟩⟩
  · rename_i f hfa
    obtain ⟨g1, g2, g3, _⟩ := FollowAfter_frame hfa
    refine ⟨(fun hc => by cases hc), ?_, ?_, rfl, rfl, Or.inl ⟨?_, ?_, ?_⟩⟩
    · simp only [NewSubscription, AppendBuffer, g1, Append_snaps]
      rfl
    · simp only [NewSubscription, AppendBuffer, List.length_set, g3]
      exact hb
    · simp only [NewSubscription, AppendBuffer, g2, Append_subs]
      rfl
    · simp only [NewSubscription, AppendBuffer, g2, Append_subs]
      rfl
    · simp only [NewSubscription, AppendBuffer, g2, Append_subs, List.length_append,
        List.length_singleton]
      rfl

/-! ## The choice between snapshot and resume -/

theorem canResume_eq_false_iff (req : SubscribeRequest) (events : List Event) :
    canResume req events = false ↔
      (req.Index = 0 ∨ events = [] ∨
        ∃ ev rest, events = ev :: rest ∧ ev.Index ≠ req.Index) := by
  cases events with
  | nil => simp [canResume]
  | cons ev rest =>
    constructor
    · intro hc
      by_cases h0 : req.Index = 0
      · exact Or.inl h0
      · refine Or.inr (Or.inr ⟨ev, rest, rfl, ?_⟩)
        intro he
        have hpos : 0 < req.Index := by omega
        simp [canResume, he, hpos] at hc
    · rintro (h0 | hnil | ⟨ev2, rest2, hev, hne⟩)
      · simp [canResume, h0]
      · cases hnil
      · cases hev
        simp [canResume, hne]

theorem subscribeResume_ne_subscribeSnapshot (e : EventPublisher) (h : Heap)
    (req : SubscribeRequest) (topicHead : Nat) :
    subscribeResume e h req topicHead ≠ subscribeSnapshot e h req topicHead := by
  intro heq
  obtain ⟨r1, r2, r3, _⟩ := subscribeResume_cases e h req topicHead
  obtain ⟨s1, _⟩ := subscribeSnapshot_cases e h req topicHead
  rw [← heq] at s1
  rcases s1 with s1 | s1 | s1
  · exact r1 s1
  · omega
  · rw [r2] at s1
    omega

/-- C8: for a request on a registered topic, `Subscribe` takes the snapshot branch
exactly when `req.Index = 0`, or the topic head holds no events, or the first
head event has another Index than the request, and the resume branch exactly
otherwise. On the snapshot branch the subscription starts at `Snap` of the
snapshot `getSnapshotLocked` returns and the heap is the one `getSnapshotLocked`
left plus the new subscription (no `ResumeStream` batch is made). -/
theorem C8_snapshot_path_iff (reg : GoMap Topic topicHandlers) (e : EventPublisher) (h : Heap)
    (req : SubscribeRequest) (hs : topicHandlers) (hreg : GoMap.get reg req.Topic = some hs) :
    (Subscribe reg e h req =
        subscribeSnapshot (getTopicBuffer e h req.Topic).2.1 (getTopicBuffer e h req.Topic).2.2
          req (subscribeTopicHead e h req) ↔
      (req.Index = 0 ∨ subscribeTopicHeadEvents e h req = [] ∨
        ∃ ev rest, subscribeTopicHeadEvents e h req = ev :: rest ∧ ev.Index ≠ req.Index)) ∧
    (Subscribe reg e h req =
        subscribeResume (getTopicBuffer e h req.Topic).2.1 (getTopicBuffer e h req.Topic).2.2
          req (subscribeTopicHead e h req) ↔
      ¬ (req.Index = 0 ∨ subscribeTopicHeadEvents e h req = [] ∨
        ∃ ev rest, subscribeTopicHeadEvents e h req = ev :: rest ∧ ev.Index ≠ req.Index)) ∧
    (∀ snap e2 h2,
      getSnapshotLocked (getTopicBuffer e h req.Topic).2.1 (getTopicBuffer e h req.Topic).2.2
          req (subscribeTopicHead e h req) = (Outcome.ok snap, e2, h2) →
      subscribeSnapshot (getTopicBuffer e h req.Topic).2.1 (getTopicBuffer e h req.Topic).2.2
          req (subscribeTopicHead e h req) =
        (Outcome.ok h2.subs.length, registerSub e2 req h2.subs.length,
          { h2 with subs := h2.subs ++ [⟨req, (h2.snap snap).Snap, SubscriptionState.opened⟩] })) := by
  have hiff := canResume_eq_false_iff req (subscribeTopicHeadEvents e h req)
  have hsub : Subscribe reg e h req =
      if canResume req (subscribeTopicHeadEvents e h req) then
        subscribeResume (getTopicBuffer e h req.Topic).2.1 (getTopicBuffer e h req.Topic).2.2
          req (subscribeTopicHead e h req)
      else
        subscribeSnapshot (getTopicBuffer e h req.Topic).2.1 (getTopicBuffer e h req.Topic).2.2
          req (subscribeTopicHead e h req) := by
    simp only [Subscribe, hreg, subscribeTopicHeadEvents, subscribeTopicHead]
  refine ⟨?_, ?_, ?_⟩
  · rw [← hiff, hsub]
    cases hc : canResume req (subscribeTopicHeadEvents e h req) with
    | false => simp
    | true =>
      simp only [if_true, Bool.true_eq_false, iff_false]
      exact subscribeResume_ne_subscribeSnapshot _ _ _ _
  · rw [← hiff, hsub]
    cases hc : canResume req (subscribeTopicHeadEvents e h req) with
    | false =>
      simp only [Bool.false_eq_true, if_false, not_true_eq_false, iff_false]
      exact fun heq => subscribeResume_ne_subscribeSnapshot _ _ _ _ heq.symm
    | true => simp
  · intro snap e2 h2 hres
    simp only [subscribeSnapshot, hres, NewSubscription]

/-- Witness of C8: `Topic_ServiceHealth` is registered in `testRegistry`; a request with
Index 0 takes the snapshot branch although the topic head holds a batch. -/
theorem C8_snapshot_path_witness :
    GoMap.get testRegistry (testRequest 3).Topic =
      some ⟨some (fun _ _ => SnapResult.ok [] 1), none⟩ ∧
    subscribeTopicHeadEvents testRun.pub resumeHeap (testRequest 3) =
      [⟨Topic.ServiceHealth, "nope", 5, Payload.other 1⟩] ∧
    Subscribe testRegistry testRun.pub resumeHeap (testRequest 3) =
      subscribeSnapshot (getTopicBuffer testRun.pub resumeHeap (testRequest 3).Topic).2.1
        (getTopicBuffer testRun.pub resumeHeap (testRequest 3).Topic).2.2
        (testRequest 3) (subscribeTopicHead testRun.pub resumeHeap (testRequest 3)) :=
  ⟨rfl, rfl,
    (C8_snapshot_path_iff testRegistry testRun.pub resumeHeap (testRequest 3)
      ⟨some (fun _ _ => SnapResult.ok [] 1), none⟩ rfl).1.mpr (Or.inl rfl)⟩

/-! ## `Unsubscribe` -/

theorem Unsubscribe_spec (e : EventPublisher) (req : SubscribeRequest) :
    storedSub (Unsubscribe e req) req.Token req.addr = none ∧
    (∀ subs, GoMap.get (Unsubscribe e req).subsByToken req.Token = some subs → subs ≠ []) ∧
    (∀ a, a ≠ req.addr →
      storedSub (Unsubscribe e req) req.Token a = storedSub e req.Token a) ∧
    (∀ t, t ≠ req.Token →
      GoMap.get (Unsubscribe e req).subsByToken t = GoMap.get e.subsByToken t) ∧
    (Unsubscribe e req).topicBuffers = e.topicBuffers ∧
    (Unsubscribe e req).snapCache = e.snapCache := by
  unfold Unsubscribe
  cases hg : GoMap.get e.subsByToken req.Token with
  | none =>
    refine ⟨by simp [storedSub, hg], ?_, fun _ _ => rfl, fun _ _ => rfl, rfl, rfl⟩
    intro subs hsubs
    simp [hg] at hsubs
  | some inner =>
    by_cases hlen : (GoMap.del inner req.addr).length = 0
    · have hnil : GoMap.del inner req.addr = [] := List.length_eq_zero.mp hlen
      simp only [hlen, if_true]
      refine ⟨by simp [storedSub, GoMap.get_del_self], ?_, ?_, ?_, trivial, trivial⟩
      · intro subs hsubs
        simp [GoMap.get_del_self] at hsubs
      · intro a ha
        have h1 := GoMap.get_del_ne inner ha
        rw [hnil] at h1
        simp only [storedSub, GoMap.get_del_self, hg]
        rw [← h1]
        rfl
      · intro t ht
        exact GoMap.get_del_ne _ ht
    · simp only [hlen, if_false]
      refine ⟨by simp [storedSub, GoMap.get_set_self, GoMap.get_del_self], ?_, ?_, ?_, trivial, trivial⟩
      · intro subs hsubs
        simp only [GoMap.get_set_self, Option.some.injEq] at hsubs
        subst hsubs
        intro hc
        exact hlen (by rw [hc]; rfl)
      · intro a ha
        simp only [storedSub, GoMap.get_set_self, hg]
        exact GoMap.get_del_ne inner ha
      · intro t ht
        exact GoMap.get_set_ne _ _ ht

/-- C10: after `Unsubscribe(req)` the set `subsByToken[req.Token]` does not contain the
request; if the token key is still present its set is not empty; every other
request under the token and every other token are as before, and so are
`topicBuffers` and `snapCache`. -/
theorem C10_unsubscribe_removes_request (e : EventPublisher) (req : SubscribeRequest) :
    storedSub (Unsubscribe e req) req.Token req.addr = none ∧
    (∀ subs, GoMap.get (Unsubscribe e req).subsByToken req.Token = some subs → subs ≠ []) ∧
    (∀ a, a ≠ req.addr →
      storedSub (Unsubscribe e req) req.Token a = storedSub e req.Token a) ∧
    (∀ t, t ≠ req.Token →
      GoMap.get (Unsubscribe e req).subsByToken t = GoMap.get e.subsByToken t) ∧
    (Unsubscribe e req).topicBuffers = e.topicBuffers ∧
    (Unsubscribe e req).snapCache = e.snapCache :=
  Unsubscribe_spec e req

/-! ## Runs: which subscriptions are stored -/

theorem latestLive_cons (p : SubscribeRequest × Nat) (rest : List (SubscribeRequest × Nat)) :
    latestLive (p :: rest) =
      if rest.any (fun q => decide (q.1.addr = p.1.addr)) then latestLive rest
      else p :: latestLive rest := rfl

theorem filter_addr_cons_eq (q : SubscribeRequest × Nat) (l : List (SubscribeRequest × Nat))
    (a : Nat) (hq : q.1.addr = a) :
    (q :: l).filter (fun r => !decide (r.1.addr = a)) =
      l.filter (fun r => !decide (r.1.addr = a)) := by
  rw [List.filter_cons]
  simp [hq]

theorem filter_addr_cons_ne (q : SubscribeRequest × Nat) (l : List (SubscribeRequest × Nat))
    (a : Nat) (hq : ¬ q.1.addr = a) :
    (q :: l).filter (fun r => !decide (r.1.addr = a)) =
      q :: l.filter (fun r => !decide (r.1.addr = a)) := by
  rw [List.filter_cons]
  simp [hq]

theorem latestLive_append_singleton (l : List (SubscribeRequest × Nat))
    (p : SubscribeRequest × Nat) :
    latestLive (l ++ [p]) =
      (latestLive l).filter (fun q => !decide (q.1.addr = p.1.addr)) ++ [p] := by
  induction l with
  | nil => rfl
  | cons q rest ih =>
    have hany : (rest ++ [p]).any (fun r => decide (r.1.addr = q.1.addr)) =
        (rest.any (fun r => decide (r.1.addr = q.1.addr)) || decide (p.1.addr = q.1.addr)) := by
      rw [List.any_append]
      simp
    rw [List.cons_append, latestLive_cons, latestLive_cons, ih, hany]
    by_cases hqp : p.1.addr = q.1.addr
    · rw [decide_eq_true hqp, Bool.or_true]
      simp only [if_true]
      by_cases hr : rest.any (fun r => decide (r.1.addr = q.1.addr)) = true
      · simp only [hr, if_true]
      · simp only [hr, if_false, Bool.false_eq_true]
        rw [filter_addr_cons_eq q _ _ hqp.symm]
    · rw [decide_eq_false hqp, Bool.or_false]
      by_cases hr : rest.any (fun r => decide (r.1.addr = q.1.addr)) = true
      · simp only [hr, if_true]
      · simp only [hr, if_false, Bool.false_eq_true]
        rw [filter_addr_cons_ne q _ _ (fun hc => hqp hc.symm)]
        rfl

theorem any_filter_addr (l : List (SubscribeRequest × Nat)) (a b : Nat) (hab : ¬ b = a) :
    (l.filter (fun q => !decide (q.1.addr = a))).any (fun r => decide (r.1.addr = b)) =
      l.any (fun r => decide (r.1.addr = b)) := by
  induction l with
  | nil => rfl
  | cons q rest ih =>
    by_cases hq : q.1.addr = a
    · have hqb : decide (q.1.addr = b) = false :=
        decide_eq_false (fun hc => hab (hc.symm.trans hq))
      rw [filter_addr_cons_eq q _ _ hq, List.any_cons, hqb, Bool.false_or, ih]
    · rw [filter_addr_cons_ne q _ _ hq, List.any_cons, List.any_cons, ih]

theorem latestLive_filter (l : List (SubscribeRequest × Nat)) (a : Nat) :
    latestLive (l.filter (fun q => !decide (q.1.addr = a))) =
      (latestLive l).filter (fun q => !decide (q.1.addr = a)) := by
  induction l with
  | nil => rfl
  | cons q rest ih =>
    by_cases hq : q.1.addr = a
    · rw [filter_addr_cons_eq q _ _ hq, ih, latestLive_cons]
      by_cases hr : rest.any (fun r => decide (r.1.addr = q.1.addr)) = true
      · simp only [hr, if_true]
      · simp only [hr, if_false, Bool.false_eq_true]
        rw [filter_addr_cons_eq q _ _ hq]
    · rw [filter_addr_cons_ne q _ _ hq, latestLive_cons, latestLive_cons,
        any_filter_addr rest a q.1.addr hq, ih]
      by_cases hr : rest.any (fun r => decide (r.1.addr = q.1.addr)) = true
      · simp only [hr, if_true]
      · simp only [hr, if_false, Bool.false_eq_true]
        rw [filter_addr_cons_ne q _ _ hq]

theorem getTopicBuffer_frame (e : EventPublisher) (h : Heap) (topic : Topic) :
    (getTopicBuffer e h topic).2.1.subsByToken = e.subsByToken ∧
    (getTopicBuffer e h topic).2.2.subs = h.subs := by
  unfold getTopicBuffer
  split <;> exact ⟨rfl, rfl⟩

theorem SubscribeEffect_transfer {e e1 : EventPublisher} {h h1 : Heap} {req : SubscribeRequest}
    {r : Outcome Nat × EventPublisher × Heap} (he : e1.subsByToken = e.subsByToken)
    (hh : h1.subs = h.subs) (heff : SubscribeEffect e1 h1 req r) : SubscribeEffect e h req r := by
  unfold SubscribeEffect at heff ⊢
  simp only [registerSub, he, hh] at heff ⊢
  exact heff

theorem Subscribe_effect (reg : GoMap Topic topicHandlers) (e : EventPublisher) (h : Heap)
    (req : SubscribeRequest) : SubscribeEffect e h req (Subscribe reg e h req) := by
  unfold Subscribe
  cases hreg : GoMap.get reg req.Topic with
  | none => exact Or.inr ⟨(fun sub hc => by cases hc), rfl, rfl⟩
  | some hs =>
    obtain ⟨f1, f2⟩ := getTopicBuffer_frame e h req.Topic
    simp only
    split
    · exact SubscribeEffect_transfer f1 f2 (subscribeResume_cases _ _ _ _).2.2.2.2.2
    · exact SubscribeEffect_transfer f1 f2 (subscribeSnapshot_cases _ _ _ _).2.2

theorem storedSub_congr {e1 e2 : EventPublisher} (he : e1.subsByToken = e2.subsByToken)
    (t : String) (a : Nat) : storedSub e1 t a = storedSub e2 t a := by
  simp only [storedSub, he]

theorem subsOf_congr {e1 e2 : EventPublisher} (he : e1.subsByToken = e2.subsByToken)
    (t : String) : subsOf e1 t = subsOf e2 t := by
  simp only [subsOf, he]

theorem storedSub_registerSub_self (e : EventPublisher) (req : SubscribeRequest) (n : Nat) :
    storedSub (registerSub e req n) req.Token req.addr = some n := by
  simp [storedSub, registerSub, GoMap.get_set_self]

theorem storedSub_registerSub_ne (e : EventPublisher) (req : SubscribeRequest) (n : Nat)
    (t : String) (a : Nat) (ha : a ≠ req.addr) :
    storedSub (registerSub e req n) t a = storedSub e t a := by
  by_cases ht : t = req.Token
  · subst ht
    simp only [storedSub, registerSub, GoMap.get_set_self, GoMap.get_set_ne _ _ ha]
    cases GoMap.get e.subsByToken req.Token with
    | none => rfl
    | some subs => rfl
  · simp only [storedSub, registerSub, GoMap.get_set_ne _ _ ht]

theorem mem_subsOf_registerSub {e : EventPublisher} {req : SubscribeRequest} {n : Nat}
    {t : String} {sub : Nat} (hm : sub ∈ subsOf (registerSub e req n) t) :
    (sub = n ∧ t = req.Token) ∨ sub ∈ subsOf e t := by
  by_cases ht : t = req.Token
  · subst ht
    simp only [subsOf, registerSub, GoMap.get_set_self, Option.getD_some] at hm
    rcases GoMap.mem_values_set hm with hv | hv
    · exact Or.inl ⟨hv, rfl⟩
    · exact Or.inr hv
  · simp only [subsOf, registerSub, GoMap.get_set_ne _ _ ht] at hm
    exact Or.inr hm

theorem storedSub_Unsubscribe_ne (e : EventPublisher) (req : SubscribeRequest)
    (t : String) (a : Nat) (ha : a ≠ req.addr) :
    storedSub (Unsubscribe e req) t a = storedSub e t a := by
  obtain ⟨_, _, h3, h4, _, _⟩ := Unsubscribe_spec e req
  by_cases ht : t = req.Token
  · subst ht
    exact h3 a ha
  · simp only [storedSub, h4 t ht]

theorem mem_subsOf_Unsubscribe {e : EventPublisher} {req : SubscribeRequest}
    {t : String} {sub : Nat} (hm : sub ∈ subsOf (Unsubscribe e req) t) : sub ∈ subsOf e t := by
  by_cases ht : t = req.Token
  · subst ht
    unfold Unsubscribe at hm
    cases hg : GoMap.get e.subsByToken req.Token with
    | none =>
      simp only [hg] at hm
      exact hm
    | some inner =>
      simp only [hg] at hm
      by_cases hlen : (GoMap.del inner req.addr).length = 0
      · simp only [hlen, if_true, subsOf, GoMap.get_del_self] at hm
        simp [GoMap.values] at hm
      · simp only [hlen, if_false, subsOf, GoMap.get_set_self, Option.getD_some] at hm
        simp only [subsOf, hg, Option.getD_some]
        exact GoMap.mem_values_del hm
  · obtain ⟨_, _, _, h4, _, _⟩ := Unsubscribe_spec e req
    simp only [subsOf, h4 t ht] at hm
    exact hm

theorem mem_subsOf_of_storedSub {e : EventPublisher} {t : String} {a sub : Nat}
    (hst : storedSub e t a = some sub) : sub ∈ subsOf e t := by
  unfold storedSub at hst
  cases hg : GoMap.get e.subsByToken t with
  | none => simp [hg] at hst
  | some subs =>
    simp only [hg] at hst
    simp only [subsOf, hg, Option.getD_some]
    exact GoMap.mem_values_of_get hst

theorem RunInv_subscribe_ok (s : RunState) (req : SubscribeRequest) (e1 : EventPublisher)
    (h1 : Heap) (hinv : RunInv s)
    (he : e1.subsByToken = (registerSub s.pub req s.heap.subs.length).subsByToken)
    (hh : h1.subs.length = s.heap.subs.length + 1) :
    RunInv ⟨e1, h1, s.live ++ [(req, s.heap.subs.length)]⟩ := by
  obtain ⟨hlive, hfresh⟩ := hinv
  refine ⟨?_, ?_⟩
  · intro p hp
    simp only [latestLive_append_singleton, List.mem_append, List.mem_filter,
      List.mem_singleton, Bool.not_eq_true', decide_eq_false_iff_not] at hp
    rcases hp with ⟨hp, hne⟩ | hp
    · obtain ⟨hst, hother⟩ := hlive p hp
      have hlt : p.2 < s.heap.subs.length := hfresh _ _ (mem_subsOf_of_storedSub hst)
      refine ⟨?_, ?_⟩
      · rw [storedSub_congr he, storedSub_registerSub_ne _ _ _ _ _ hne]
        exact hst
      · intro t ht hm
        rw [subsOf_congr he] at hm
        rcases mem_subsOf_registerSub hm with ⟨hn, _⟩ | hm
        · omega
        · exact hother t ht hm
    · subst hp
      refine ⟨?_, ?_⟩
      · rw [storedSub_congr he]
        exact storedSub_registerSub_self _ _ _
      · intro t ht hm
        rw [subsOf_congr he] at hm
        rcases mem_subsOf_registerSub hm with ⟨_, htok⟩ | hm
        · exact ht htok
        · have := hfresh t _ hm
          simp at this
  · intro t sub hm
    rw [subsOf_congr he] at hm
    show sub < h1.subs.length
    rcases mem_subsOf_registerSub hm with ⟨hn, _⟩ | hm
    · omega
    · have := hfresh t sub hm
      omega

theorem RunInv_same (s : RunState) (e1 : EventPublisher) (h1 : Heap) (hinv : RunInv s)
    (he : e1.subsByToken = s.pub.subsByToken) (hh : h1.subs = s.heap.subs) :
    RunInv ⟨e1, h1, s.live⟩ := by
  obtain ⟨hlive, hfresh⟩ := hinv
  refine ⟨?_, ?_⟩
  · intro p hp
    obtain ⟨hst, hother⟩ := hlive p hp
    refine ⟨by rw [storedSub_congr he]; exact hst, ?_⟩
    intro t ht hm
    rw [subsOf_congr he] at hm
    exact hother t ht hm
  · intro t sub hm
    rw [subsOf_congr he] at hm
    show sub < h1.subs.length
    rw [hh]
    exact hfresh t sub hm

theorem RunInv_step (reg : GoMap Topic topicHandlers) (s : RunState) (c : Call)
    (hinv : RunInv s) : RunInv (step reg s c) := by
  cases c with
  | subscribe req =>
    have heff := Subscribe_effect reg s.pub s.heap req
    rcases hres : Subscribe reg s.pub s.heap req with ⟨o, e1, h1⟩
    rw [hres] at heff
    rcases heff with ⟨hok, he, hh⟩ | ⟨hno, he, hh⟩
    · simp only at hok he hh
      subst hok
      simp only [step, hres]
      exact RunInv_subscribe_ok s req e1 h1 hinv he hh
    · simp only at hno he hh
      cases o with
      | ok sub => exact absurd rfl (hno sub)
      | error err =>
        simp only [step, hres]
        exact RunInv_same s e1 h1 hinv he hh
      | panic =>
        simp only [step, hres]
        exact RunInv_same s e1 h1 hinv he hh
  | unsubscribe req =>
    obtain ⟨hlive, hfresh⟩ := hinv
    unfold step
    refine ⟨?_, ?_⟩
    · intro p hp
      simp only [latestLive_filter, List.mem_filter, Bool.not_eq_true',
        decide_eq_false_iff_not] at hp
      obtain ⟨hp, hne⟩ := hp
      obtain ⟨hst, hother⟩ := hlive p hp
      refine ⟨?_, ?_⟩
      · show storedSub (Unsubscribe s.pub req) p.1.Token p.1.addr = some p.2
        rw [storedSub_Unsubscribe_ne _ _ _ _ hne]
        exact hst
      · intro t ht hm
        exact hother t ht (mem_subsOf_Unsubscribe hm)
    · intro t sub hm
      exact hfresh t sub (mem_subsOf_Unsubscribe hm)

theorem RunInv_foldl (reg : GoMap Topic topicHandlers) (calls : List Call) (s : RunState)
    (hinv : RunInv s) : RunInv (calls.foldl (step reg) s) := by
  induction calls generalizing s with
  | nil => exact hinv
  | cons c rest ih => exact ih _ (RunInv_step reg s c hinv)

/-- Under a registry whose topic has a snapshot function (`testRegistry`, not the registry of
the program), two `Subscribe` calls with the same request object leave only the
second subscription (address 1) stored for that request: the statement
`subsByToken[req] = sub` replaces the entry of the first one (address 0). -/
theorem same_request_twice_overwrites :
    ¬ liveStored
        (run testRegistry testStore 0 0
          [Call.subscribe (testRequest 1), Call.subscribe (testRequest 1)]).pub
        (run testRegistry testStore 0 0
          [Call.subscribe (testRequest 1), Call.subscribe (testRequest 1)]).live := by
  intro hc
  have h0 := (hc (testRequest 1, 0) (by decide)).1
  revert h0
  decide

theorem latest_live_stored (reg : GoMap Topic topicHandlers) (store : Store)
    (topicBufferSize snapCacheTTL : Int) (calls : List Call) :
    liveStored (run reg store topicBufferSize snapCacheTTL calls).pub
      (latestLive (run reg store topicBufferSize snapCacheTTL calls).live) := by
  have h0 : RunInv ⟨NewEventPublisher reg store topicBufferSize snapCacheTTL, Heap.empty, []⟩ := by
    refine ⟨?_, ?_⟩
    · intro p hp
      simp [latestLive] at hp
    · intro t sub hm
      simp [subsOf, NewEventPublisher, GoMap.get, GoMap.values] at hm
  exact (RunInv_foldl reg calls _ h0).1

/-! ## Idempotence of `Unsubscribe` -/

theorem GoMap.del_of_get_none {K V : Type} [DecidableEq K] (m : GoMap K V) (k : K)
    (hg : GoMap.get m k = none) : GoMap.del m k = m := by
  induction m with
  | nil => rfl
  | cons p rest ih =>
    obtain ⟨k1, v⟩ := p
    by_cases hk : k1 = k
    · simp [GoMap.get, hk] at hg
    · simp only [GoMap.get, hk, if_false] at hg
      have h1 := ih hg
      simp only [GoMap.del] at h1 ⊢
      rw [List.filter_cons]
      simp [hk, h1]

theorem GoMap.del_del {K V : Type} [DecidableEq K] (m : GoMap K V) (k : K) :
    GoMap.del (GoMap.del m k) k = GoMap.del m k := by
  simp [GoMap.del, List.filter_filter]

theorem Unsubscribe_twice (e : EventPublisher) (req : SubscribeRequest) :
    Unsubscribe (Unsubscribe e req) req = Unsubscribe e req := by
  cases hg : GoMap.get e.subsByToken req.Token with
  | none =>
    have h1 : Unsubscribe e req = e := by simp [Unsubscribe, hg]
    rw [h1, h1]
  | some inner =>
    by_cases hlen : (GoMap.del inner req.addr).length = 0
    · have h1 : Unsubscribe e req =
          { e with subsByToken := GoMap.del e.subsByToken req.Token } := by
        simp [Unsubscribe, hg, hlen]
      rw [h1]
      simp [Unsubscribe, GoMap.get_del_self]
    · have h1 : Unsubscribe e req =
          { e with subsByToken :=
              GoMap.set e.subsByToken req.Token (GoMap.del inner req.addr) } := by
        simp [Unsubscribe, hg, hlen]
      rw [h1]
      simp only [Unsubscribe, GoMap.get_set_self, GoMap.del_del, hlen, if_false]
      simp [GoMap.set, GoMap.del, List.filter_filter]

theorem Unsubscribe_other_fields (e : EventPublisher) (req : SubscribeRequest) :
    { Unsubscribe e req with subsByToken := e.subsByToken } = e := by
  cases hg : GoMap.get e.subsByToken req.Token with
  | none => simp [Unsubscribe, hg]
  | some inner =>
    by_cases hlen : (GoMap.del inner req.addr).length = 0
    · simp [Unsubscribe, hg, hlen]
    · simp [Unsubscribe, hg, hlen]

theorem Unsubscribe_not_stored (e : EventPublisher) (req : SubscribeRequest)
    (hne : ∀ t subs, GoMap.get e.subsByToken t = some subs → subs ≠ [])
    (hns : storedSub e req.Token req.addr = none) (t : String) :
    GoMap.get (Unsubscribe e req).subsByToken t = GoMap.get e.subsByToken t := by
  cases hg : GoMap.get e.subsByToken req.Token with
  | none =>
    have h1 : Unsubscribe e req = e := by simp [Unsubscribe, hg]
    rw [h1]
  | some inner =>
    have hin : GoMap.get inner req.addr = none := by
      simpa [storedSub, hg] using hns
    have hdel : GoMap.del inner req.addr = inner := GoMap.del_of_get_none _ _ hin
    have hlen : ¬ inner.length = 0 := fun hc => hne _ _ hg (List.length_eq_zero.mp hc)
    have h1 : Unsubscribe e req =
        { e with subsByToken := GoMap.set e.subsByToken req.Token inner } := by
      simp [Unsubscribe, hg, hdel, hlen]
    rw [h1]
    by_cases ht : t = req.Token
    · subst ht
      simp only [GoMap.get_set_self, hg]
    · simp only [GoMap.get_set_ne _ _ ht]

theorem StoredInv_congr {e1 e2 : EventPublisher} {addrs : List Nat}
    (he : e1.subsByToken = e2.subsByToken) (hinv : StoredInv e2 addrs) : StoredInv e1 addrs := by
  refine ⟨?_, ?_⟩
  · intro t subs hg
    rw [he] at hg
    exact hinv.1 t subs hg
  · intro t a sub hst
    rw [storedSub_congr he] at hst
    exact hinv.2 t a sub hst

theorem StoredInv_mono {e : EventPublisher} {addrs more : List Nat} (hinv : StoredInv e addrs) :
    StoredInv e (addrs ++ more) :=
  ⟨hinv.1, fun t a sub hst => List.mem_append_left _ (hinv.2 t a sub hst)⟩

theorem StoredInv_registerSub (e : EventPublisher) (req : SubscribeRequest) (n : Nat)
    (addrs : List Nat) (hinv : StoredInv e addrs) :
    StoredInv (registerSub e req n) (addrs ++ [req.addr]) := by
  refine ⟨?_, ?_⟩
  · intro t subs hg
    by_cases ht : t = req.Token
    · subst ht
      simp only [registerSub, GoMap.get_set_self, Option.some.injEq] at hg
      subst hg
      simp [GoMap.set]
    · simp only [registerSub, GoMap.get_set_ne _ _ ht] at hg
      exact hinv.1 t subs hg
  · intro t a sub hst
    by_cases ha : a = req.addr
    · subst ha
      simp
    · rw [storedSub_registerSub_ne _ _ _ _ _ ha] at hst
      exact List.mem_append_left _ (hinv.2 t a sub hst)

theorem storedSub_Unsubscribe_some {e : EventPublisher} {req : SubscribeRequest} {t : String}
    {a sub : Nat} (hst : storedSub (Unsubscribe e req) t a = some sub) :
    storedSub e t a = some sub := by
  obtain ⟨h1, _, _, h4, _, _⟩ := Unsubscribe_spec e req
  by_cases ha : a = req.addr
  · subst ha
    by_cases ht : t = req.Token
    · subst ht
      rw [h1] at hst
      cases hst
    · simpa only [storedSub, h4 t ht] using hst
  · rwa [storedSub_Unsubscribe_ne _ _ _ _ ha] at hst

theorem StoredInv_Unsubscribe (e : EventPublisher) (req : SubscribeRequest) (addrs : List Nat)
    (hinv : StoredInv e addrs) : StoredInv (Unsubscribe e req) addrs := by
  obtain ⟨_, h2, _, h4, _, _⟩ := Unsubscribe_spec e req
  refine ⟨?_, ?_⟩
  · intro t subs hg
    by_cases ht : t = req.Token
    · subst ht
      exact h2 subs hg
    · rw [h4 t ht] at hg
      exact hinv.1 t subs hg
  · intro t a sub hst
    exact hinv.2 t a sub (storedSub_Unsubscribe_some hst)

theorem StoredInv_step (reg : GoMap Topic topicHandlers) (s : RunState) (c : Call)
    (addrs : List Nat) (hinv : StoredInv s.pub addrs) :
    StoredInv (step reg s c).pub (addrs ++ subscribedAddrs [c]) := by
  cases c with
  | subscribe req =>
    have heff := Subscribe_effect reg s.pub s.heap req
    rcases hres : Subscribe reg s.pub s.heap req with ⟨o, e1, h1⟩
    rw [hres] at heff
    rcases heff with ⟨hok, he, _⟩ | ⟨hno, he, _⟩
    · simp only at hok he
      subst hok
      simp only [step, hres, subscribedAddrs]
      exact StoredInv_congr he (StoredInv_registerSub _ _ _ _ hinv)
    · simp only at hno he
      cases o with
      | ok sub => exact absurd rfl (hno sub)
      | error err =>
        simp only [step, hres]
        exact StoredInv_congr he (StoredInv_mono hinv)
      | panic =>
        simp only [step, hres]
        exact StoredInv_congr he (StoredInv_mono hinv)
  | unsubscribe req =>
    simp only [step, subscribedAddrs, List.append_nil]
    exact StoredInv_Unsubscribe _ _ _ hinv

theorem subscribedAddrs_cons (c : Call) (rest : List Call) :
    subscribedAddrs (c :: rest) = subscribedAddrs [c] ++ subscribedAddrs rest := by
  cases c <;> rfl

theorem StoredInv_foldl (reg : GoMap Topic topicHandlers) (calls : List Call) (s : RunState)
    (addrs : List Nat) (hinv : StoredInv s.pub addrs) :
    StoredInv (calls.foldl (step reg) s).pub (addrs ++ subscribedAddrs calls) := by
  induction calls generalizing s addrs with
  | nil => exact StoredInv_mono hinv
  | cons c rest ih =>
    rw [subscribedAddrs_cons, ← List.append_assoc]
    exact ih _ _ (StoredInv_step reg s c addrs hinv)

theorem StoredInv_run (reg : GoMap Topic topicHandlers) (store : Store)
    (topicBufferSize snapCacheTTL : Int) (calls : List Call) :
    StoredInv (run reg store topicBufferSize snapCacheTTL calls).pub (subscribedAddrs calls) := by
  have h0 : StoredInv (NewEventPublisher reg store topicBufferSize snapCacheTTL) [] := by
    refine ⟨?_, ?_⟩
    · intro t subs hg
      simp [NewEventPublisher, GoMap.get] at hg
    · intro t a sub hst
      simp [storedSub, NewEventPublisher, GoMap.get] at hst
  have := StoredInv_foldl reg calls
    ⟨NewEventPublisher reg store topicBufferSize snapCacheTTL, Heap.empty, []⟩ [] h0
  simpa [run] using this

/-- C11: `Unsubscribe` is idempotent: in every publisher state a second `Unsubscribe` of
the same request changes nothing more; and in every state reached from a new
publisher by `Subscribe` and `Unsubscribe` calls, `Unsubscribe` of a request
object that was never passed to `Subscribe` leaves every token mapped to the set
it had and every other field of the publisher as it was. -/
theorem C11_unsubscribe_idempotent (e : EventPublisher) (req : SubscribeRequest)
    (reg : GoMap Topic topicHandlers) (store : Store) (topicBufferSize snapCacheTTL : Int)
    (calls : List Call) (never : SubscribeRequest)
    (hnever : never.addr ∉ subscribedAddrs calls) :
    Unsubscribe (Unsubscribe e req) req = Unsubscribe e req ∧
    (∀ t, GoMap.get
        (Unsubscribe (run reg store topicBufferSize snapCacheTTL calls).pub never).subsByToken t =
      GoMap.get (run reg store topicBufferSize snapCacheTTL calls).pub.subsByToken t) ∧
    { Unsubscribe (run reg store topicBufferSize snapCacheTTL calls).pub never with
        subsByToken := (run reg store topicBufferSize snapCacheTTL calls).pub.subsByToken } =
      (run reg store topicBufferSize snapCacheTTL calls).pub := by
  obtain ⟨hne, hst⟩ := StoredInv_run reg store topicBufferSize snapCacheTTL calls
  have hns : storedSub (run reg store topicBufferSize snapCacheTTL calls).pub
      never.Token never.addr = none := by
    cases hs : storedSub (run reg store topicBufferSize snapCacheTTL calls).pub
        never.Token never.addr with
    | none => rfl
    | some sub => exact absurd (hst _ _ _ hs) hnever
  exact ⟨Unsubscribe_twice e req, Unsubscribe_not_stored _ _ hne hns,
    Unsubscribe_other_fields _ _⟩

/-- Witness of C11: after one `Subscribe` with request object 1, request object 2 was
never subscribed. -/
theorem C11_unsubscribe_idempotent_witness :
    (testRequest 2).addr ∉ subscribedAddrs [Call.subscribe (testRequest 1)] ∧
    Unsubscribe (Unsubscribe testRun.pub (testRequest 1)) (testRequest 1) =
      Unsubscribe testRun.pub (testRequest 1) ∧
    (∀ t, GoMap.get (Unsubscribe testRun.pub (testRequest 2)).subsByToken t =
      GoMap.get testRun.pub.subsByToken t) :=
  ⟨by decide,
    (C11_unsubscribe_idempotent testRun.pub (testRequest 1) testRegistry testStore 0 0
      [Call.subscribe (testRequest 1)] (testRequest 2) (by decide)).1,
    (C11_unsubscribe_idempotent testRun.pub (testRequest 1) testRegistry testStore 0 0
      [Call.subscribe (testRequest 1)] (testRequest 2) (by decide)).2.1⟩

/-! ## The snapshot cache -/

theorem NewEventSnapshot_ok (h : Heap) (req : SubscribeRequest) (topicHead : Nat)
    (fn : SnapFn) (hnp : fn req ≠ SnapResult.panic) :
    NewEventSnapshot h req topicHead fn =
        (Outcome.ok h.snaps.length, (NewEventSnapshot h req topicHead fn).2) ∧
      (NewEventSnapshot h req topicHead fn).2.snaps.length = h.snaps.length + 1 := by
  obtain ⟨_, _, f3⟩ := NewEventSnapshot_frame h req topicHead fn
  have hne : (NewEventSnapshot h req topicHead fn).1 ≠ Outcome.panic := by
    unfold NewEventSnapshot
    cases hfn : fn req with
    | panic => exact absurd hfn hnp
    | error err => simp
    | ok batches idx =>
      simp only
      split <;> simp
  rcases f3 with f3 | ⟨f3, f4⟩
  · exact absurd f3 hne
  · exact ⟨Prod.ext f3 rfl, f4⟩

theorem getSnapshotLocked_hit (e : EventPublisher) (h : Heap) (req : SubscribeRequest)
    (topicHead snap : Nat) (hc : cachedSnap e req.Topic req.Key = some snap)
    (herr : (h.snap snap).err = none) :
    getSnapshotLocked e h req topicHead = (Outcome.ok snap, e, h) := by
  unfold cachedSnap at hc
  cases hg : GoMap.get e.snapCache req.Topic with
  | none => simp [hg] at hc
  | some topicSnaps =>
    simp only [hg] at hc
    simp [getSnapshotLocked, hg, hc, herr]

theorem getSnapshotLocked_miss (e : EventPublisher) (h : Heap) (req : SubscribeRequest)
    (topicHead : Nat) (snapFn : SnapFn)
    (hfn : GoMap.get e.snapFns req.Topic = some snapFn) (hnp : snapFn req ≠ SnapResult.panic)
    (hc : cachedSnap e req.Topic req.Key = none ∨
      ∃ snap, cachedSnap e req.Topic req.Key = some snap ∧ (h.snap snap).err ≠ none) :
    getSnapshotLocked e h req topicHead =
      (Outcome.ok h.snaps.length, afterSnapshotBuilt e req h.snaps.length,
        (NewEventSnapshot h req topicHead snapFn).2) := by
  obtain ⟨hres, _⟩ := NewEventSnapshot_ok h req topicHead snapFn hnp
  unfold cachedSnap at hc
  cases hg : GoMap.get e.snapCache req.Topic with
  | none =>
    by_cases httl : e.snapCacheTTL > 0
    · simp [getSnapshotLocked, afterSnapshotBuilt, hg, hfn, httl, GoMap.get]
      rw [hres]
      simp [httl, GoMap.set, GoMap.del, List.filter_filter]
    · simp [getSnapshotLocked, afterSnapshotBuilt, hg, hfn, httl, GoMap.get]
      rw [hres]
  | some topicSnaps =>
    simp only [hg] at hc
    have hcached : (match GoMap.get topicSnaps req.Key with
        | some snap => if (h.snap snap).err = none then some snap else none
        | none => none) = none := by
      rcases hc with hc | ⟨snap, hc, herr⟩
      · simp [hc]
      · simp [hc, herr]
    by_cases httl : e.snapCacheTTL > 0
    · simp only [getSnapshotLocked, afterSnapshotBuilt, hg, hfn, httl, Option.getD_some, hcached]
      rw [hres]
      simp [httl]
    · simp only [getSnapshotLocked, afterSnapshotBuilt, hg, hfn, httl, Option.getD_some, hcached]
      rw [hres]
      simp [httl]

theorem cachedSnap_after_stored (e : EventPublisher) (req : SubscribeRequest) (snap : Nat)
    (httl : 0 < e.snapCacheTTL) :
    cachedSnap (afterSnapshotBuilt e req snap) req.Topic req.Key = some snap := by
  simp [cachedSnap, afterSnapshotBuilt, httl, GoMap.get_set_self]

theorem cachedSnap_after_not_stored (e : EventPublisher) (req : SubscribeRequest) (snap : Nat)
    (httl : ¬ 0 < e.snapCacheTTL) (t : Topic) (k : String) :
    cachedSnap (afterSnapshotBuilt e req snap) t k = cachedSnap e t k := by
  cases hg : GoMap.get e.snapCache req.Topic with
  | some topicSnaps => simp [afterSnapshotBuilt, httl, hg]
  | none =>
    by_cases ht : t = req.Topic
    · subst ht
      simp [cachedSnap, afterSnapshotBuilt, httl, hg, GoMap.get_set_self, GoMap.get]
    · simp [cachedSnap, afterSnapshotBuilt, httl, hg, GoMap.get_set_ne _ _ ht]

theorem cachedSnap_after_other (e : EventPublisher) (req : SubscribeRequest) (snap : Nat)
    (t : Topic) (k : String) (hne : t ≠ req.Topic ∨ k ≠ req.Key) :
    cachedSnap (afterSnapshotBuilt e req snap) t k = cachedSnap e t k := by
  by_cases httl : 0 < e.snapCacheTTL
  · by_cases ht : t = req.Topic
    · subst ht
      have hk : k ≠ req.Key := by
        rcases hne with hne | hne
        · exact absurd rfl hne
        · exact hne
      simp only [cachedSnap, afterSnapshotBuilt, httl, gt_iff_lt, if_true, GoMap.get_set_self,
        GoMap.get_set_ne _ _ hk]
      cases GoMap.get e.snapCache req.Topic with
      | none => rfl
      | some topicSnaps => rfl
    · simp [cachedSnap, afterSnapshotBuilt, httl, GoMap.get_set_ne _ _ ht]
  · exact cachedSnap_after_not_stored e req snap httl t k

theorem snap_lt_of_err {h : Heap} {snap : Nat} (herr : (h.snap snap).err ≠ none) :
    snap < h.snaps.length := by
  by_contra hge
  apply herr
  rw [Heap.snap, List.getD_eq_getElem?_getD, List.getElem?_eq_none (by omega)]
  rfl

/-- C12: for a request on a topic with a snapshot function, `getSnapshotLocked` returns the
snapshot cached under the topic and key of the request, building nothing and
changing nothing, when there is such an entry and it carries no error;
otherwise it returns a new snapshot built from the given topic head (never the
cached entry carrying an error). The heap is left as it was exactly in the
first case. The new snapshot is stored under the topic and key of the request
if `snapCacheTTL > 0`; otherwise every cache entry is as before, so a cache
holding no snapshot still holds none. No other cache entry changes. -/
theorem C12_snapshot_cache (e : EventPublisher) (h : Heap) (req : SubscribeRequest)
    (topicHead : Nat) (snapFn : SnapFn)
    (hfn : GoMap.get e.snapFns req.Topic = some snapFn)
    (hnp : snapFn req ≠ SnapResult.panic) :
    (∀ snap, cachedSnap e req.Topic req.Key = some snap → (h.snap snap).err = none →
      getSnapshotLocked e h req topicHead = (Outcome.ok snap, e, h)) ∧
    ((cachedSnap e req.Topic req.Key = none ∨
        ∃ snap, cachedSnap e req.Topic req.Key = some snap ∧ (h.snap snap).err ≠ none) →
      getSnapshotLocked e h req topicHead =
        (Outcome.ok h.snaps.length, afterSnapshotBuilt e req h.snaps.length,
          (NewEventSnapshot h req topicHead snapFn).2) ∧
      (NewEventSnapshot h req topicHead snapFn).2.snaps.length = h.snaps.length + 1 ∧
      ∀ snap, cachedSnap e req.Topic req.Key = some snap → snap ≠ h.snaps.length) ∧
    ((getSnapshotLocked e h req topicHead).2.2 = h ↔
      ∃ snap, cachedSnap e req.Topic req.Key = some snap ∧ (h.snap snap).err = none) ∧
    (0 < e.snapCacheTTL →
      cachedSnap (afterSnapshotBuilt e req h.snaps.length) req.Topic req.Key
        = some h.snaps.length) ∧
    (¬ 0 < e.snapCacheTTL → ∀ t k,
      cachedSnap (afterSnapshotBuilt e req h.snaps.length) t k = cachedSnap e t k) ∧
    (¬ 0 < e.snapCacheTTL → (∀ t k, cachedSnap e t k = none) →
      ∀ t k, cachedSnap (getSnapshotLocked e h req topicHead).2.1 t k = none) ∧
    (∀ t k, (t ≠ req.Topic ∨ k ≠ req.Key) →
      cachedSnap (afterSnapshotBuilt e req h.snaps.length) t k = cachedSnap e t k) := by
  have hmiss := getSnapshotLocked_miss e h req topicHead snapFn hfn hnp
  have hlen := (NewEventSnapshot_ok h req topicHead snapFn hnp).2
  have hcases : (∃ snap, cachedSnap e req.Topic req.Key = some snap ∧ (h.snap snap).err = none) ∨
      (cachedSnap e req.Topic req.Key = none ∨
        ∃ snap, cachedSnap e req.Topic req.Key = some snap ∧ (h.snap snap).err ≠ none) := by
    cases hc : cachedSnap e req.Topic req.Key with
    | none => exact Or.inr (Or.inl rfl)
    | some snap =>
      by_cases herr : (h.snap snap).err = none
      · exact Or.inl ⟨snap, rfl, herr⟩
      · exact Or.inr (Or.inr ⟨snap, rfl, herr⟩)
  refine ⟨fun snap hc herr => getSnapshotLocked_hit e h req topicHead snap hc herr, ?_, ?_,
    cachedSnap_after_stored e req _, cachedSnap_after_not_stored e req _, ?_,
    cachedSnap_after_other e req _⟩
  · intro hc
    refine ⟨hmiss hc, hlen, ?_⟩
    intro snap hsnap
    rcases hc with hc | ⟨snap2, hc, herr⟩
    · rw [hc] at hsnap
      cases hsnap
    · rw [hc] at hsnap
      cases hsnap
      exact Nat.ne_of_lt (snap_lt_of_err herr)
  · constructor
    · intro hsame
      rcases hcases with hhit | hm
      · exact hhit
      · rw [hmiss hm] at hsame
        simp only at hsame
        rw [hsame] at hlen
        omega
    · rintro ⟨snap, hc, herr⟩
      rw [getSnapshotLocked_hit e h req topicHead snap hc herr]
  · intro httl hempty t k
    rcases hcases with ⟨snap, hc, _⟩ | hm
    · rw [hempty] at hc
      cases hc
    · rw [hmiss hm]
      simp only
      rw [cachedSnap_after_not_stored e req _ httl]
      exact hempty t k

/-- Witness of C12: the publisher of the tests has a snapshot function for
`Topic_ServiceHealth` and nothing cached for the key, so a snapshot is built. -/
theorem C12_snapshot_cache_witness :
    GoMap.get testRun.pub.snapFns (testRequest 2).Topic =
      some (snapFnOf testStore (some (fun _ _ => SnapResult.ok [] 1))) ∧
    snapFnOf testStore (some (fun _ _ => SnapResult.ok [] 1)) (testRequest 2)
      ≠ SnapResult.panic ∧
    cachedSnap testRun.pub (testRequest 2).Topic (testRequest 2).Key = none ∧
    getSnapshotLocked testRun.pub testRun.heap (testRequest 2) 0 =
      (Outcome.ok testRun.heap.snaps.length,
        afterSnapshotBuilt testRun.pub (testRequest 2) testRun.heap.snaps.length,
        (NewEventSnapshot testRun.heap (testRequest 2) 0
          (snapFnOf testStore (some (fun _ _ => SnapResult.ok [] 1)))).2) :=
  ⟨rfl, by decide, rfl,
    ((C12_snapshot_cache testRun.pub testRun.heap (testRequest 2) 0
      (snapFnOf testStore (some (fun _ _ => SnapResult.ok [] 1))) rfl (by decide)).2.1
      (Or.inl rfl)).1⟩

/-! ## Events of ACL changes -/

theorem expectedACLEvent_of_getObj (tx : txn) (c : Change) (topic : Topic) (row : Payload)
    (ht : aclTopicOfTable c.Table = some topic) (ho : getObj c = some row) :
    expectedACLEvent tx c = some ⟨topic, "", tx.Index, row⟩ := by
  unfold getObj at ho
  simp only [expectedACLEvent, ht, ho]

theorem expectedACLEvent_other (tx : txn) (c : Change) (ht : aclTopicOfTable c.Table = none) :
    expectedACLEvent tx c = none := by
  simp only [expectedACLEvent, ht]

theorem aclEventsFromChanges_acc (tx : txn) (changes : List Change) (events : List Event)
    (htyped : ∀ c ∈ changes, c.rowTyped = true) :
    aclEventsFromChanges tx changes events =
      Outcome.ok (events ++ changes.filterMap (expectedACLEvent tx)) := by
  induction changes generalizing events with
  | nil => simp [aclEventsFromChanges]
  | cons c rest ih =>
    have hc := htyped c (List.mem_cons_self _ _)
    have hrest : ∀ c2 ∈ rest, c2.rowTyped = true :=
      fun c2 h2 => htyped c2 (List.mem_cons_of_mem _ h2)
    unfold aclEventsFromChanges
    by_cases h1 : c.Table = "acl-tokens"
    · have ht : aclTopicOfTable c.Table = some Topic.ACLTokens := by
        simp [aclTopicOfTable, h1]
      simp only [Change.rowTyped, ht] at hc
      cases ho : getObj c with
      | none => simp [ho] at hc
      | some row =>
        cases row <;> simp [ho] at hc
        simp only [h1, if_true, ho]
        rw [ih _ hrest, List.filterMap_cons, expectedACLEvent_of_getObj tx c _ _ ht ho]
        simp
    · by_cases h2 : c.Table = "acl-policies"
      · have ht : aclTopicOfTable c.Table = some Topic.ACLPolicies := by
          simp [aclTopicOfTable, h2]
        simp only [Change.rowTyped, ht] at hc
        cases ho : getObj c with
        | none => simp [ho] at hc
        | some row =>
          cases row <;> simp [ho] at hc
          simp only [h1, h2, if_true, if_false, ho]
          rw [ih _ hrest, List.filterMap_cons, expectedACLEvent_of_getObj tx c _ _ ht ho]
          simp
      · by_cases h3 : c.Table = "acl-roles"
        · have ht : aclTopicOfTable c.Table = some Topic.ACLRoles := by
            simp [aclTopicOfTable, h3]
          simp only [Change.rowTyped, ht] at hc
          cases ho : getObj c with
          | none => simp [ho] at hc
          | some row =>
            cases row <;> simp [ho] at hc
            simp only [h1, h2, h3, if_true, if_false, ho]
            rw [ih _ hrest, List.filterMap_cons, expectedACLEvent_of_getObj tx c _ _ ht ho]
            simp
        · have ht : aclTopicOfTable c.Table = none := by
            simp [aclTopicOfTable, h1, h2, h3]
          simp only [h1, h2, h3, if_false]
          rw [ih _ hrest, List.filterMap_cons, expectedACLEvent_other tx c ht]

/-- C14: for every transaction and every list of changes whose ACL rows have the type of
their table, `aclEventsFromChanges` returns no error and the events written
from the claim: one event per change to `acl-tokens`, `acl-policies` or
`acl-roles`, in the order of the changes, none for a change to another table;
each with the topic of its table, the index of the transaction and as payload
the row after the change, or the row before it for a deletion. -/
theorem C14_acl_events_from_changes (tx : txn) (changes : List Change)
    (htyped : ∀ c ∈ changes, c.rowTyped = true) :
    aclEventsFromChanges tx changes [] =
      Outcome.ok (changes.filterMap (expectedACLEvent tx)) ∧
    (∀ c ∈ changes, (expectedACLEvent tx c = none ↔ aclTopicOfTable c.Table = none)) ∧
    (∀ c ∈ changes, ∀ ev, expectedACLEvent tx c = some ev →
      aclTopicOfTable c.Table = some ev.Topic ∧ ev.Index = tx.Index ∧
        some ev.Payload = (if c.Deleted then c.Before else c.After)) := by
  refine ⟨by simpa using aclEventsFromChanges_acc tx changes [] htyped, ?_, ?_⟩
  · intro c hc
    have hty := htyped c hc
    cases ht : aclTopicOfTable c.Table with
    | none => simp [expectedACLEvent_other tx c ht]
    | some topic =>
      simp only [Change.rowTyped, ht] at hty
      cases ho : getObj c with
      | none => cases topic <;> simp [ho] at hty
      | some row => simp [expectedACLEvent_of_getObj tx c topic row ht ho]
  · intro c _ ev hev
    unfold expectedACLEvent at hev
    split at hev
    · rename_i topic row ht hrow
      cases hev
      exact ⟨ht, rfl, hrow.symm⟩
    · cases hev

/-- Witness of C14: a created token, a change to another table and a deleted role give the
token event and the role event, in this order. -/
theorem C14_acl_events_witness :
    (∀ c ∈ testChanges, c.rowTyped = true) ∧
    aclEventsFromChanges testTx testChanges [] =
      Outcome.ok
        [⟨Topic.ACLTokens, "", 4, Payload.token ⟨"a", "s", [], []⟩⟩,
         ⟨Topic.ACLRoles, "", 4, Payload.role ⟨"r", []⟩⟩] :=
  ⟨by decide, (C14_acl_events_from_changes testTx testChanges (by decide)).1⟩

/-! ## `sendEvents` -/

theorem sameBuffers_refl (h : Heap) : Heap.sameBuffers h h := ⟨rfl, rfl, rfl, rfl, rfl⟩

theorem sameBuffers_trans {h g k : Heap} (h1 : Heap.sameBuffers h g) (h2 : Heap.sameBuffers g k) :
    Heap.sameBuffers h k :=
  ⟨h2.1.trans h1.1, h2.2.1.trans h1.2.1, h2.2.2.1.trans h1.2.2.1, h2.2.2.2.1.trans h1.2.2.2.1,
    h2.2.2.2.2.trans h1.2.2.2.2⟩

theorem CloseReload_sameBuffers (h : Heap) (sub : Nat) : Heap.sameBuffers h (CloseReload h sub) := by
  refine ⟨rfl, rfl, rfl, rfl, ?_⟩
  unfold CloseReload
  cases hs : h.subs[sub]? with
  | none => rfl
  | some s0 =>
    by_cases hst : s0.state = SubscriptionState.opened
    · simp only [hst, if_true, List.map_set]
      have hlt : sub < h.subs.length := by
        by_contra hge
        rw [List.getElem?_eq_none (by omega)] at hs
        cases hs
      apply List.ext_getElem?
      intro i
      by_cases hi : sub = i
      · subst hi
        have hget : h.subs[sub] = s0 := by
          have h2 := List.getElem?_eq_getElem hlt
          rw [hs] at h2
          exact (Option.some.inj h2).symm
        simp [List.getElem?_set, hs, hlt, hget]
      · simp [List.getElem?_set, hi]
    · simp only [hst, if_false]

theorem foldl_CloseReload_sameBuffers (subs : List Nat) (h : Heap) :
    Heap.sameBuffers h (subs.foldl CloseReload h) := by
  induction subs generalizing h with
  | nil => exact sameBuffers_refl h
  | cons s rest ih => exact sameBuffers_trans (CloseReload_sameBuffers h s) (ih _)

theorem closeSubscriptionsForTokens_sameBuffers (e : EventPublisher) (tokens : List ACLToken)
    (h : Heap) : Heap.sameBuffers h (closeSubscriptionsForTokens e h tokens) := by
  induction tokens generalizing h with
  | nil => exact sameBuffers_refl h
  | cons t rest ih =>
    simp only [closeSubscriptionsForTokens, List.foldl_cons]
    cases hg : GoMap.get e.subsByToken t.SecretID with
    | none => exact ih h
    | some subs =>
      exact sameBuffers_trans (foldl_CloseReload_sameBuffers _ h) (ih _)

theorem closeSubscriptionsForRoles_sameBuffers (e : EventPublisher) (tx : txn)
    (roles : List ACLRole) (h : Heap) :
    Heap.sameBuffers h (closeSubscriptionsForRoles e tx h roles).2 := by
  induction roles generalizing h with
  | nil => exact sameBuffers_refl h
  | cons r rest ih =>
    unfold closeSubscriptionsForRoles
    cases hq : aclTokenListByRole tx r.ID with
    | error err => exact sameBuffers_refl h
    | ok tokens =>
      exact sameBuffers_trans (closeSubscriptionsForTokens_sameBuffers e tokens h) (ih _)

theorem closeSubscriptionsForRoles_status (e : EventPublisher) (tx : txn)
    (roles : List ACLRole) (h g : Heap) :
    (closeSubscriptionsForRoles e tx h roles).1 = (closeSubscriptionsForRoles e tx g roles).1 := by
  induction roles generalizing h g with
  | nil => rfl
  | cons r rest ih =>
    unfold closeSubscriptionsForRoles
    cases hq : aclTokenListByRole tx r.ID with
    | error err => rfl
    | ok tokens => exact ih _ _

theorem handleACLUpdate_sameBuffers (e : EventPublisher) (h : Heap) (tx : txn) (event : Event) :
    Heap.sameBuffers h (handleACLUpdate e h tx event).2 := by
  unfold handleACLUpdate
  split
  · split
    · exact foldl_CloseReload_sameBuffers _ h
    · exact sameBuffers_refl h
  · split
    · split
      · exact sameBuffers_refl h
      · split
        · exact closeSubscriptionsForTokens_sameBuffers e _ h
        · exact sameBuffers_trans (closeSubscriptionsForTokens_sameBuffers e _ h)
            (closeSubscriptionsForRoles_sameBuffers e tx _ _)
    · exact sameBuffers_refl h
  · split
    · split
      · exact sameBuffers_refl h
      · exact closeSubscriptionsForTokens_sameBuffers e _ h
    · exact sameBuffers_refl h
  · exact sameBuffers_refl h

theorem handleACLUpdate_status (e : EventPublisher) (h g : Heap) (tx : txn) (event : Event) :
    (handleACLUpdate e h tx event).1 = (handleACLUpdate e g tx event).1 := by
  unfold handleACLUpdate
  split
  · split <;> rfl
  · split
    · split
      · rfl
      · split
        · rfl
        · exact closeSubscriptionsForRoles_status e tx _ _ _
    · rfl
  · split
    · split <;> rfl
    · rfl
  · rfl

theorem splitEvents_ok (e : EventPublisher) (tx : txn) (h0 : Heap) (events : List Event)
    (h : Heap) (eventsByTopic : GoMap Topic (List Event))
    (hacl : ∀ ev ∈ events, isACLTopic ev.Topic = true →
      (handleACLUpdate e h0 tx ev).1 = Outcome.ok ()) :
    (splitEvents e tx events h eventsByTopic).1 = Outcome.ok (groupEvents events eventsByTopic) ∧
      Heap.sameBuffers h (splitEvents e tx events h eventsByTopic).2 := by
  induction events generalizing h eventsByTopic with
  | nil => exact ⟨rfl, sameBuffers_refl h⟩
  | cons ev rest ih =>
    have hrest : ∀ ev2 ∈ rest, isACLTopic ev2.Topic = true →
        (handleACLUpdate e h0 tx ev2).1 = Outcome.ok () :=
      fun ev2 h2 => hacl ev2 (List.mem_cons_of_mem _ h2)
    by_cases hev : isACLTopic ev.Topic = true
    · have hok : (handleACLUpdate e h tx ev).1 = Outcome.ok () := by
        rw [handleACLUpdate_status e h h0]
        exact hacl ev (List.mem_cons_self _ _) hev
      have hsame := handleACLUpdate_sameBuffers e h tx ev
      rcases hres : handleACLUpdate e h tx ev with ⟨o, h1⟩
      rw [hres] at hok hsame
      simp only at hok hsame
      subst hok
      simp only [splitEvents, groupEvents, hev, if_true, hres]
      obtain ⟨i1, i2⟩ := ih h1 eventsByTopic hrest
      exact ⟨i1, sameBuffers_trans hsame i2⟩
    · simp only [splitEvents, groupEvents, hev, if_false, Bool.false_eq_true]
      exact ih h _ hrest

theorem GoMap.keys_del_subset {K V : Type} [DecidableEq K] (m : GoMap K V) (k : K) :
    ((GoMap.del m k).map Prod.fst).Sublist (m.map Prod.fst) :=
  List.Sublist.map _ (List.filter_sublist _)

theorem GoMap.not_mem_keys_del {K V : Type} [DecidableEq K] (m : GoMap K V) (k : K) :
    k ∉ (GoMap.del m k).map Prod.fst := by
  simp [GoMap.del]

theorem GoMap.nodup_keys_set {K V : Type} [DecidableEq K] (m : GoMap K V) (k : K) (v : V)
    (hm : (m.map Prod.fst).Nodup) : ((GoMap.set m k v).map Prod.fst).Nodup := by
  simp only [GoMap.set, List.map_cons, List.nodup_cons]
  exact ⟨GoMap.not_mem_keys_del m k, List.Nodup.sublist (GoMap.keys_del_subset m k) hm⟩

theorem GoMap.mem_iff_get {K V : Type} [DecidableEq K] (m : GoMap K V) (k : K) (v : V)
    (hm : (m.map Prod.fst).Nodup) : (k, v) ∈ m ↔ GoMap.get m k = some v := by
  induction m with
  | nil => simp [GoMap.get]
  | cons p rest ih =>
    obtain ⟨k1, v1⟩ := p
    simp only [List.map_cons, List.nodup_cons] at hm
    by_cases hk : k1 = k
    · subst hk
      simp only [GoMap.get, if_true, List.mem_cons, Prod.mk.injEq, true_and, Option.some.injEq]
      constructor
      · rintro (hv | hmem)
        · exact hv.symm
        · exact absurd (List.mem_map_of_mem Prod.fst hmem) hm.1
      · intro hv
        exact Or.inl hv.symm
    · simp only [GoMap.get, hk, if_false, List.mem_cons, Prod.mk.injEq]
      rw [← ih hm.2]
      constructor
      · rintro (⟨hk2, _⟩ | hmem)
        · exact absurd hk2.symm hk
        · exact hmem
      · exact fun hmem => Or.inr hmem

theorem groupEvents_nodup (events : List Event) (m : GoMap Topic (List Event))
    (hm : (m.map Prod.fst).Nodup) : ((groupEvents events m).map Prod.fst).Nodup := by
  induction events generalizing m with
  | nil => exact hm
  | cons ev rest ih =>
    by_cases hev : isACLTopic ev.Topic = true
    · simp only [groupEvents, hev, if_true]
      exact ih m hm
    · simp only [groupEvents, hev, if_false, Bool.false_eq_true]
      exact ih _ (GoMap.nodup_keys_set _ _ _ hm)

theorem groupEvents_get (events : List Event) (m : GoMap Topic (List Event)) (topic : Topic) :
    GoMap.get (groupEvents events m) topic =
      if batchOf events topic = [] then GoMap.get m topic
      else some ((GoMap.get m topic).getD [] ++ batchOf events topic) := by
  induction events generalizing m with
  | nil => simp [groupEvents, batchOf]
  | cons ev rest ih =>
    by_cases hev : isACLTopic ev.Topic = true
    · have hb : batchOf (ev :: rest) topic = batchOf rest topic := by
        simp [batchOf, List.filter_cons, hev]
      simp only [groupEvents, hev, if_true, hb]
      exact ih m
    · simp only [Bool.not_eq_true] at hev
      simp only [groupEvents, hev, if_false, Bool.false_eq_true]
      rw [ih]
      by_cases ht : ev.Topic = topic
      · subst ht
        have hb : batchOf (ev :: rest) ev.Topic = ev :: batchOf rest ev.Topic := by
          simp [batchOf, List.filter_cons, hev]
        rw [hb, GoMap.get_set_self]
        by_cases hr : batchOf rest ev.Topic = []
        · simp [hr]
        · simp [hr]
      · have hb : batchOf (ev :: rest) topic = batchOf rest topic := by
          simp [batchOf, List.filter_cons, hev, ht]
        rw [hb, GoMap.get_set_ne _ _ (fun hc => ht hc.symm)]

theorem batchOf_eq (events : List Event) (topic : Topic) :
    batchOf events topic =
      if isACLTopic topic = true then []
      else events.filter (fun ev => decide (ev.Topic = topic)) := by
  by_cases ht : isACLTopic topic = true
  · simp only [ht, if_true, batchOf, List.filter_eq_nil_iff]
    intro ev _
    by_cases h2 : ev.Topic = topic
    · simp [h2, ht]
    · simp [h2]
  · simp only [ht, if_false, Bool.false_eq_true, batchOf]
    apply List.filter_congr
    intro ev _
    by_cases h2 : ev.Topic = topic
    · simp only [Bool.not_eq_true] at ht
      simp [h2, ht]
    · simp [h2]

theorem getTopicBuffer_effect (e : EventPublisher) (h : Heap) (topic : Topic) :
    { (getTopicBuffer e h topic).2.1 with topicBuffers := e.topicBuffers } = e ∧
    (∀ t, t ≠ topic →
      GoMap.get (getTopicBuffer e h topic).2.1.topicBuffers t = GoMap.get e.topicBuffers t) ∧
    (∃ sentinels : List BufferItem,
      (getTopicBuffer e h topic).2.2.items = h.items ++ sentinels ∧
      ∀ it ∈ sentinels, it.Events = []) ∧
    (getTopicBuffer e h topic).2.2.subs = h.subs ∧
    (getTopicBuffer e h topic).2.2.reloadCalls = h.reloadCalls := by
  unfold getTopicBuffer
  cases hg : GoMap.get e.topicBuffers topic with
  | some buf => exact ⟨rfl, fun _ _ => rfl, ⟨[], by simp, by simp⟩, rfl, rfl⟩
  | none =>
    refine ⟨rfl, fun t ht => GoMap.get_set_ne _ _ ht, ⟨[⟨[], h.links.length⟩], rfl, ?_⟩, rfl, rfl⟩
    intro it hit
    simp only [List.mem_singleton] at hit
    rw [hit]

theorem appendByTopic_effect (m : List (Topic × List Event)) (e : EventPublisher) (h : Heap) :
    { (appendByTopic m e h).1 with topicBuffers := e.topicBuffers } = e ∧
    (∀ t, t ∉ m.map Prod.fst →
      GoMap.get (appendByTopic m e h).1.topicBuffers t = GoMap.get e.topicBuffers t) ∧
    (∃ newItems : List BufferItem,
      (appendByTopic m e h).2.items = h.items ++ newItems ∧
      (newItems.map (fun it => it.Events)).filter (fun l => !l.isEmpty) =
        (m.map Prod.snd).filter (fun l => !l.isEmpty)) ∧
    (appendByTopic m e h).2.subs = h.subs ∧
    (appendByTopic m e h).2.reloadCalls = h.reloadCalls := by
  induction m generalizing e h with
  | nil => exact ⟨rfl, fun _ _ => rfl, ⟨[], by simp [appendByTopic], rfl⟩, rfl, rfl⟩
  | cons p rest ih =>
    obtain ⟨topic, events⟩ := p
    obtain ⟨g1, g2, ⟨sentinels, g3, g3e⟩, g4, g5⟩ := getTopicBuffer_effect e h topic
    obtain ⟨i1, i2, ⟨newItems, i3, i3e⟩, i4, i5⟩ := ih (getTopicBuffer e h topic).2.1
      (Append (getTopicBuffer e h topic).2.2 (getTopicBuffer e h topic).1 events)
    have hfields : ∀ a b : EventPublisher,
        { a with topicBuffers := b.topicBuffers } = b →
        ∀ c : EventPublisher, { c with topicBuffers := a.topicBuffers } = a →
        { c with topicBuffers := b.topicBuffers } = b := by
      intro a b hab c hca
      rw [← hab, ← hca]
    simp only [appendByTopic]
    refine ⟨hfields _ _ g1 _ i1, ?_, ?_, ?_, ?_⟩
    · intro t ht
      simp only [List.map_cons, List.mem_cons, not_or] at ht
      rw [i2 t ht.2, g2 t ht.1]
    · refine ⟨sentinels ++ [⟨events, (getTopicBuffer e h topic).2.2.links.length⟩] ++ newItems,
        ?_, ?_⟩
      · rw [i3]
        show ((getTopicBuffer e h topic).2.2.items ++ [_]) ++ newItems = _
        rw [g3]
        simp [List.append_assoc]
      · have hs : (sentinels.map (fun it => it.Events)).filter (fun l => !l.isEmpty) = [] := by
          rw [List.filter_eq_nil_iff]
          intro l hl
          simp only [List.mem_map] at hl
          obtain ⟨it, hit, rfl⟩ := hl
          simp [g3e it hit]
        simp only [List.map_append, List.filter_append, hs, List.nil_append, List.map_cons,
          List.map_nil, i3e]
        show _ = List.filter _ ([events] ++ List.map Prod.snd rest)
        rw [List.filter_append]
    · rw [i4]
      exact g4
    · rw [i5]
      exact g5

theorem mem_groupEvents (events : List Event) (topic : Topic) (batch : List Event) :
    (topic, batch) ∈ groupEvents events [] ↔
      (isACLTopic topic = false ∧ batch ≠ [] ∧
        batch = events.filter (fun ev => decide (ev.Topic = topic))) := by
  rw [GoMap.mem_iff_get _ _ _ (groupEvents_nodup events [] List.nodup_nil), groupEvents_get,
    batchOf_eq]
  by_cases ht : isACLTopic topic = true
  · simp [ht, GoMap.get]
  · simp only [Bool.not_eq_true] at ht
    simp only [ht, Bool.false_eq_true, if_false, GoMap.get, Option.getD_none, List.nil_append,
      true_and]
    by_cases hf : events.filter (fun ev => decide (ev.Topic = topic)) = []
    · simp only [hf, if_true]
      constructor
      · intro hc
        cases hc
      · rintro ⟨hne, hb⟩
        exact absurd hb hne
    · simp only [hf, if_false, Option.some.injEq]
      constructor
      · intro hb
        exact ⟨fun hc => hf (hb.trans hc), hb.symm⟩
      · rintro ⟨_, hb⟩
        exact hb.symm

theorem sendEvents_ok (e : EventPublisher) (h : Heap) (update : commitUpdate)
    (hacl : ∀ ev ∈ update.events, isACLTopic ev.Topic = true →
      (handleACLUpdate e h update.tx ev).1 = Outcome.ok ()) :
    sendEvents e h update =
      (Outcome.ok (),
        (appendByTopic (groupEvents update.events []) e
          (splitEvents e update.tx update.events h []).2).1,
        (appendByTopic (groupEvents update.events []) e
          (splitEvents e update.tx update.events h []).2).2) := by
  obtain ⟨h1, _⟩ := splitEvents_ok e update.tx h update.events h [] hacl
  unfold sendEvents
  rcases hres : splitEvents e update.tx update.events h [] with ⟨o, g⟩
  rw [hres] at h1
  simp only at h1
  subst h1
  rfl

theorem sendEvents_other_fields (e : EventPublisher) (h : Heap) (update : commitUpdate) :
    { (sendEvents e h update).2.1 with topicBuffers := e.topicBuffers } = e := by
  unfold sendEvents
  rcases hres : splitEvents e update.tx update.events h [] with ⟨o, g⟩
  cases o with
  | ok m => exact (appendByTopic_effect m e g).1
  | error err => rfl
  | panic => rfl

/-- C15: `sendEvents` never changes `subsByToken`: after every update, failing or not, the
publisher differs from the one before at most in `topicBuffers`, so every
subscription is stored under the same token and request as before. And
`handleACLUpdate`, which only reads the publisher, keeps every subscription
object of the heap with its request and position: a reload changes the state
of a subscription, not its registration. -/
theorem C15_acl_update_keeps_subsByToken (e : EventPublisher) (h : Heap)
    (update : commitUpdate) (tx : txn) (event : Event) :
    (sendEvents e h update).2.1.subsByToken = e.subsByToken ∧
    { (sendEvents e h update).2.1 with topicBuffers := e.topicBuffers } = e ∧
    (∀ t a, storedSub (sendEvents e h update).2.1 t a = storedSub e t a) ∧
    Heap.sameBuffers h (handleACLUpdate e h tx event).2 ∧
    (∀ sub, sub ∈ (handleACLUpdate e h tx event).2.reloadCalls →
      ∀ t, sub ∈ subsOf e t → sub ∈ subsOf (sendEvents e h update).2.1 t) := by
  have hf := sendEvents_other_fields e h update
  have hs : (sendEvents e h update).2.1.subsByToken = e.subsByToken := by
    have := congrArg EventPublisher.subsByToken hf
    exact this
  refine ⟨hs, hf, fun t a => storedSub_congr hs t a, handleACLUpdate_sameBuffers e h tx event, ?_⟩
  intro sub _ t hmem
  rw [subsOf_congr hs]
  exact hmem

/-! ## `sendEvents`: what the appends do to the topic buffers -/

theorem later_trans {h g k : Heap} (h1 : Heap.later h g) (h2 : Heap.later g k)
    (hlen : h.items.length ≤ g.items.length) : Heap.later h k :=
  ⟨fun a ha => (h2.1 a (by omega)).trans (h1.1 a ha),
    fun l n hn => h2.2 l n (h1.2 l n hn)⟩

theorem later_NewEventBuffer (h : Heap) : Heap.later h (NewEventBuffer h).2 := by
  refine ⟨?_, ?_⟩
  · intro a ha
    show (h.items ++ [_])[a]? = h.items[a]?
    exact List.getElem?_append_left ha
  · intro l n hn
    have hl : l < h.links.length := by
      by_contra hge
      rw [List.getElem?_eq_none (by omega)] at hn
      cases hn
    show (h.links ++ [Link.unset])[l]? = some (Link.next n)
    rw [List.getElem?_append_left hl]
    exact hn

theorem getD_set_self {α : Type} (l : List α) (i : Nat) (v d : α) (hi : i < l.length) :
    (l.set i v).getD i d = v := by
  rw [List.getD_eq_getElem?_getD, List.getElem?_set_self (by simpa using hi)]
  rfl

theorem getD_set_ne {α : Type} (l : List α) (i j : Nat) (v d : α) (hij : i ≠ j) :
    (l.set i v).getD j d = l.getD j d := by
  rw [List.getD_eq_getElem?_getD, List.getD_eq_getElem?_getD, List.getElem?_set_ne hij]

theorem Append_eq (h : Heap) (buf : Nat) (events : List Event)
    (hhd : Head h buf < h.items.length) :
    Append h buf events =
      { h with
        items := h.items ++ [⟨events, h.links.length⟩]
        links := (h.links ++ [Link.unset]).set (h.item (Head h buf)).link (Link.next h.items.length)
        buffers := h.buffers.set buf h.items.length } := by
  have hhd2 : h.buffers.getD buf 0 < h.items.length := hhd
  simp only [Append, AppendBuffer, NewBufferItem, Head, Heap.item,
    getD_append_of_lt _ _ _ _ hhd2]

theorem Append_topic_buffer (e : EventPublisher) (h : Heap) (topic : Topic) (buf : Nat)
    (events : List Event) (hwf : TopicBuffersWF e h)
    (hb : GoMap.get e.topicBuffers topic = some buf) :
    TopicBuffersWF e (Append h buf events) ∧
    Heap.later h (Append h buf events) ∧
    (Append h buf events).items.length = h.items.length + 1 ∧
    Head (Append h buf events) buf = h.items.length ∧
    ((Append h buf events).item h.items.length).Events = events ∧
    nextItem (Append h buf events) (Head h buf) = some h.items.length ∧
    (∀ t b2, t ≠ topic → GoMap.get e.topicBuffers t = some b2 →
      Head (Append h buf events) b2 = Head h b2) := by
  obtain ⟨hb1, hb2, hb3, hb4⟩ := hwf.1 topic buf hb
  have heq := Append_eq h buf events hb2
  have hitem : ∀ a, a < h.items.length → (Append h buf events).item a = h.item a := by
    intro a ha
    rw [heq]
    simp only [Heap.item, getD_append_of_lt _ _ _ _ ha]
  have hnew : (Append h buf events).item h.items.length = ⟨events, h.links.length⟩ := by
    rw [heq]
    simp only [Heap.item, getD_append_at_length]
  have hhead : Head (Append h buf events) buf = h.items.length := by
    rw [heq]
    simp only [Head]
    exact getD_set_self _ _ _ _ hb1
  have hheadne : ∀ b2, b2 ≠ buf → Head (Append h buf events) b2 = Head h b2 := by
    intro b2 hne
    rw [heq]
    simp only [Head]
    exact getD_set_ne _ _ _ _ _ (fun hc => hne hc.symm)
  have hlinkset : (Append h buf events).linkAt (h.item (Head h buf)).link
      = Link.next h.items.length := by
    rw [heq]
    simp only [Heap.linkAt]
    exact getD_set_self _ _ _ _ (by simp; omega)
  have hlinkne : ∀ l, l ≠ (h.item (Head h buf)).link → l < h.links.length →
      (Append h buf events).linkAt l = h.linkAt l := by
    intro l hne hl
    rw [heq]
    simp only [Heap.linkAt]
    rw [getD_set_ne _ _ _ _ _ (fun hc => hne hc.symm), getD_append_of_lt _ _ _ _ hl]
  have hlinknew : (Append h buf events).linkAt h.links.length = Link.unset := by
    rw [heq]
    simp only [Heap.linkAt]
    rw [getD_set_ne _ _ _ _ _ (by omega), getD_append_at_length]
  have hlen : (Append h buf events).items.length = h.items.length + 1 := by
    rw [heq]
    simp
  have hblen : (Append h buf events).buffers.length = h.buffers.length := by
    rw [heq]
    simp
  have hllen : (Append h buf events).links.length = h.links.length + 1 := by
    rw [heq]
    simp
  refine ⟨⟨?_, ?_⟩, later_Append h buf events hb4, hlen, hhead, ?_, ?_, ?_⟩
  · intro t b2 hg
    by_cases ht : t = topic
    · subst ht
      rw [hb] at hg
      cases hg
      rw [hhead, hnew, hblen, hlen, hllen]
      exact ⟨hb1, by omega, by simp, hlinknew⟩
    · obtain ⟨c1, c2, c3, c4⟩ := hwf.1 t b2 hg
      obtain ⟨d1, d2⟩ := hwf.2 t topic b2 buf ht hg hb
      rw [hheadne b2 d1, hitem _ c2, hblen, hlen, hllen, hlinkne _ d2 c3]
      exact ⟨c1, by omega, by omega, c4⟩
  · intro t1 t2 b1 b2 hne hg1 hg2
    obtain ⟨d1, d2⟩ := hwf.2 t1 t2 b1 b2 hne hg1 hg2
    refine ⟨d1, ?_⟩
    by_cases h1 : t1 = topic
    · subst h1
      rw [hb] at hg1
      cases hg1
      obtain ⟨_, c2, c3, _⟩ := hwf.1 t2 b2 hg2
      rw [hhead, hnew, hheadne b2 (fun hc => d1 hc.symm), hitem _ c2]
      show h.links.length ≠ _
      omega
    · by_cases h2 : t2 = topic
      · subst h2
        rw [hb] at hg2
        cases hg2
        obtain ⟨_, c2, c3, _⟩ := hwf.1 t1 b1 hg1
        rw [hhead, hnew, hheadne b1 d1, hitem _ c2]
        show _ ≠ h.links.length
        omega
      · obtain ⟨e1, _⟩ := hwf.2 t1 topic b1 buf h1 hg1 hb
        obtain ⟨e2, _⟩ := hwf.2 t2 topic b2 buf h2 hg2 hb
        obtain ⟨_, c2, _, _⟩ := hwf.1 t1 b1 hg1
        obtain ⟨_, c2b, _, _⟩ := hwf.1 t2 b2 hg2
        rw [hheadne b1 e1, hheadne b2 e2, hitem _ c2, hitem _ c2b]
        exact d2
  · rw [hnew]
  · simp only [nextItem, hitem _ hb2, hlinkset]
  · intro t b2 ht hg
    exact hheadne b2 (hwf.2 t topic b2 buf ht hg hb).1

theorem getTopicBuffer_WF (e : EventPublisher) (h : Heap) (topic : Topic)
    (hwf : TopicBuffersWF e h) :
    TopicBuffersWF (getTopicBuffer e h topic).2.1 (getTopicBuffer e h topic).2.2 ∧
    GoMap.get (getTopicBuffer e h topic).2.1.topicBuffers topic
      = some (getTopicBuffer e h topic).1 ∧
    Heap.later h (getTopicBuffer e h topic).2.2 ∧
    h.items.length ≤ (getTopicBuffer e h topic).2.2.items.length ∧
    (∀ t, t ≠ topic →
      GoMap.get (getTopicBuffer e h topic).2.1.topicBuffers t = GoMap.get e.topicBuffers t) ∧
    (∀ buf, GoMap.get e.topicBuffers topic = some buf →
      (getTopicBuffer e h topic).1 = buf) ∧
    (∀ t buf, GoMap.get e.topicBuffers t = some buf →
      Head (getTopicBuffer e h topic).2.2 buf = Head h buf) := by
  unfold getTopicBuffer
  cases hg : GoMap.get e.topicBuffers topic with
  | some buf =>
    exact ⟨hwf, hg, later_refl h, le_refl _, fun _ _ => rfl, fun b hb => (Option.some.inj hb),
      fun _ _ _ => rfl⟩
  | none =>
    have hitem : ∀ a, a < h.items.length → (NewEventBuffer h).2.item a = h.item a := by
      intro a ha
      simp only [NewEventBuffer, NewBufferItem, Heap.item, getD_append_of_lt _ _ _ _ ha]
    have hhead : ∀ b, b < h.buffers.length → Head (NewEventBuffer h).2 b = Head h b := by
      intro b hb
      simp only [NewEventBuffer, NewBufferItem, Head, getD_append_of_lt _ _ _ _ hb]
    have hlink : ∀ l, l < h.links.length → (NewEventBuffer h).2.linkAt l = h.linkAt l := by
      intro l hl
      simp only [NewEventBuffer, NewBufferItem, Heap.linkAt, getD_append_of_lt _ _ _ _ hl]
    have hnewhead : Head (NewEventBuffer h).2 h.buffers.length = h.items.length := by
      simp only [NewEventBuffer, NewBufferItem, Head, getD_append_at_length]
    have hnewitem : (NewEventBuffer h).2.item h.items.length = ⟨[], h.links.length⟩ := by
      simp only [NewEventBuffer, NewBufferItem, Heap.item, getD_append_at_length]
    have hnewlink : (NewEventBuffer h).2.linkAt h.links.length = Link.unset := by
      simp only [NewEventBuffer, NewBufferItem, Heap.linkAt, getD_append_at_length]
    have hil : (NewEventBuffer h).2.items.length = h.items.length + 1 := by
      simp [NewEventBuffer, NewBufferItem]
    have hbl : (NewEventBuffer h).2.buffers.length = h.buffers.length + 1 := by
      simp [NewEventBuffer, NewBufferItem]
    have hll : (NewEventBuffer h).2.links.length = h.links.length + 1 := by
      simp [NewEventBuffer, NewBufferItem]
    have hb1 : (NewEventBuffer h).1 = h.buffers.length := rfl
    have hold : ∀ t b, t ≠ topic →
        GoMap.get (GoMap.set e.topicBuffers topic h.buffers.length) t = some b →
        GoMap.get e.topicBuffers t = some b := by
      intro t b ht hgt
      rwa [GoMap.get_set_ne _ _ ht] at hgt
    refine ⟨⟨?_, ?_⟩, GoMap.get_set_self _ _ _, later_NewEventBuffer h, by rw [hil]; omega,
      fun t ht => GoMap.get_set_ne _ _ ht, ?_, ?_⟩
    · intro t b hgt
      simp only [hb1] at hgt ⊢
      by_cases ht : t = topic
      · subst ht
        rw [GoMap.get_set_self] at hgt
        cases hgt
        rw [hnewhead, hnewitem, hil, hbl, hll]
        exact ⟨by omega, by omega, by simp, hnewlink⟩
      · obtain ⟨c1, c2, c3, c4⟩ := hwf.1 t b (hold t b ht hgt)
        rw [hhead b c1, hitem _ c2, hlink _ c3, hil, hbl, hll]
        exact ⟨by omega, by omega, by omega, c4⟩
    · intro t1 t2 b1 b2 hne hg1 hg2
      simp only [hb1] at hg1 hg2 ⊢
      by_cases h1 : t1 = topic
      · subst h1
        rw [GoMap.get_set_self] at hg1
        cases hg1
        have h2 : t2 ≠ t1 := fun hc => hne hc.symm
        obtain ⟨c1, c2, c3, _⟩ := hwf.1 t2 b2 (hold t2 b2 h2 hg2)
        rw [hnewhead, hnewitem, hhead b2 c1, hitem _ c2]
        refine ⟨by omega, ?_⟩
        show h.links.length ≠ _
        omega
      · by_cases h2 : t2 = topic
        · subst h2
          rw [GoMap.get_set_self] at hg2
          cases hg2
          obtain ⟨c1, c2, c3, _⟩ := hwf.1 t1 b1 (hold t1 b1 h1 hg1)
          rw [hnewhead, hnewitem, hhead b1 c1, hitem _ c2]
          refine ⟨by omega, ?_⟩
          show _ ≠ h.links.length
          omega
        · have g1 := hold t1 b1 h1 hg1
          have g2 := hold t2 b2 h2 hg2
          obtain ⟨c1, c2, _, _⟩ := hwf.1 t1 b1 g1
          obtain ⟨c1b, c2b, _, _⟩ := hwf.1 t2 b2 g2
          rw [hhead b1 c1, hhead b2 c1b, hitem _ c2, hitem _ c2b]
          exact hwf.2 t1 t2 b1 b2 hne g1 g2
    · intro buf hbuf
      cases hbuf
    · intro t buf hgt
      exact hhead buf (hwf.1 t buf hgt).1

theorem nextItem_of_later {h g : Heap} (hl : Heap.later h g) {a n : Nat}
    (ha : a < h.items.length) (hn : nextItem h a = some n) : nextItem g a = some n := by
  have hlink : h.links[(h.item a).link]? = some (Link.next n) := by
    unfold nextItem at hn
    cases hla : h.linkAt (h.item a).link with
    | unset => simp [hla] at hn
    | truncated => simp [hla] at hn
    | next k =>
      simp only [hla, Option.some.injEq] at hn
      subst hn
      simp only [Heap.linkAt, List.getD_eq_getElem?_getD] at hla
      cases hget : h.links[(h.item a).link]? with
      | none => simp [hget] at hla
      | some v =>
        simp only [hget, Option.getD_some] at hla
        rw [hla]
  simp only [nextItem, item_of_later hl ha, linkAt_of_later hl hlink]

theorem appendByTopic_WF (m : List (Topic × List Event)) (e : EventPublisher) (h : Heap)
    (hwf : TopicBuffersWF e h) (hnd : (m.map Prod.fst).Nodup) :
    TopicBuffersWF (appendByTopic m e h).1 (appendByTopic m e h).2 ∧
    Heap.later h (appendByTopic m e h).2 ∧
    h.items.length ≤ (appendByTopic m e h).2.items.length ∧
    (∀ topic, topic ∉ m.map Prod.fst → ∀ buf, GoMap.get e.topicBuffers topic = some buf →
      Head (appendByTopic m e h).2 buf = Head h buf) ∧
    (∀ topic batch, (topic, batch) ∈ m →
      ∃ buf, GoMap.get (appendByTopic m e h).1.topicBuffers topic = some buf ∧
        h.items.length ≤ Head (appendByTopic m e h).2 buf ∧
        ((appendByTopic m e h).2.item (Head (appendByTopic m e h).2 buf)).Events = batch ∧
        ∀ buf0, GoMap.get e.topicBuffers topic = some buf0 →
          buf0 = buf ∧
          nextItem (appendByTopic m e h).2 (Head h buf0)
            = some (Head (appendByTopic m e h).2 buf)) := by
  induction m generalizing e h with
  | nil =>
    refine ⟨hwf, later_refl h, le_refl _, fun _ _ _ _ => rfl, ?_⟩
    intro topic batch hmem
    cases hmem
  | cons p rest ih =>
    obtain ⟨topic, events⟩ := p
    simp only [List.map_cons, List.nodup_cons] at hnd
    obtain ⟨hnotin, hndrest⟩ := hnd
    obtain ⟨g1, g2, g3, g4, g5, g6, g7⟩ := getTopicBuffer_WF e h topic hwf
    obtain ⟨a1, a2, a3, a4, a5, a6, a7⟩ :=
      Append_topic_buffer (getTopicBuffer e h topic).2.1 (getTopicBuffer e h topic).2.2 topic
        (getTopicBuffer e h topic).1 events g1 g2
    obtain ⟨i1, i2, i3, i4, i5⟩ := ih (getTopicBuffer e h topic).2.1
      (Append (getTopicBuffer e h topic).2.2 (getTopicBuffer e h topic).1 events) a1 hndrest
    obtain ⟨_, f2, _, _, _⟩ := appendByTopic_effect rest (getTopicBuffer e h topic).2.1
      (Append (getTopicBuffer e h topic).2.2 (getTopicBuffer e h topic).1 events)
    simp only [appendByTopic]
    have hlater12 : Heap.later h
        (Append (getTopicBuffer e h topic).2.2 (getTopicBuffer e h topic).1 events) :=
      later_trans g3 a2 g4
    refine ⟨i1, later_trans hlater12 i2 (by omega), by omega, ?_, ?_⟩
    · intro t ht buf hbuf
      simp only [List.map_cons, List.mem_cons, not_or] at ht
      have hb1 : GoMap.get (getTopicBuffer e h topic).2.1.topicBuffers t = some buf := by
        rw [g5 t ht.1]
        exact hbuf
      rw [i4 t ht.2 buf hb1, a7 t buf ht.1 hb1, g7 t buf hbuf]
    · intro t batch hmem
      simp only [List.mem_cons, Prod.mk.injEq] at hmem
      rcases hmem with ⟨ht, hbatch⟩ | hmem
      · subst ht
        subst hbatch
        have hhead := i4 t hnotin _ g2
        refine ⟨(getTopicBuffer e h t).1, ?_, ?_, ?_, ?_⟩
        · rw [f2 t hnotin]
          exact g2
        · rw [hhead, a4]
          exact g4
        · rw [hhead, a4, item_of_later i2 (by omega)]
          exact a5
        · intro buf0 hbuf0
          have hb := g6 buf0 hbuf0
          refine ⟨hb.symm, ?_⟩
          rw [hhead, a4]
          have hh : Head h buf0 = Head (getTopicBuffer e h t).2.2 (getTopicBuffer e h t).1 := by
            rw [hb]
            exact (g7 t buf0 hbuf0).symm
          rw [hh]
          have hlt := (g1.1 t _ g2).2.1
          exact nextItem_of_later i2 (by omega) a6
      · have hne : t ≠ topic := by
          intro hc
          subst hc
          exact hnotin (List.mem_map_of_mem Prod.fst hmem)
        obtain ⟨buf, j1, j2, j3, j4⟩ := i5 t batch hmem
        refine ⟨buf, j1, by omega, j3, ?_⟩
        intro buf0 hbuf0
        have hb1 : GoMap.get (getTopicBuffer e h topic).2.1.topicBuffers t = some buf0 := by
          rw [g5 t hne]
          exact hbuf0
        obtain ⟨k1, k2⟩ := j4 buf0 hb1
        refine ⟨k1, ?_⟩
        rw [a7 t buf0 hne hb1, g7 t buf0 hbuf0] at k2
        exact k2

theorem TopicBuffersWF_of_sameBuffers {e : EventPublisher} {h g : Heap}
    (hs : Heap.sameBuffers h g) (hwf : TopicBuffersWF e h) : TopicBuffersWF e g := by
  obtain ⟨s1, s2, s3, _, _⟩ := hs
  unfold TopicBuffersWF at hwf ⊢
  simp only [Head, Heap.item, Heap.linkAt, s1, s2, s3] at hwf ⊢
  exact hwf

theorem TopicBuffersWF_new (reg : GoMap Topic topicHandlers) (store : Store)
    (topicBufferSize snapCacheTTL : Int) (h : Heap) :
    TopicBuffersWF (NewEventPublisher reg store topicBufferSize snapCacheTTL) h := by
  refine ⟨?_, ?_⟩
  · intro topic buf hg
    simp [NewEventPublisher, GoMap.get] at hg
  · intro t1 t2 b1 b2 _ hg
    simp [NewEventPublisher, GoMap.get] at hg

theorem TopicBuffersWF_single (e : EventPublisher) (h : Heap) (t : Topic) (b : Nat)
    (htb : e.topicBuffers = [(t, b)])
    (hv : b < h.buffers.length ∧ Head h b < h.items.length ∧
      (h.item (Head h b)).link < h.links.length ∧
      h.linkAt (h.item (Head h b)).link = Link.unset) :
    TopicBuffersWF e h := by
  have hget : ∀ topic buf, GoMap.get e.topicBuffers topic = some buf → topic = t ∧ buf = b := by
    intro topic buf hg
    rw [htb] at hg
    by_cases ht : t = topic
    · simp [GoMap.get, ht] at hg
      exact ⟨ht.symm, hg.symm⟩
    · simp [GoMap.get, ht] at hg
  refine ⟨?_, ?_⟩
  · intro topic buf hg
    obtain ⟨_, hb⟩ := hget topic buf hg
    subst hb
    exact hv
  · intro t1 t2 b1 b2 hne hg1 hg2
    exact absurd ((hget t1 b1 hg1).1.trans (hget t2 b2 hg2).1.symm) hne

/-- C13: for every update in which every ACL update is handled without error, on a publisher
whose topic buffers are well formed, `sendEvents` returns normally and its second
loop runs over a map `eventsByTopic` with one entry per topic: exactly the topics
that are not ACL topics and occur in the update, each with the events of that
topic in their order in the update. After the call every such topic has a
buffer in `topicBuffers`; the head of that buffer is a batch made by the call,
holding exactly that batch and having no successor, and when the topic had a
buffer before it is the same buffer and its old head is linked to the new head
(one batch was appended, no more). A topic that is an ACL topic or does not
occur has no entry, its `topicBuffers` entry is as before (no buffer is made)
and its buffer keeps its head, which still has no successor. The topic buffers
stay well formed, and no batch added to the heap holds an event of an ACL
topic. -/
theorem C13_send_events_by_topic (e : EventPublisher) (h : Heap) (update : commitUpdate)
    (hwf : TopicBuffersWF e h)
    (hacl : ∀ ev ∈ update.events, isACLTopic ev.Topic = true →
      (handleACLUpdate e h update.tx ev).1 = Outcome.ok ()) :
    ∃ (eventsByTopic : GoMap Topic (List Event)) (h1 : Heap),
      sendEvents e h update =
        (Outcome.ok (), (appendByTopic eventsByTopic e h1).1,
          (appendByTopic eventsByTopic e h1).2) ∧
      Heap.sameBuffers h h1 ∧
      (eventsByTopic.map Prod.fst).Nodup ∧
      (∀ topic batch, (topic, batch) ∈ eventsByTopic ↔
        (isACLTopic topic = false ∧ batch ≠ [] ∧
          batch = update.events.filter (fun ev => decide (ev.Topic = topic)))) ∧
      (∀ topic batch, (topic, batch) ∈ eventsByTopic →
        ∃ buf, GoMap.get (sendEvents e h update).2.1.topicBuffers topic = some buf ∧
          h.items.length ≤ Head (sendEvents e h update).2.2 buf ∧
          ((sendEvents e h update).2.2.item (Head (sendEvents e h update).2.2 buf)).Events
            = batch ∧
          nextItem (sendEvents e h update).2.2 (Head (sendEvents e h update).2.2 buf) = none ∧
          ∀ buf0, GoMap.get e.topicBuffers topic = some buf0 →
            buf0 = buf ∧
            nextItem (sendEvents e h update).2.2 (Head h buf0)
              = some (Head (sendEvents e h update).2.2 buf)) ∧
      (∀ topic, (isACLTopic topic = true ∨ ∀ ev ∈ update.events, ev.Topic ≠ topic) →
        topic ∉ eventsByTopic.map Prod.fst ∧
        GoMap.get (sendEvents e h update).2.1.topicBuffers topic =
          GoMap.get e.topicBuffers topic ∧
        ∀ buf, GoMap.get e.topicBuffers topic = some buf →
          Head (sendEvents e h update).2.2 buf = Head h buf ∧
          (sendEvents e h update).2.2.item (Head h buf) = h.item (Head h buf) ∧
          nextItem (sendEvents e h update).2.2 (Head h buf) = none) ∧
      TopicBuffersWF (sendEvents e h update).2.1 (sendEvents e h update).2.2 ∧
      ∃ newItems : List BufferItem,
        (sendEvents e h update).2.2.items = h.items ++ newItems ∧
        (newItems.map (fun it => it.Events)).filter (fun l => !l.isEmpty) =
          eventsByTopic.map Prod.snd ∧
        ∀ it ∈ newItems, ∀ ev ∈ it.Events, isACLTopic ev.Topic = false := by
  have hsend := sendEvents_ok e h update hacl
  obtain ⟨_, hsame⟩ := splitEvents_ok e update.tx h update.events h [] hacl
  obtain ⟨_, hbuf, ⟨newItems, hitems, hfilter⟩, _, _⟩ :=
    appendByTopic_effect (groupEvents update.events []) e
      (splitEvents e update.tx update.events h []).2
  have hnd := groupEvents_nodup update.events [] List.nodup_nil
  have hwf1 : TopicBuffersWF e (splitEvents e update.tx update.events h []).2 :=
    TopicBuffersWF_of_sameBuffers hsame hwf
  obtain ⟨w1, w2, w3, w4, w5⟩ := appendByTopic_WF (groupEvents update.events []) e
    (splitEvents e update.tx update.events h []).2 hwf1 hnd
  have hHead : ∀ b, Head (splitEvents e update.tx update.events h []).2 b = Head h b := by
    intro b
    simp only [Head, hsame.2.2.1]
  have hItem : ∀ a, (splitEvents e update.tx update.events h []).2.item a = h.item a := by
    intro a
    simp only [Heap.item, hsame.1]
  have hunset : ∀ topic buf,
      GoMap.get (sendEvents e h update).2.1.topicBuffers topic = some buf →
      nextItem (sendEvents e h update).2.2 (Head (sendEvents e h update).2.2 buf) = none := by
    intro topic buf hg
    rw [hsend] at hg ⊢
    simp only at hg ⊢
    simp only [nextItem, (w1.1 topic buf hg).2.2.2]
  have hmem := mem_groupEvents update.events
  have hnokey : ∀ topic, (isACLTopic topic = true ∨ ∀ ev ∈ update.events, ev.Topic ≠ topic) →
      topic ∉ (groupEvents update.events []).map Prod.fst := by
    intro topic hcond hin
    simp only [List.mem_map] at hin
    obtain ⟨⟨t, batch⟩, hp, rfl⟩ := hin
    obtain ⟨hna, hne, hb⟩ := (hmem t batch).mp hp
    rcases hcond with hc | hc
    · simp only at hc
      rw [hna] at hc
      cases hc
    · apply hne
      rw [hb, List.filter_eq_nil_iff]
      intro ev hev
      simpa using hc ev hev
  have hnonempty : ((groupEvents update.events []).map Prod.snd).filter (fun l => !l.isEmpty) =
      (groupEvents update.events []).map Prod.snd := by
    rw [List.filter_eq_self]
    intro l hl
    simp only [List.mem_map] at hl
    obtain ⟨⟨t, batch⟩, hp, rfl⟩ := hl
    obtain ⟨_, hne, _⟩ := (hmem t batch).mp hp
    cases batch with
    | nil => exact absurd rfl hne
    | cons a b => rfl
  refine ⟨groupEvents update.events [], (splitEvents e update.tx update.events h []).2, hsend,
    hsame, hnd, hmem, ?_, ?_, ?_, newItems, ?_, ?_, ?_⟩
  · intro topic batch hp
    obtain ⟨buf, j1, j2, j3, j4⟩ := w5 topic batch hp
    have hg : GoMap.get (sendEvents e h update).2.1.topicBuffers topic = some buf := by
      rw [hsend]
      exact j1
    refine ⟨buf, hg, ?_, ?_, hunset topic buf hg, ?_⟩
    · rw [hsend]
      simp only
      rw [← hsame.1]
      exact j2
    · rw [hsend]
      exact j3
    · intro buf0 hbuf0
      obtain ⟨k1, k2⟩ := j4 buf0 hbuf0
      rw [hHead] at k2
      rw [hsend]
      exact ⟨k1, k2⟩
  · intro topic hcond
    have hno := hnokey topic hcond
    have hsameTb : GoMap.get (sendEvents e h update).2.1.topicBuffers topic =
        GoMap.get e.topicBuffers topic := by
      rw [hsend]
      exact hbuf topic hno
    refine ⟨hno, hsameTb, ?_⟩
    intro buf hg
    have hhead : Head (sendEvents e h update).2.2 buf = Head h buf := by
      rw [hsend]
      simp only
      rw [w4 topic hno buf hg, hHead]
    have hlt : Head h buf < h.items.length := (hwf.1 topic buf hg).2.1
    refine ⟨hhead, ?_, ?_⟩
    · rw [hsend]
      simp only
      rw [item_of_later w2 (by rw [hsame.1]; exact hlt), hItem]
    · have := hunset topic buf (by rw [hsameTb]; exact hg)
      rw [hhead] at this
      exact this
  · rw [hsend]
    exact w1
  · rw [hsend]
    simp only
    rw [hitems, hsame.1]
  · rw [hfilter, hnonempty]
  · intro it hit ev hev
    have hne : (!it.Events.isEmpty) = true := by
      cases hE : it.Events with
      | nil => rw [hE] at hev; cases hev
      | cons a b => rfl
    have hin : it.Events ∈ (newItems.map (fun it => it.Events)).filter (fun l => !l.isEmpty) :=
      List.mem_filter.mpr ⟨List.mem_map_of_mem _ hit, hne⟩
    rw [hfilter, hnonempty] at hin
    simp only [List.mem_map] at hin
    obtain ⟨⟨t, batch⟩, hp, hbe⟩ := hin
    simp only at hbe
    obtain ⟨hna, _, hb⟩ := (hmem t batch).mp hp
    rw [← hbe, hb] at hev
    have ht := (List.mem_filter.mp hev).2
    simp only [decide_eq_true_eq] at ht
    rw [ht]
    exact hna

/-- Witness of C13: the publisher of the tests has one well-formed topic buffer; in the
update of the scenario the ACL token event is handled without error, and the two
service health events end up, in their order, in the new head of the service
health buffer, linked after its old head. -/
theorem C13_send_events_witness :
    TopicBuffersWF testRun.pub testRun.heap ∧
    (∀ ev ∈ testUpdate.events, isACLTopic ev.Topic = true →
      (handleACLUpdate testRun.pub testRun.heap testUpdate.tx ev).1 = Outcome.ok ()) ∧
    (sendEvents testRun.pub testRun.heap testUpdate).1 = Outcome.ok () ∧
    GoMap.get (sendEvents testRun.pub testRun.heap testUpdate).2.1.topicBuffers
      Topic.ServiceHealth = some 0 ∧
    ((sendEvents testRun.pub testRun.heap testUpdate).2.2.item
        (Head (sendEvents testRun.pub testRun.heap testUpdate).2.2 0)).Events =
      [⟨Topic.ServiceHealth, "web", 4, Payload.other 1⟩,
       ⟨Topic.ServiceHealth, "db", 4, Payload.other 2⟩] ∧
    nextItem (sendEvents testRun.pub testRun.heap testUpdate).2.2 (Head testRun.heap 0) =
      some (Head (sendEvents testRun.pub testRun.heap testUpdate).2.2 0) := by
  have hwf : TopicBuffersWF testRun.pub testRun.heap :=
    TopicBuffersWF_single testRun.pub testRun.heap Topic.ServiceHealth 0 rfl (by decide)
  refine ⟨hwf, by decide, ?_, by decide, by decide, by decide⟩
  obtain ⟨m, h1, hsend, _⟩ :=
    C13_send_events_by_topic testRun.pub testRun.heap testUpdate hwf (by decide)
  rw [hsend]

/-! ## Runs under the registry of the program -/

theorem HeadsEmpty_NewEventBuffer (e : EventPublisher) (h : Heap) (he : HeadsEmpty e h) :
    HeadsEmpty e (NewEventBuffer h).2 := by
  intro topic buf hg
  obtain ⟨c1, c2, c3⟩ := he topic buf hg
  have hhead : Head (NewEventBuffer h).2 buf = Head h buf := by
    simp only [NewEventBuffer, NewBufferItem, Head, getD_append_of_lt _ _ _ _ c1]
  have hitem : (NewEventBuffer h).2.item (Head h buf) = h.item (Head h buf) := by
    simp only [NewEventBuffer, NewBufferItem, Heap.item, getD_append_of_lt _ _ _ _ c2]
  rw [hhead, hitem]
  refine ⟨?_, ?_, c3⟩
  · simp [NewEventBuffer, NewBufferItem]
    omega
  · simp [NewEventBuffer, NewBufferItem]
    omega

theorem HeadsEmpty_getTopicBuffer (e : EventPublisher) (h : Heap) (topic : Topic)
    (he : HeadsEmpty e h) :
    HeadsEmpty (getTopicBuffer e h topic).2.1 (getTopicBuffer e h topic).2.2 ∧
    GoMap.get (getTopicBuffer e h topic).2.1.topicBuffers topic
      = some (getTopicBuffer e h topic).1 ∧
    (getTopicBuffer e h topic).2.1.snapFns = e.snapFns ∧
    (getTopicBuffer e h topic).2.1.snapCache = e.snapCache := by
  unfold getTopicBuffer
  cases hg : GoMap.get e.topicBuffers topic with
  | some buf => exact ⟨he, hg, rfl, rfl⟩
  | none =>
    refine ⟨?_, GoMap.get_set_self _ _ _, rfl, rfl⟩
    intro t buf hgt
    by_cases ht : t = topic
    · subst ht
      simp only [GoMap.get_set_self, Option.some.injEq] at hgt
      subst hgt
      refine ⟨?_, ?_, ?_⟩
      · simp [NewEventBuffer, NewBufferItem]
      · simp only [NewEventBuffer, NewBufferItem, Head, getD_append_at_length]
        simp
      · simp only [NewEventBuffer, NewBufferItem, Head, Heap.item, getD_append_at_length]
    · simp only [GoMap.get_set_ne _ _ ht] at hgt
      exact HeadsEmpty_NewEventBuffer e h he t buf hgt

theorem getSnapshotLocked_panic (e : EventPublisher) (h : Heap) (req : SubscribeRequest)
    (topicHead : Nat) (fn : SnapFn) (hc : cachedSnap e req.Topic req.Key = none)
    (hfn : GoMap.get e.snapFns req.Topic = some fn) (hp : fn req = SnapResult.panic) :
    ∃ e1 : EventPublisher,
      getSnapshotLocked e h req topicHead = (Outcome.panic, e1, (NewEventBuffer h).2) ∧
      e1.snapFns = e.snapFns ∧ e1.topicBuffers = e.topicBuffers ∧
      e1.subsByToken = e.subsByToken ∧ ∀ t k, cachedSnap e1 t k = cachedSnap e t k := by
  unfold cachedSnap at hc
  cases hg : GoMap.get e.snapCache req.Topic with
  | none =>
    refine ⟨{ e with snapCache := GoMap.set e.snapCache req.Topic [] }, ?_, rfl, rfl, rfl, ?_⟩
    · simp [getSnapshotLocked, hg, hfn, NewEventSnapshot, hp, GoMap.get]
    · intro t k
      by_cases ht : t = req.Topic
      · subst ht
        simp [cachedSnap, hg, GoMap.get_set_self, GoMap.get]
      · simp [cachedSnap, GoMap.get_set_ne _ _ ht]
  | some topicSnaps =>
    simp only [hg] at hc
    refine ⟨e, ?_, rfl, rfl, rfl, fun _ _ => rfl⟩
    simp [getSnapshotLocked, hg, hc, hfn, NewEventSnapshot, hp]

theorem canResume_nil (req : SubscribeRequest) : canResume req [] = false := by
  simp [canResume]

theorem Subscribe_program (store : Store) (e : EventPublisher) (h : Heap)
    (req : SubscribeRequest) (hinv : ProgramInv store e h) :
    (∀ sub, (Subscribe topicRegistry e h req).1 ≠ Outcome.ok sub) ∧
    ProgramInv store (Subscribe topicRegistry e h req).2.1 (Subscribe topicRegistry e h req).2.2 := by
  obtain ⟨hfns, hcache, hheads⟩ := hinv
  by_cases ht : req.Topic = Topic.ACLTokens
  · obtain ⟨g1, g2, g3, g4⟩ := HeadsEmpty_getTopicBuffer e h req.Topic hheads
    have hev : ((getTopicBuffer e h req.Topic).2.2.item
        (Head (getTopicBuffer e h req.Topic).2.2 (getTopicBuffer e h req.Topic).1)).Events = [] :=
      (g1 _ _ g2).2.2
    have hc1 : cachedSnap (getTopicBuffer e h req.Topic).2.1 req.Topic req.Key = none := by
      have := hcache req.Topic req.Key
      simpa only [cachedSnap, g4] using this
    have hf1 : GoMap.get (getTopicBuffer e h req.Topic).2.1.snapFns req.Topic
        = some (snapFnOf store none) := by
      rw [g3, hfns, ht]
      simp [GoMap.get]
    obtain ⟨e1, hres, k1, k2, _, k4⟩ := getSnapshotLocked_panic
      (getTopicBuffer e h req.Topic).2.1 (getTopicBuffer e h req.Topic).2.2 req
      (Head (getTopicBuffer e h req.Topic).2.2 (getTopicBuffer e h req.Topic).1)
      (snapFnOf store none) hc1 hf1 rfl
    have hsub : Subscribe topicRegistry e h req =
        (Outcome.panic, e1, (NewEventBuffer (getTopicBuffer e h req.Topic).2.2).2) := by
      have hreg : GoMap.get topicRegistry req.Topic =
          some ⟨none, some (fun tx changes => aclEventsFromChanges tx changes [])⟩ := by
        rw [ht]
        rfl
      simp only [Subscribe, hreg, hev, canResume_nil, Bool.false_eq_true, if_false,
        subscribeSnapshot, hres]
    rw [hsub]
    refine ⟨(fun sub hc => by cases hc), ?_, ?_, ?_⟩
    · show e1.snapFns = _
      rw [k1, g3, hfns]
    · intro t k
      show cachedSnap e1 t k = none
      rw [k4 t k]
      have := hcache t k
      simpa only [cachedSnap, g4] using this
    · have hh := HeadsEmpty_NewEventBuffer _ _ g1
      intro topic buf hg
      show _ < _ ∧ _ < _ ∧ _ = []
      have hg2 : GoMap.get (getTopicBuffer e h req.Topic).2.1.topicBuffers topic = some buf := by
        rw [← k2]
        exact hg
      exact hh topic buf hg2
  · have hreg : GoMap.get topicRegistry req.Topic = none := by
      have ht2 : ¬ Topic.ACLTokens = req.Topic := fun hc => ht hc.symm
      simp [topicRegistry, GoMap.get, ht2]
    have hsub : Subscribe topicRegistry e h req =
        (Outcome.error (Error.unknownTopic req.Topic), e, h) := by
      simp [Subscribe, hreg]
    rw [hsub]
    exact ⟨(fun sub hc => by cases hc), hfns, hcache, hheads⟩

theorem ProgramInv_Unsubscribe (store : Store) (e : EventPublisher) (h : Heap)
    (req : SubscribeRequest) (hinv : ProgramInv store e h) :
    ProgramInv store (Unsubscribe e req) h := by
  have hf := Unsubscribe_other_fields e req
  have h1 : (Unsubscribe e req).snapFns = e.snapFns := by
    have := congrArg EventPublisher.snapFns hf
    exact this
  have h2 : (Unsubscribe e req).snapCache = e.snapCache := by
    have := congrArg EventPublisher.snapCache hf
    exact this
  have h3 : (Unsubscribe e req).topicBuffers = e.topicBuffers := by
    have := congrArg EventPublisher.topicBuffers hf
    exact this
  obtain ⟨a, b, c⟩ := hinv
  refine ⟨by rw [h1]; exact a, ?_, ?_⟩
  · intro t k
    have := b t k
    simpa only [cachedSnap, h2] using this
  · intro topic buf hg
    rw [h3] at hg
    exact c topic buf hg

theorem program_step (store : Store) (s : RunState) (c : Call)
    (hinv : ProgramInv store s.pub s.heap) (hlive : s.live = []) :
    ProgramInv store (step topicRegistry s c).pub (step topicRegistry s c).heap ∧
      (step topicRegistry s c).live = [] := by
  cases c with
  | subscribe req =>
    obtain ⟨hno, hprog⟩ := Subscribe_program store s.pub s.heap req hinv
    rcases hres : Subscribe topicRegistry s.pub s.heap req with ⟨o, e1, h1⟩
    rw [hres] at hno hprog
    cases o with
    | ok sub => exact absurd rfl (hno sub)
    | error err =>
      simp only [step, hres]
      exact ⟨hprog, hlive⟩
    | panic =>
      simp only [step, hres]
      exact ⟨hprog, hlive⟩
  | unsubscribe req =>
    simp only [step, hlive, List.filter_nil]
    exact ⟨ProgramInv_Unsubscribe store s.pub s.heap req hinv, trivial⟩

theorem program_foldl (store : Store) (calls : List Call) (s : RunState)
    (hinv : ProgramInv store s.pub s.heap) (hlive : s.live = []) :
    (calls.foldl (step topicRegistry) s).live = [] := by
  induction calls generalizing s with
  | nil => exact hlive
  | cons c rest ih =>
    obtain ⟨h1, h2⟩ := program_step store s c hinv hlive
    exact ih _ h1 h2

theorem program_run_live (store : Store) (topicBufferSize snapCacheTTL : Int)
    (calls : List Call) :
    (run topicRegistry store topicBufferSize snapCacheTTL calls).live = [] := by
  apply program_foldl store
  · refine ⟨rfl, ?_, ?_⟩
    · intro t k
      simp [cachedSnap, NewEventPublisher, GoMap.get]
    · intro topic buf hg
      simp [NewEventPublisher, GoMap.get] at hg
  · rfl

/-- C9: in every state reachable from a new publisher of the program (registry
`topicRegistry`) by `Subscribe` and `Unsubscribe` calls, every subscription
returned by a successful `Subscribe` whose request object was not since passed
to `Unsubscribe` is stored in `subsByToken` under the token of its request and
under no other token. With this registry no `Subscribe` succeeds (a topic
without entry gives the unknown-topic error, `Topic_ACLTokens` calls its nil
snapshot function), so there is never such a subscription. For every registry,
the subscription returned by the latest successful `Subscribe` with a request
object not since unsubscribed is stored under the token of its request and
under no other token. -/
theorem C9_live_subscriptions_stored (reg : GoMap Topic topicHandlers) (store : Store)
    (topicBufferSize snapCacheTTL : Int) (calls : List Call) :
    liveStored (run topicRegistry store topicBufferSize snapCacheTTL calls).pub
      (run topicRegistry store topicBufferSize snapCacheTTL calls).live ∧
    (run topicRegistry store topicBufferSize snapCacheTTL calls).live = [] ∧
    liveStored (run reg store topicBufferSize snapCacheTTL calls).pub
      (latestLive (run reg store topicBufferSize snapCacheTTL calls).live) := by
  have hlive := program_run_live store topicBufferSize snapCacheTTL calls
  refine ⟨?_, hlive, latest_live_stored reg store topicBufferSize snapCacheTTL calls⟩
  intro p hp
  rw [hlive] at hp
  cases hp

end Consul
